import Mathlib

/-!
Verification of the SPIR-V post-processing (legalization) pass
`Builder::postProcess` from `SpvPostProcess.cpp`.

The pass is embedded shallowly: instructions, blocks, functions and the
builder state (decorations, capability and extension sets) are explicit
data, and each phase of the pass (decoration pruning, per-instruction
legalization, default-aliasing fill, whole-module sweep) is a computable
function translated from the source.  Collaborator operations that live
outside the translated file (identifier resolution, the type classifiers,
block visitation order) are modelled from the specification and marked as
such in their doc comments.
-/

namespace Spv

/-- Identifier type of the IR; 0 is the sentinel for "no result" / "no type". -/
abbrev Id := Nat

/-- Opcodes used by the pass.  `other n` stands for any opcode the pass has no
specific rule for. -/
inductive Op where
  | OpNop
  | OpTypeInt
  | OpTypeFloat
  | OpTypeVector
  | OpTypeMatrix
  | OpTypeArray
  | OpTypeRuntimeArray
  | OpTypeStruct
  | OpTypePointer
  | OpConstant
  | OpVariable
  | OpLoad
  | OpStore
  | OpAccessChain
  | OpPtrAccessChain
  | OpCopyObject
  | OpFConvert
  | OpSConvert
  | OpUConvert
  | OpExtInst
  | OpDPdxFine
  | OpDPdyFine
  | OpFwidthFine
  | OpDPdxCoarse
  | OpDPdyCoarse
  | OpFwidthCoarse
  | OpImageQueryLod
  | OpImageQuerySize
  | OpImageQuerySizeLod
  | OpImageQuerySamples
  | OpImageQueryLevels
  | OpGroupNonUniformPartitionNV
  | OpDecorate
  | OpMemberDecorate
  | OpLabel
  | OpBranch
  | OpReturn
  | other (n : Nat)
deriving DecidableEq, Repr

/-- Storage class literals (values of the SPIR-V enumeration). -/
def StorageClassInput : Nat := 1

def StorageClassUniform : Nat := 2

def StorageClassOutput : Nat := 3

def StorageClassPrivate : Nat := 6

def StorageClassFunctionLocal : Nat := 7

def StorageClassPushConstant : Nat := 9

def StorageClassStorageBuffer : Nat := 12

def StorageClassPhysicalStorageBufferEXT : Nat := 5349

/-- Decoration kind literals. -/
def DecorationArrayStride : Nat := 6

def DecorationMatrixStride : Nat := 7

def DecorationOffset : Nat := 35

def DecorationRestrictPointerEXT : Nat := 5355

def DecorationAliasedPointerEXT : Nat := 5356

/-- Capability literals. -/
def CapabilityFloat16 : Nat := 9

def CapabilityInt16 : Nat := 22

def CapabilityInt8 : Nat := 39

def CapabilityImageQuery : Nat := 50

def CapabilityDerivativeControl : Nat := 51

def CapabilityInterpolationFunction : Nat := 52

def CapabilityStorageBuffer16BitAccess : Nat := 4433

def CapabilityStorageBuffer8BitAccess : Nat := 4448

def CapabilityGroupNonUniformPartitionedNV : Nat := 5297

/-- Extension name strings. -/
def E_SPV_KHR_8bit_storage : String := "SPV_KHR_8bit_storage"

def E_SPV_KHR_16bit_storage : String := "SPV_KHR_16bit_storage"

def E_SPV_NV_shader_subgroup_partitioned : String := "SPV_NV_shader_subgroup_partitioned"

def E_SPV_AMD_gpu_shader_int16 : String := "SPV_AMD_gpu_shader_int16"

def E_SPV_AMD_gpu_shader_half_float : String := "SPV_AMD_gpu_shader_half_float"

/-- Extended instruction set (GLSL.std.450) literals. -/
def GLSLstd450Frexp : Nat := 51

def GLSLstd450FrexpStruct : Nat := 52

def GLSLstd450InterpolateAtCentroid : Nat := 76

def GLSLstd450InterpolateAtSample : Nat := 77

def GLSLstd450InterpolateAtOffset : Nat := 78

/-- Memory access "Aligned" flag bit. -/
def MemoryAccessAlignedMask : Nat := 2

/-- Target-version literal for SPIR-V 1.3 (glslang `EShTargetSpv_1_3`). -/
def EShTargetSpv_1_3 : Nat := 66304

/-- An instruction: opcode, optional result id and result-type id (0 when
absent), and a word list of operands with a parallel list of flags telling
which words are ids (mirrors the source's `operands` and `idOperand`
vectors; id and immediate accessors both read the raw word). -/
structure Instruction where
  opcode : Op := Op.OpNop
  resultId : Id := 0
  typeId : Id := 0
  operands : List Nat := []
  idOperand : List Bool := []
deriving DecidableEq, Repr

instance : Inhabited Instruction := ⟨{}⟩

def Instruction.getOpCode (inst : Instruction) : Op := inst.opcode

def Instruction.getResultId (inst : Instruction) : Id := inst.resultId

def Instruction.getTypeId (inst : Instruction) : Id := inst.typeId

def Instruction.getIdOperand (inst : Instruction) (n : Nat) : Id := inst.operands.getD n 0

def Instruction.getImmediateOperand (inst : Instruction) (n : Nat) : Nat := inst.operands.getD n 0

def Instruction.getNumOperands (inst : Instruction) : Nat := inst.operands.length

def Instruction.isIdOperand (inst : Instruction) (n : Nat) : Bool := inst.idOperand.getD n false

def Instruction.setImmediateOperand (inst : Instruction) (n : Nat) (v : Nat) : Instruction :=
  { inst with operands := inst.operands.set n v }

/-- Modelled from the spec: a block owns an ordered instruction sequence, a
separate subsequence of local-variable declarations, and successor edges
(indices of successor blocks inside the owning function) defined by its
terminator.  The `Block` class itself is not part of the translated file. -/
structure Block where
  instructions : List Instruction := []
  localVariables : List Instruction := []
  successors : List Nat := []
deriving DecidableEq, Repr

instance : Inhabited Block := ⟨{}⟩

/-- Modelled from the spec: a function is an ordered block sequence whose
first block is the entry block. -/
structure Function where
  blocks : List Block := []
deriving DecidableEq, Repr

instance : Inhabited Function := ⟨{}⟩

/-- The builder/module state the pass reads and mutates: global (type and
constant) instructions, function bodies, the flat decoration list, the
capability and extension request sets (kept as duplicate-free lists in
insertion order), and the pre-supplied target version. -/
structure Builder where
  globals : List Instruction := []
  functions : List Function := []
  decorations : List Instruction := []
  capabilities : List Nat := []
  extensions : List String := []
  spvVersion : Nat := 0
deriving DecidableEq, Repr

instance : Inhabited Builder := ⟨{}⟩

abbrev Insts := List Instruction

/-- Modelled from the spec: the module resolves an identifier to the
instruction that defines it.  All instructions having a result id live in the
globals or inside blocks (decorations define no id), so resolution is lookup
by result id over those. -/
def Builder.allInstructions (b : Builder) : Insts :=
  b.globals ++ b.functions.flatMap (fun f => f.blocks.flatMap
    (fun blk => blk.localVariables ++ blk.instructions))

/-- Modelled from the spec: lookup by result id; the default instruction
stands for the undefined behaviour of resolving an unknown id. -/
def findInst (defs : Insts) (i : Id) : Instruction :=
  (defs.find? (fun inst => decide (inst.resultId = i))).getD default

/-- Recursion bound for the type-graph walks: type graphs of well-formed
modules are acyclic, so any strictly descending chain is shorter than the
instruction count (the spec asks for a defensive depth bound). -/
def Builder.fuel (b : Builder) : Nat := b.allInstructions.length + 1

/-- Modelled from the spec: strip arrays, pointers, vectors and matrices down
to the scalar opcode, or return the aggregate's own opcode when the type is
not reducible to a scalar (`getMostBasicTypeClass`). -/
def getMostBasicTypeClass (defs : Insts) : Nat → Id → Op
  | 0, _ => Op.OpNop
  | fl + 1, t =>
    let instr := findInst defs t
    match instr.opcode with
    | Op.OpTypeVector | Op.OpTypeMatrix | Op.OpTypeArray | Op.OpTypeRuntimeArray =>
      getMostBasicTypeClass defs fl (instr.getIdOperand 0)
    | Op.OpTypePointer => getMostBasicTypeClass defs fl (instr.getIdOperand 1)
    | op => op

/-- Modelled from the spec: the id of the scalar type obtained by stripping
vectors, matrices, arrays and pointers. -/
def getScalarTypeId (defs : Insts) : Nat → Id → Id
  | 0, t => t
  | fl + 1, t =>
    let instr := findInst defs t
    match instr.opcode with
    | Op.OpTypeVector | Op.OpTypeMatrix | Op.OpTypeArray | Op.OpTypeRuntimeArray =>
      getScalarTypeId defs fl (instr.getIdOperand 0)
    | Op.OpTypePointer => getScalarTypeId defs fl (instr.getIdOperand 1)
    | _ => t

/-- Modelled from the spec: bit width of the most basic scalar (the width is
the first immediate operand of an integer or float type declaration). -/
def getScalarTypeWidth (defs : Insts) (fl : Nat) (t : Id) : Nat :=
  (findInst defs (getScalarTypeId defs fl t)).getImmediateOperand 0

/-- Modelled from the spec: whether the type transitively contains a scalar
of the given class and width, searching through structs, vectors, matrices
and (runtime) arrays (`containsType`). -/
def containsType (defs : Insts) : Nat → Id → Op → Nat → Bool
  | 0, _, _, _ => false
  | fl + 1, t, typeOp, width =>
    let instr := findInst defs t
    match instr.opcode with
    | Op.OpTypeInt => decide (typeOp = Op.OpTypeInt) && decide (instr.getImmediateOperand 0 = width)
    | Op.OpTypeFloat => decide (typeOp = Op.OpTypeFloat) && decide (instr.getImmediateOperand 0 = width)
    | Op.OpTypeStruct =>
      (List.range instr.operands.length).any
        (fun m => containsType defs fl (instr.getIdOperand m) typeOp width)
    | Op.OpTypeVector | Op.OpTypeMatrix | Op.OpTypeArray | Op.OpTypeRuntimeArray =>
      containsType defs fl (instr.getIdOperand 0) typeOp width
    | _ => false

/-- Modelled from the spec: whether the type transitively contains, at any
depth, a pointer (or array of pointers) into the byte-addressable
(PhysicalStorageBufferEXT) storage class. -/
def containsPhysicalStorageBufferOrArray (defs : Insts) : Nat → Id → Bool
  | 0, _ => false
  | fl + 1, t =>
    let instr := findInst defs t
    match instr.opcode with
    | Op.OpTypePointer => decide (instr.getImmediateOperand 0 = StorageClassPhysicalStorageBufferEXT)
    | Op.OpTypeArray | Op.OpTypeRuntimeArray =>
      containsPhysicalStorageBufferOrArray defs fl (instr.getIdOperand 0)
    | Op.OpTypeStruct =>
      (List.range instr.operands.length).any
        (fun m => containsPhysicalStorageBufferOrArray defs fl (instr.getIdOperand m))
    | _ => false

/-- Modelled from the spec: result-type id of the instruction defining `i`. -/
def getTypeIdOf (defs : Insts) (i : Id) : Id := (findInst defs i).typeId

/-- Modelled from the spec: the storage class of a value is the first
immediate operand of its pointer type (`getStorageClass`). -/
def getStorageClass (defs : Insts) (i : Id) : Nat :=
  (findInst defs (getTypeIdOf defs i)).getImmediateOperand 0

/-- Modelled from the spec: the pointee type of a pointer-typed value
(`getDerefTypeId`); the pointee id is the second operand of a pointer type. -/
def getDerefTypeId (defs : Insts) (i : Id) : Id :=
  (findInst defs (getTypeIdOf defs i)).getIdOperand 1

/-- Adding an already-present capability is a no-op; otherwise it is appended
(the source keeps a set; insertion order is kept here). -/
def Builder.addCapability (b : Builder) (c : Nat) : Builder :=
  if c ∈ b.capabilities then b else { b with capabilities := b.capabilities ++ [c] }

/-- Adding an already-present extension is a no-op; otherwise it is appended. -/
def Builder.addExtension (b : Builder) (e : String) : Builder :=
  if e ∈ b.extensions then b else { b with extensions := b.extensions ++ [e] }

/-- The decoration record `addDecoration(id, decoration)` builds: an
`OpDecorate` with the target id and the decoration literal. -/
def aliasedDecoration (r : Id) : Instruction :=
  { opcode := Op.OpDecorate, operands := [r, DecorationAliasedPointerEXT],
    idOperand := [true, false] }

/-- Applies a list of capability requests then a list of extension requests. -/
def Builder.applyReqs (b : Builder) (r : List Nat × List String) : Builder :=
  (r.1.foldl Builder.addCapability b) |> (fun s => r.2.foldl Builder.addExtension s)

/-- Opcode-only rules of `postProcess(Instruction&)`: the requests driven
purely by the opcode (and, for `OpExtInst`, the extended-instruction number
in immediate operand 1). -/
def switchReqs (inst : Instruction) : List Nat × List String :=
  if inst.opcode = Op.OpExtInst then
    if inst.getImmediateOperand 1 = GLSLstd450InterpolateAtCentroid ∨
       inst.getImmediateOperand 1 = GLSLstd450InterpolateAtSample ∨
       inst.getImmediateOperand 1 = GLSLstd450InterpolateAtOffset
    then ([CapabilityInterpolationFunction], []) else ([], [])
  else if inst.opcode = Op.OpDPdxFine ∨ inst.opcode = Op.OpDPdyFine ∨
          inst.opcode = Op.OpFwidthFine ∨ inst.opcode = Op.OpDPdxCoarse ∨
          inst.opcode = Op.OpDPdyCoarse ∨ inst.opcode = Op.OpFwidthCoarse then
    ([CapabilityDerivativeControl], [])
  else if inst.opcode = Op.OpImageQueryLod ∨ inst.opcode = Op.OpImageQuerySize ∨
          inst.opcode = Op.OpImageQuerySizeLod ∨ inst.opcode = Op.OpImageQuerySamples ∨
          inst.opcode = Op.OpImageQueryLevels then
    ([CapabilityImageQuery], [])
  else if inst.opcode = Op.OpGroupNonUniformPartitionNV then
    ([CapabilityGroupNonUniformPartitionedNV], [E_SPV_NV_shader_subgroup_partitioned])
  else ([], [])

/-- The access-chain index walk of the load/store case: starting from the
pointee type, a struct index looks up Offset/MatrixStride member decorations
of the struct and ORs their literals into the accumulator, then descends into
the member type; an array index ORs in ArrayStride decorations of the array
type and descends into the element type; any non-aggregate type stops the
walk. -/
def alignLoop (defs : Insts) (decs : List Instruction) (chain : Instruction) :
    List Nat → Id → Nat → Nat
  | [], _, a => a
  | i :: rest, typeId, a =>
    let type := findInst defs typeId
    let idx := findInst defs (chain.getIdOperand i)
    match type.opcode with
    | Op.OpTypeStruct =>
      let c := idx.getImmediateOperand 0
      let a' := decs.foldl (fun acc d =>
        if d.opcode = Op.OpMemberDecorate ∧ d.getIdOperand 0 = typeId ∧
           d.getImmediateOperand 1 = c ∧
           (d.getImmediateOperand 2 = DecorationOffset ∨
            d.getImmediateOperand 2 = DecorationMatrixStride)
        then acc ||| d.getImmediateOperand 3 else acc) a
      alignLoop defs decs chain rest (type.getIdOperand c) a'
    | Op.OpTypeArray | Op.OpTypeRuntimeArray =>
      let a' := decs.foldl (fun acc d =>
        if d.opcode = Op.OpDecorate ∧ d.getIdOperand 0 = typeId ∧
           d.getImmediateOperand 1 = DecorationArrayStride
        then acc ||| d.getImmediateOperand 2 else acc) a
      alignLoop defs decs chain rest (type.getIdOperand 0) a'
    | _ => a

/-- The alignment operand index of a load/store: 2 for `OpLoad`, 3 for
`OpStore`. -/
def alignmentIdx (inst : Instruction) : Nat := if inst.opcode = Op.OpStore then 3 else 2

/-- The accumulated misalignment for a load/store whose pointer operand is
the given access chain: the index-walk result starting at the pointee type of
the chain base's pointer type. -/
def chainAlignment (defs : Insts) (decs : List Instruction) (chain : Instruction) : Nat :=
  let base := findInst defs (chain.getIdOperand 0)
  let type := findInst defs base.typeId
  alignLoop defs decs chain (List.range' 1 (chain.getNumOperands - 1)) (type.getIdOperand 1) 0

/-- The 32-bit lowest-set-bit reduction the source performs:
`alignment & ~(alignment & (alignment-1))` on a 32-bit value. -/
def lowestSetBit32 (v : Nat) : Nat := v &&& (4294967295 ^^^ (v &&& (v - 1)))

/-- The load/store case of `postProcess(Instruction&)`: if the pointer
operand is defined by an access chain whose base has a pointer type in the
byte-addressable storage class, recompute the misalignment, OR it with the
alignment already stored in the aligned-memory-access operand, reduce to the
lowest set bit and write it back; otherwise leave the instruction alone. -/
def rewriteInst (defs : Insts) (decs : List Instruction) (inst : Instruction) : Instruction :=
  let accessChain := findInst defs (inst.getIdOperand 0)
  if accessChain.opcode = Op.OpAccessChain then
    let base := findInst defs (accessChain.getIdOperand 0)
    let type := findInst defs base.typeId
    if type.getImmediateOperand 0 ≠ StorageClassPhysicalStorageBufferEXT then inst
    else
      let alignment := chainAlignment defs decs accessChain
      let a2 := alignment ||| inst.getImmediateOperand (alignmentIdx inst)
      inst.setImmediateOperand (alignmentIdx inst) (lowestSetBit32 a2)
  else inst

/-- Hook `postProcessType`: called once per typed operand and once for the
result type of an instruction; requests capabilities and extensions driven by
the type and, for loads and stores, the storage class of the pointer
operand. -/
def Builder.postProcessType (b : Builder) (inst : Instruction) (typeId : Id) : Builder :=
  let defs := b.allInstructions
  let fl := b.fuel
  let basicTypeOp := getMostBasicTypeClass defs fl typeId
  let width :=
    if basicTypeOp = Op.OpTypeFloat ∨ basicTypeOp = Op.OpTypeInt
    then getScalarTypeWidth defs fl typeId else 0
  if inst.opcode = Op.OpLoad ∨ inst.opcode = Op.OpStore then
    if basicTypeOp = Op.OpTypeStruct then
      let b := if containsType defs fl typeId Op.OpTypeInt 8 then b.addCapability CapabilityInt8 else b
      let b := if containsType defs fl typeId Op.OpTypeInt 16 then b.addCapability CapabilityInt16 else b
      if containsType defs fl typeId Op.OpTypeFloat 16 then b.addCapability CapabilityFloat16 else b
    else
      let storageClass := getStorageClass defs (inst.getIdOperand 0)
      if width = 8 then
        if storageClass = StorageClassPhysicalStorageBufferEXT ∨
           storageClass = StorageClassUniform ∨
           storageClass = StorageClassStorageBuffer ∨
           storageClass = StorageClassPushConstant
        then b else b.addCapability CapabilityInt8
      else if width = 16 then
        if storageClass = StorageClassPhysicalStorageBufferEXT ∨
           storageClass = StorageClassUniform ∨
           storageClass = StorageClassStorageBuffer ∨
           storageClass = StorageClassPushConstant ∨
           storageClass = StorageClassInput ∨
           storageClass = StorageClassOutput
        then b
        else
          let b := if basicTypeOp = Op.OpTypeInt then b.addCapability CapabilityInt16 else b
          if basicTypeOp = Op.OpTypeFloat then b.addCapability CapabilityFloat16 else b
      else b
  else if inst.opcode = Op.OpAccessChain ∨ inst.opcode = Op.OpPtrAccessChain ∨
          inst.opcode = Op.OpCopyObject ∨ inst.opcode = Op.OpFConvert ∨
          inst.opcode = Op.OpSConvert ∨ inst.opcode = Op.OpUConvert then b
  else if inst.opcode = Op.OpExtInst then
    if inst.getImmediateOperand 1 = GLSLstd450Frexp ∨
       inst.getImmediateOperand 1 = GLSLstd450FrexpStruct then
      if b.spvVersion < EShTargetSpv_1_3 ∧ containsType defs fl typeId Op.OpTypeInt 16
      then b.addExtension E_SPV_AMD_gpu_shader_int16 else b
    else if inst.getImmediateOperand 1 = GLSLstd450InterpolateAtCentroid ∨
            inst.getImmediateOperand 1 = GLSLstd450InterpolateAtSample ∨
            inst.getImmediateOperand 1 = GLSLstd450InterpolateAtOffset then
      if b.spvVersion < EShTargetSpv_1_3 ∧ containsType defs fl typeId Op.OpTypeFloat 16
      then b.addExtension E_SPV_AMD_gpu_shader_half_float else b
    else b
  else
    let b := if basicTypeOp = Op.OpTypeFloat ∧ width = 16 then b.addCapability CapabilityFloat16 else b
    let b := if basicTypeOp = Op.OpTypeInt ∧ width = 16 then b.addCapability CapabilityInt16 else b
    if basicTypeOp = Op.OpTypeInt ∧ width = 8 then b.addCapability CapabilityInt8 else b

/-- Per-instruction entry `postProcess(Instruction&)`: opcode rules first
(including the load/store alignment rewrite), then the type-driven hook for
the result type and for each id operand that has a type. -/
def Builder.postProcessInst (b : Builder) (inst : Instruction) : Builder × Instruction :=
  let b1 := b.applyReqs (switchReqs inst)
  let inst1 :=
    if inst.opcode = Op.OpLoad ∨ inst.opcode = Op.OpStore
    then rewriteInst b.allInstructions b.decorations inst else inst
  let b2 := if inst1.typeId ≠ 0 then b1.postProcessType inst1 inst1.typeId else b1
  let b3 := (List.range inst1.getNumOperands).foldl (fun s op =>
    if inst1.isIdOperand op ∧ getTypeIdOf s.allInstructions (inst1.getIdOperand op) ≠ 0
    then s.postProcessType inst1 (getTypeIdOf s.allInstructions (inst1.getIdOperand op))
    else s) b2
  (b3, inst1)

/-- Modelled from the spec: successor indices of a block inside a function. -/
def blockSuccessors (f : Function) (bi : Nat) : List Nat := (f.blocks.getD bi default).successors

/-- Modelled from the spec: the set of block indices reachable from the entry
block (index 0) by following terminator-defined successor edges; this is the
visited set of the ordered block visitation collaborator `inReadableOrder`. -/
def reachClose (f : Function) : Nat → List Nat → List Nat
  | 0, acc => acc
  | fl + 1, acc =>
    let next := ((acc.flatMap (fun bi => blockSuccessors f bi)).filter
      (fun s => decide (s ∉ acc))).dedup
    if next = [] then acc else reachClose f fl (acc ++ next)

def Function.reachableBlocks (f : Function) : List Nat :=
  reachClose f f.blocks.length [0]

/-- Result ids collected from the instructions of every block not reachable
from its function's entry block, across all functions. -/
def Builder.orphanedIds (b : Builder) : List Id :=
  b.functions.foldl (fun acc f =>
    let reach := f.reachableBlocks
    (List.range f.blocks.length).foldl (fun acc2 bi =>
      if bi ∈ reach then acc2
      else acc2 ++ (f.blocks.getD bi default).instructions.map Instruction.getResultId) acc) []

/-- Decoration pruning: drop every decoration whose target id (operand 0) is
among the orphaned ids. -/
def Builder.pruneDecorations (b : Builder) : Builder :=
  let orphan := b.orphanedIds
  { b with decorations := b.decorations.filter (fun d => decide (d.getIdOperand 0 ∉ orphan)) }

/-- The scan the default-aliasing fill performs on one decoration record:
an `OpDecorate` targeting the given id whose kind is AliasedPointerEXT or
RestrictPointerEXT. -/
def aliasMarkerFor (resultId : Id) (d : Instruction) : Bool :=
  decide (d.getIdOperand 0 = resultId) && decide (d.opcode = Op.OpDecorate) &&
  (decide (d.getImmediateOperand 1 = DecorationAliasedPointerEXT) ||
   decide (d.getImmediateOperand 1 = DecorationRestrictPointerEXT))

/-- An `OpDecorate` record attaching AliasedPointerEXT to the given id. -/
def isAliasedFor (resultId : Id) (d : Instruction) : Bool :=
  decide (d.opcode = Op.OpDecorate) && decide (d.getIdOperand 0 = resultId) &&
  decide (d.getImmediateOperand 1 = DecorationAliasedPointerEXT)

/-- Default-aliasing fill for one local variable: when its pointee type
transitively contains a byte-addressable pointer and no Aliased/Restrict
pointer decoration targets it yet, append an AliasedPointerEXT decoration. -/
def Builder.fillLocalVar (b : Builder) (v : Instruction) : Builder :=
  let resultId := v.getResultId
  if containsPhysicalStorageBufferOrArray b.allInstructions b.fuel
      (getDerefTypeId b.allInstructions resultId) then
    let foundDecoration := b.decorations.any (aliasMarkerFor resultId)
    if foundDecoration then b
    else { b with decorations := b.decorations ++ [aliasedDecoration resultId] }
  else b

def Builder.blockAtPos (b : Builder) (fi bi : Nat) : Block :=
  (b.functions.getD fi default).blocks.getD bi default

def Builder.instAt (b : Builder) (fi bi ii : Nat) : Instruction :=
  (b.blockAtPos fi bi).instructions.getD ii default

/-- Result ids of all local-variable declarations of all blocks. -/
def Builder.localVarIds (b : Builder) : List Id :=
  b.functions.flatMap (fun f => f.blocks.flatMap
    (fun blk => blk.localVariables.map Instruction.getResultId))

def Builder.setInstAt (b : Builder) (fi bi ii : Nat) (inst : Instruction) : Builder :=
  let f := b.functions.getD fi default
  let blk := f.blocks.getD bi default
  let blk2 := { blk with instructions := blk.instructions.set ii inst }
  let f2 := { f with blocks := f.blocks.set bi blk2 }
  { b with functions := b.functions.set fi f2 }

/-- Process one block-contained instruction: run the per-instruction entry
and store the (possibly rewritten) instruction back in place. -/
def Builder.processInstAt (b : Builder) (fi bi ii : Nat) : Builder :=
  let r := b.postProcessInst (b.instAt fi bi ii)
  r.1.setInstAt fi bi ii r.2

def Builder.processInsts (b : Builder) (fi bi : Nat) : Builder :=
  (List.range (b.blockAtPos fi bi).instructions.length).foldl
    (fun s ii => s.processInstAt fi bi ii) b

def Builder.fillVars (b : Builder) (fi bi : Nat) : Builder :=
  (b.blockAtPos fi bi).localVariables.foldl Builder.fillLocalVar b

def Builder.processBlockAt (b : Builder) (fi bi : Nat) : Builder :=
  (b.processInsts fi bi).fillVars fi bi

def Builder.processFunctionAt (b : Builder) (fi : Nat) : Builder :=
  (List.range (b.functions.getD fi default).blocks.length).foldl
    (fun s bi => s.processBlockAt fi bi) b

def Builder.processAllFunctions (b : Builder) : Builder :=
  (List.range b.functions.length).foldl Builder.processFunctionAt b

/-- One step of the whole-module sweep over pointer-type instructions. -/
def Builder.sweepStep (b : Builder) (type : Instruction) : Builder :=
  if type.getImmediateOperand 0 = StorageClassPhysicalStorageBufferEXT then
    let b :=
      if containsType b.allInstructions b.fuel (type.getIdOperand 1) Op.OpTypeInt 8
      then (b.addExtension E_SPV_KHR_8bit_storage).addCapability CapabilityStorageBuffer8BitAccess
      else b
    if containsType b.allInstructions b.fuel (type.getIdOperand 1) Op.OpTypeInt 16 ∨
       containsType b.allInstructions b.fuel (type.getIdOperand 1) Op.OpTypeFloat 16
    then (b.addExtension E_SPV_KHR_16bit_storage).addCapability CapabilityStorageBuffer16BitAccess
    else b
  else b

/-- The module's pointer-type table (`groupedTypes[OpTypePointer]`),
modelled from the spec as the pointer-type instructions among the globals. -/
def Builder.groupedTypesPointer (b : Builder) : List Instruction :=
  b.globals.filter (fun t => decide (t.opcode = Op.OpTypePointer))

/-- Whole-module sweep: visit every pointer type; byte-addressable ones
request 8-bit and 16-bit storage extensions and capabilities when the pointee
contains such scalars. -/
def Builder.sweep (b : Builder) : Builder :=
  b.groupedTypesPointer.foldl Builder.sweepStep b

/-- The whole pass `Builder::postProcess()`: reachability and pruning, then
per-instruction legalization and default-aliasing fill over every block of
every function, then the whole-module sweep. -/
def Builder.postProcessAll (b : Builder) : Builder :=
  (b.pruneDecorations.processAllFunctions).sweep

/-- Lowest set bit, stated independently of the source's bit trick: 0 maps
to 0, an odd number to 1, an even number to twice the lowest set bit of its
half. -/
def lowestSetBitSpec : Nat → Nat
  | 0 => 0
  | v + 1 => if (v + 1) % 2 = 1 then 1 else 2 * lowestSetBitSpec ((v + 1) / 2)
decreasing_by exact Nat.div_lt_self (Nat.succ_pos v) (by omega)

/-! Concrete witness module: a struct with one float member behind a
byte-addressable pointer, accessed through an access chain by a load
carrying an aligned memory operand, with one member-offset decoration. -/

def wFloat32 : Instruction :=
  { opcode := Op.OpTypeFloat, resultId := 1, operands := [32], idOperand := [false] }

def wStruct : Instruction :=
  { opcode := Op.OpTypeStruct, resultId := 2, operands := [1], idOperand := [true] }

def wPtrPSB : Instruction :=
  { opcode := Op.OpTypePointer, resultId := 3,
    operands := [StorageClassPhysicalStorageBufferEXT, 2], idOperand := [false, true] }

def wVar : Instruction :=
  { opcode := Op.OpVariable, resultId := 4, typeId := 3,
    operands := [StorageClassFunctionLocal], idOperand := [false] }

def wConst0 : Instruction :=
  { opcode := Op.OpConstant, resultId := 5, operands := [0], idOperand := [false] }

def wChain : Instruction :=
  { opcode := Op.OpAccessChain, resultId := 6, typeId := 3,
    operands := [4, 5], idOperand := [true, true] }

def wLoad : Instruction :=
  { opcode := Op.OpLoad, resultId := 7, typeId := 1,
    operands := [6, MemoryAccessAlignedMask, 4], idOperand := [true, false, false] }

def wOffsetDec : Instruction :=
  { opcode := Op.OpMemberDecorate, operands := [2, 0, DecorationOffset, 8],
    idOperand := [true, false, false, false] }

def wReturn : Instruction := { opcode := Op.OpReturn }

def wBlock : Block :=
  { instructions := [wChain, wLoad, wReturn], localVariables := [wVar] }

def wBuilder : Builder :=
  { globals := [wFloat32, wStruct, wPtrPSB, wConst0],
    functions := [{ blocks := [wBlock] }], decorations := [wOffsetDec] }


/-- Witness module for the scalar-width rules: a 16-bit integer type loaded
once from an input-class variable and once from a private-class variable. -/

def wInt16 : Instruction :=
  { opcode := Op.OpTypeInt, resultId := 20, operands := [16, 0], idOperand := [false, false] }

def wPtrInputI16 : Instruction :=
  { opcode := Op.OpTypePointer, resultId := 21, operands := [StorageClassInput, 20],
    idOperand := [false, true] }

def wPtrPrivateI16 : Instruction :=
  { opcode := Op.OpTypePointer, resultId := 22, operands := [StorageClassPrivate, 20],
    idOperand := [false, true] }

def wVarInput : Instruction :=
  { opcode := Op.OpVariable, resultId := 23, typeId := 21,
    operands := [StorageClassInput], idOperand := [false] }

def wVarPrivate : Instruction :=
  { opcode := Op.OpVariable, resultId := 24, typeId := 22,
    operands := [StorageClassPrivate], idOperand := [false] }

def wLoadInput : Instruction :=
  { opcode := Op.OpLoad, resultId := 25, typeId := 20, operands := [23], idOperand := [true] }

def wLoadPrivate : Instruction :=
  { opcode := Op.OpLoad, resultId := 26, typeId := 20, operands := [24], idOperand := [true] }

def wBuilder5 : Builder :=
  { globals := [wInt16, wPtrInputI16, wPtrPrivateI16, wVarInput, wVarPrivate],
    functions := [{ blocks := [{ instructions := [wLoadInput, wLoadPrivate, wReturn] }] }] }

/-- Requests made by one call of `postProcessType`, as explicit lists (used
to reason about the capability and extension sets). -/
def typeReqs (defs : Insts) (fl version : Nat) (inst : Instruction) (typeId : Id) :
    List Nat × List String :=
  let basicTypeOp := getMostBasicTypeClass defs fl typeId
  let width :=
    if basicTypeOp = Op.OpTypeFloat ∨ basicTypeOp = Op.OpTypeInt
    then getScalarTypeWidth defs fl typeId else 0
  if inst.opcode = Op.OpLoad ∨ inst.opcode = Op.OpStore then
    if basicTypeOp = Op.OpTypeStruct then
      ((if containsType defs fl typeId Op.OpTypeInt 8 then [CapabilityInt8] else []) ++
       (if containsType defs fl typeId Op.OpTypeInt 16 then [CapabilityInt16] else []) ++
       (if containsType defs fl typeId Op.OpTypeFloat 16 then [CapabilityFloat16] else []), [])
    else
      let storageClass := getStorageClass defs (inst.getIdOperand 0)
      if width = 8 then
        if storageClass = StorageClassPhysicalStorageBufferEXT ∨
           storageClass = StorageClassUniform ∨
           storageClass = StorageClassStorageBuffer ∨
           storageClass = StorageClassPushConstant
        then ([], []) else ([CapabilityInt8], [])
      else if width = 16 then
        if storageClass = StorageClassPhysicalStorageBufferEXT ∨
           storageClass = StorageClassUniform ∨
           storageClass = StorageClassStorageBuffer ∨
           storageClass = StorageClassPushConstant ∨
           storageClass = StorageClassInput ∨
           storageClass = StorageClassOutput
        then ([], [])
        else
          ((if basicTypeOp = Op.OpTypeInt then [CapabilityInt16] else []) ++
           (if basicTypeOp = Op.OpTypeFloat then [CapabilityFloat16] else []), [])
      else ([], [])
  else if inst.opcode = Op.OpAccessChain ∨ inst.opcode = Op.OpPtrAccessChain ∨
          inst.opcode = Op.OpCopyObject ∨ inst.opcode = Op.OpFConvert ∨
          inst.opcode = Op.OpSConvert ∨ inst.opcode = Op.OpUConvert then ([], [])
  else if inst.opcode = Op.OpExtInst then
    if inst.getImmediateOperand 1 = GLSLstd450Frexp ∨
       inst.getImmediateOperand 1 = GLSLstd450FrexpStruct then
      if version < EShTargetSpv_1_3 ∧ containsType defs fl typeId Op.OpTypeInt 16
      then ([], [E_SPV_AMD_gpu_shader_int16]) else ([], [])
    else if inst.getImmediateOperand 1 = GLSLstd450InterpolateAtCentroid ∨
            inst.getImmediateOperand 1 = GLSLstd450InterpolateAtSample ∨
            inst.getImmediateOperand 1 = GLSLstd450InterpolateAtOffset then
      if version < EShTargetSpv_1_3 ∧ containsType defs fl typeId Op.OpTypeFloat 16
      then ([], [E_SPV_AMD_gpu_shader_half_float]) else ([], [])
    else ([], [])
  else
    ((if basicTypeOp = Op.OpTypeFloat ∧ width = 16 then [CapabilityFloat16] else []) ++
     (if basicTypeOp = Op.OpTypeInt ∧ width = 16 then [CapabilityInt16] else []) ++
     (if basicTypeOp = Op.OpTypeInt ∧ width = 8 then [CapabilityInt8] else []), [])

/-- The instruction as stored back by the per-instruction entry: loads and
stores go through the alignment rewrite, everything else is unchanged. -/
def Builder.rewriteOf (b : Builder) (inst : Instruction) : Instruction :=
  if inst.opcode = Op.OpLoad ∨ inst.opcode = Op.OpStore
  then rewriteInst b.allInstructions b.decorations inst else inst

/-- Capability and extension lists of the second state extend those of the
first: entries are only appended, never removed or reordered. -/
def CapsGrow (b b2 : Builder) : Prop :=
  (∃ l, b2.capabilities = b.capabilities ++ l) ∧ (∃ l, b2.extensions = b.extensions ++ l)

/-- Witness module for the whole-module sweep: a byte-addressable pointer
type whose pointee struct contains an 8-bit integer and a 16-bit float. -/
def wInt8 : Instruction :=
  { opcode := Op.OpTypeInt, resultId := 30, operands := [8, 0], idOperand := [false, false] }

def wFloat16 : Instruction :=
  { opcode := Op.OpTypeFloat, resultId := 31, operands := [16], idOperand := [false] }

def wStructNarrow : Instruction :=
  { opcode := Op.OpTypeStruct, resultId := 32, operands := [30, 31], idOperand := [true, true] }

def wPtrPSBNarrow : Instruction :=
  { opcode := Op.OpTypePointer, resultId := 33,
    operands := [StorageClassPhysicalStorageBufferEXT, 32], idOperand := [false, true] }

def wBuilder7 : Builder :=
  { globals := [wInt8, wFloat16, wStructNarrow, wPtrPSBNarrow] }

/-- Witness module for the default-aliasing fill: a function-local variable
whose pointee struct contains a byte-addressable pointer; one variant without
any marker decoration and one already carrying a restrict-pointer marker. -/

def wStructPSB : Instruction :=
  { opcode := Op.OpTypeStruct, resultId := 40, operands := [3], idOperand := [true] }

def wPtrFnStructPSB : Instruction :=
  { opcode := Op.OpTypePointer, resultId := 41,
    operands := [StorageClassFunctionLocal, 40], idOperand := [false, true] }

def wVarAlias : Instruction :=
  { opcode := Op.OpVariable, resultId := 42, typeId := 41,
    operands := [StorageClassFunctionLocal], idOperand := [false] }

def wRestrictDec : Instruction :=
  { opcode := Op.OpDecorate, operands := [42, DecorationRestrictPointerEXT],
    idOperand := [true, false] }

def wBuilder6 : Builder :=
  { globals := [wFloat32, wStruct, wPtrPSB, wStructPSB, wPtrFnStructPSB],
    functions := [{ blocks := [{ instructions := [wReturn], localVariables := [wVarAlias] }] }] }

def wBuilder6r : Builder :=
  { globals := [wFloat32, wStruct, wPtrPSB, wStructPSB, wPtrFnStructPSB],
    functions := [{ blocks := [{ instructions := [wReturn], localVariables := [wVarAlias] }] }],
    decorations := [wRestrictDec] }

/-- Witness module for reachability: one function whose second block is not
reachable from the entry block; both blocks hold only a terminator. -/

def wBlockPlain : Block := { instructions := [wReturn], successors := [] }

def wBuilder8 : Builder := { functions := [{ blocks := [wBlockPlain, wBlockPlain] }] }

/-- Witness modules for decoration pruning: an unreachable block owning a
local variable targeted by a decoration, and a variant with a prunable
decoration targeting the orphaned sentinel. -/

def wVarDead : Instruction :=
  { opcode := Op.OpVariable, resultId := 43, typeId := 0, operands := [], idOperand := [] }

def wDeadDec : Instruction :=
  { opcode := Op.OpDecorate, operands := [43, 0], idOperand := [true, false] }

def wBuilder3 : Builder :=
  { functions := [{ blocks := [wBlockPlain,
      { instructions := [wReturn], localVariables := [wVarDead] }] }],
    decorations := [wDeadDec] }

def wOrphanDec : Instruction :=
  { opcode := Op.OpDecorate, operands := [0, 0], idOperand := [true, false] }

def wBuilder3w : Builder :=
  { functions := [{ blocks := [wBlockPlain, wBlockPlain] }],
    decorations := [wOrphanDec, wDeadDec] }

/-- Witness builder for monotonicity: pre-populated capability and extension
sets. -/
def wBuilder4 : Builder :=
  { wBuilder7 with capabilities := [CapabilityImageQuery], extensions := [E_SPV_KHR_8bit_storage] }

/-- Witness module for the version-gated extended-instruction rules: a Frexp
call with a 32-bit float result type and a 16-bit-integer operand. -/

def wI16Val : Instruction :=
  { opcode := Op.OpCopyObject, resultId := 27, typeId := 20, operands := [], idOperand := [] }

def wExtInstFrexp : Instruction :=
  { opcode := Op.OpExtInst, resultId := 28, typeId := 1,
    operands := [50, GLSLstd450Frexp, 27], idOperand := [true, false, true] }

def wBuilder10 : Builder :=
  { globals := [wFloat32, wInt16, wI16Val],
    functions := [{ blocks := [{ instructions := [wExtInstFrexp, wReturn] }] }],
    spvVersion := 0 }

/-- Checked access-chain walk: mirrors `alignLoop` but fails (like the
`assert(idx->getOpCode() == OpConstant)`) when a struct index is not a
constant instruction. -/
def alignLoopChecked (defs : Insts) (decs : List Instruction) (chain : Instruction) :
    List Nat → Id → Nat → Option Nat
  | [], _, a => some a
  | i :: rest, typeId, a =>
    let type := findInst defs typeId
    let idx := findInst defs (chain.getIdOperand i)
    match type.opcode with
    | Op.OpTypeStruct =>
      if idx.opcode = Op.OpConstant then
        let c := idx.getImmediateOperand 0
        let a' := decs.foldl (fun acc d =>
          if d.opcode = Op.OpMemberDecorate ∧ d.getIdOperand 0 = typeId ∧
             d.getImmediateOperand 1 = c ∧
             (d.getImmediateOperand 2 = DecorationOffset ∨
              d.getImmediateOperand 2 = DecorationMatrixStride)
          then acc ||| d.getImmediateOperand 3 else acc) a
        alignLoopChecked defs decs chain rest (type.getIdOperand c) a'
      else none
    | Op.OpTypeArray | Op.OpTypeRuntimeArray =>
      let a' := decs.foldl (fun acc d =>
        if d.opcode = Op.OpDecorate ∧ d.getIdOperand 0 = typeId ∧
           d.getImmediateOperand 1 = DecorationArrayStride
        then acc ||| d.getImmediateOperand 2 else acc) a
      alignLoopChecked defs decs chain rest (type.getIdOperand 0) a'
    | _ => some a

/-- Checked load/store rewrite: mirrors `rewriteInst` but fails at each of
the source's assertion points (base type not a pointer, non-constant struct
index, fewer than three operands, aligned flag missing). -/
def rewriteInstChecked (defs : Insts) (decs : List Instruction) (inst : Instruction) :
    Option Instruction :=
  let accessChain := findInst defs (inst.getIdOperand 0)
  if accessChain.opcode = Op.OpAccessChain then
    let base := findInst defs (accessChain.getIdOperand 0)
    let type := findInst defs base.typeId
    if type.opcode = Op.OpTypePointer then
      if type.getImmediateOperand 0 ≠ StorageClassPhysicalStorageBufferEXT then some inst
      else
        match alignLoopChecked defs decs accessChain
          (List.range' 1 (accessChain.getNumOperands - 1)) (type.getIdOperand 1) 0 with
        | none => none
        | some alignment =>
          if 3 ≤ inst.getNumOperands then
            if inst.getImmediateOperand (if inst.opcode = Op.OpStore then 2 else 1) &&&
                MemoryAccessAlignedMask ≠ 0 then
              let a2 := alignment ||| inst.getImmediateOperand (alignmentIdx inst)
              some (inst.setImmediateOperand (alignmentIdx inst) (lowestSetBit32 a2))
            else none
          else none
    else none
  else some inst

/-- The well-formedness condition the source asserts during the struct walk:
every index operand consumed at a struct step resolves to a constant
instruction. -/
def structIndicesConstant (defs : Insts) (chain : Instruction) :
    List Nat → Id → Bool
  | [], _ => true
  | i :: rest, typeId =>
    let type := findInst defs typeId
    let idx := findInst defs (chain.getIdOperand i)
    match type.opcode with
    | Op.OpTypeStruct =>
      if idx.opcode = Op.OpConstant then
        structIndicesConstant defs chain rest (type.getIdOperand (idx.getImmediateOperand 0))
      else false
    | Op.OpTypeArray | Op.OpTypeRuntimeArray =>
      structIndicesConstant defs chain rest (type.getIdOperand 0)
    | _ => true

/-- The instruction defining the pointer operand of a load/store. -/
def chainOf (defs : Insts) (inst : Instruction) : Instruction :=
  findInst defs (inst.getIdOperand 0)

/-- The type of the base of the access chain feeding a load/store. -/
def baseTypeOf (defs : Insts) (inst : Instruction) : Instruction :=
  findInst defs (findInst defs ((chainOf defs inst).getIdOperand 0)).typeId

/-! Malformed witness module: the access-chain base resolves to a float
type instead of a pointer type, violating the precondition. -/

def wBadVar : Instruction :=
  { opcode := Op.OpVariable, resultId := 40, typeId := 1,
    operands := [StorageClassFunctionLocal], idOperand := [false] }

def wBadChain : Instruction :=
  { opcode := Op.OpAccessChain, resultId := 41, typeId := 3,
    operands := [40, 5], idOperand := [true, true] }

def wBadLoad : Instruction :=
  { opcode := Op.OpLoad, resultId := 42, typeId := 1,
    operands := [41, MemoryAccessAlignedMask, 4], idOperand := [true, false, false] }

def wBadDefs : Insts := [wFloat32, wConst0, wBadVar, wBadChain]

/-- How a stored instruction may change across the pass: it is unchanged, or
it is a load/store whose aligned-memory-access alignment slot was
rewritten. -/
def InstEvolved (i i' : Instruction) : Prop :=
  i' = i ∨ ((i.opcode = Op.OpLoad ∨ i.opcode = Op.OpStore) ∧
    ∃ v, i' = i.setImmediateOperand (alignmentIdx i) v)

/-- The whole instruction store may only evolve pointwise. -/
def DefsEvolved (d d' : Insts) : Prop := List.Forall₂ InstEvolved d d'

/-- Lists of records appended by the default-aliasing fill. -/
def AliasedOnly (l : List Instruction) : Prop := ∀ d ∈ l, ∃ r, d = aliasedDecoration r

/-- Pointwise concatenation of request pairs. -/
def reqCat (r1 r2 : List Nat × List String) : List Nat × List String :=
  (r1.1 ++ r2.1, r1.2 ++ r2.2)

/-- Requests issued by the per-operand type loop of `postProcess`. -/
def opsReqs (defs : Insts) (fl version : Nat) (inst1 : Instruction) : List Nat × List String :=
  (List.range inst1.getNumOperands).foldl (fun acc op =>
    if inst1.isIdOperand op ∧ getTypeIdOf defs (inst1.getIdOperand op) ≠ 0
    then reqCat acc (typeReqs defs fl version inst1 (getTypeIdOf defs (inst1.getIdOperand op)))
    else acc) ([], [])

/-- All capability/extension requests issued while post-processing one
instruction: the opcode switch, the result-type hook and the per-operand
hooks. -/
def instReqs (defs : Insts) (fl version : Nat) (inst1 : Instruction) : List Nat × List String :=
  reqCat (reqCat (switchReqs inst1)
    (if inst1.typeId ≠ 0 then typeReqs defs fl version inst1 inst1.typeId else ([], [])))
    (opsReqs defs fl version inst1)

/-- How one block may change across the pass: only stored instructions
evolve, and only in their alignment slots. -/
def BlockEvolved (blk blk' : Block) : Prop :=
  blk'.successors = blk.successors ∧ blk'.localVariables = blk.localVariables ∧
  List.Forall₂ InstEvolved blk.instructions blk'.instructions

def FnEvolved (f f' : Function) : Prop := List.Forall₂ BlockEvolved f.blocks f'.blocks

def FnsEvolved (fs fs' : List Function) : Prop := List.Forall₂ FnEvolved fs fs'

/-- How the whole builder state may change across the phases that follow the
decoration pruning: globals and version fixed, instructions evolve in place,
decorations get aliased records appended, capabilities and extensions grow. -/
def BEvolved (b b' : Builder) : Prop :=
  b'.globals = b.globals ∧ FnsEvolved b.functions b'.functions ∧
  (∃ extra, b'.decorations = b.decorations ++ extra ∧ AliasedOnly extra) ∧
  CapsGrow b b' ∧ b'.spvVersion = b.spvVersion

/-! Arithmetic facts about the lowest-set-bit reduction. -/

theorem and_odd_even (u : Nat) : (2*u+1) &&& (2*u) = 2*u := by
  have h := Nat.land_bit true u false u
  simpa [Nat.bit_val, Nat.and_self] using h

theorem xor_odd_even (u : Nat) : (2*u+1) ^^^ (2*u) = 1 := by
  have h := Nat.xor_bit true u false u
  simpa [Nat.bit_val, Nat.xor_self] using h

theorem and_even_odd (u w : Nat) : (2*u) &&& (2*w+1) = 2*(u &&& w) := by
  have h := Nat.land_bit false u true w
  simpa [Nat.bit_val] using h

theorem xor_even_even (u w : Nat) : (2*u) ^^^ (2*w) = 2*(u ^^^ w) := by
  have h := Nat.xor_bit false u false w
  simpa [Nat.bit_val] using h

theorem or_even_even (u w : Nat) : (2*u) ||| (2*w) = 2*(u ||| w) := by
  have h := Nat.lor_bit false u false w
  simpa [Nat.bit_val] using h

theorem lowestSetBitSpec_odd (v : Nat) (h : v % 2 = 1) : lowestSetBitSpec v = 1 := by
  match v with
  | 0 => omega
  | v + 1 => simp [lowestSetBitSpec, h]

theorem lowestSetBitSpec_double (u : Nat) : lowestSetBitSpec (2*u) = 2 * lowestSetBitSpec u := by
  cases u with
  | zero => simp [lowestSetBitSpec]
  | succ w =>
    have h2 : 2*(w+1) = (2*w+1) + 1 := by omega
    rw [h2, lowestSetBitSpec]
    have hm : ¬((2*w+1+1) % 2 = 1) := by omega
    have hd : (2*w+1+1) / 2 = w + 1 := by omega
    simp [hm, hd]

/-- The source's bit trick, restated: clearing the lowest set bit and XOR-ing
back isolates the lowest set bit. -/
theorem xor_and_pred (v : Nat) : v ^^^ (v &&& (v - 1)) = lowestSetBitSpec v := by
  induction v using Nat.strong_induction_on with
  | _ v ih =>
    rcases Nat.eq_zero_or_pos v with hz | hpos
    · subst hz; simp [lowestSetBitSpec]
    · rcases Nat.even_or_odd v with ⟨u, hu⟩ | ⟨u, hu⟩
      · have hv : v = 2*u := by omega
        have hsub : v - 1 = 2*(u-1)+1 := by omega
        have hand : v &&& (v - 1) = 2*(u &&& (u-1)) := by
          rw [hsub, hv]; exact and_even_odd u (u-1)
        rw [hand, hv, xor_even_even, lowestSetBitSpec_double, ih u (by omega)]
      · have hsub : v - 1 = 2*u := by omega
        have hand : v &&& (v - 1) = 2*u := by rw [hsub, hu]; exact and_odd_even u
        rw [hand, hu, xor_odd_even, lowestSetBitSpec_odd _ (by omega)]

/-- On 32-bit values the source's masked reduction computes exactly the
lowest set bit. -/
theorem lowestSetBit32_eq_spec (v : Nat) (hv : v < 2^32) :
    lowestSetBit32 v = lowestSetBitSpec v := by
  have hx : lowestSetBit32 v = v ^^^ (v &&& (v - 1)) := by
    unfold lowestSetBit32
    apply Nat.eq_of_testBit_eq
    intro i
    by_cases hi : i < 32
    · have hmask : (4294967295 : Nat).testBit i = true := by
        have h32 : (4294967295 : Nat) = 2^32 - 1 := by norm_num
        rw [h32, Nat.testBit_two_pow_sub_one]; simpa using hi
      simp only [Nat.testBit_and, Nat.testBit_xor, hmask]
      cases ha : v.testBit i <;> cases hb : (v-1).testBit i <;> simp
    · have hv' : v.testBit i = false :=
        Nat.testBit_lt_two_pow (lt_of_lt_of_le hv (Nat.pow_le_pow_right (by norm_num) (by omega)))
      simp only [Nat.testBit_and, Nat.testBit_xor, hv']
      simp
  rw [hx, xor_and_pred]

theorem lowestSetBitSpec_ne_zero (v : Nat) (hv : v ≠ 0) : lowestSetBitSpec v ≠ 0 := by
  induction v using Nat.strong_induction_on with
  | _ v ih =>
    rcases Nat.even_or_odd v with ⟨u, hu⟩ | ⟨u, hu⟩
    · have hveq : v = 2*u := by omega
      have hu0 : u ≠ 0 := by omega
      rw [hveq, lowestSetBitSpec_double]
      have := ih u (by omega) hu0
      omega
    · rw [lowestSetBitSpec_odd v (by omega)]; omega

theorem lowestSetBitSpec_le (v : Nat) : lowestSetBitSpec v ≤ v := by
  induction v using Nat.strong_induction_on with
  | _ v ih =>
    rcases Nat.eq_zero_or_pos v with hz | hpos
    · subst hz; simp [lowestSetBitSpec]
    · rcases Nat.even_or_odd v with ⟨u, hu⟩ | ⟨u, hu⟩
      · have hveq : v = 2*u := by omega
        rw [hveq, lowestSetBitSpec_double]
        have := ih u (by omega)
        omega
      · rw [lowestSetBitSpec_odd v (by omega)]; omega

theorem lowestSetBitSpec_pow (v : Nat) (hv : v ≠ 0) : ∃ k, lowestSetBitSpec v = 2^k := by
  induction v using Nat.strong_induction_on with
  | _ v ih =>
    rcases Nat.even_or_odd v with ⟨u, hu⟩ | ⟨u, hu⟩
    · have hveq : v = 2*u := by omega
      have hu0 : u ≠ 0 := by omega
      rcases ih u (by omega) hu0 with ⟨k, hk⟩
      exact ⟨k+1, by rw [hveq, lowestSetBitSpec_double, hk]; ring⟩
    · exact ⟨0, by rw [lowestSetBitSpec_odd v (by omega)]; rfl⟩

theorem lowestSetBitSpec_two_pow (k : Nat) : lowestSetBitSpec (2^k) = 2^k := by
  induction k with
  | zero =>
    show lowestSetBitSpec 1 = 1
    rw [lowestSetBitSpec_odd 1 (by omega)]
  | succ n ihn =>
    have h : (2:Nat)^(n+1) = 2*(2^n) := by ring
    rw [h, lowestSetBitSpec_double, ihn]

theorem lowestSetBitSpec_idem (v : Nat) :
    lowestSetBitSpec (lowestSetBitSpec v) = lowestSetBitSpec v := by
  rcases Nat.eq_zero_or_pos v with hz | hpos
  · subst hz; simp [lowestSetBitSpec]
  · rcases lowestSetBitSpec_pow v (by omega) with ⟨k, hk⟩
    rw [hk, lowestSetBitSpec_two_pow]

theorem or_left_ne_zero (a b : Nat) (ha : a ≠ 0) : a ||| b ≠ 0 := by
  intro h
  rcases Nat.ne_zero_implies_bit_true ha with ⟨i, hi⟩
  have h2 : (a ||| b).testBit i = true := by simp [Nat.testBit_or, hi]
  rw [h] at h2
  simp at h2

theorem lowestSetBitSpec_or_min (a : Nat) :
    ∀ b, a ≠ 0 → b ≠ 0 →
      lowestSetBitSpec (a ||| b) = min (lowestSetBitSpec a) (lowestSetBitSpec b) := by
  induction a using Nat.strong_induction_on with
  | _ a ih =>
    intro b ha hb
    rcases Nat.even_or_odd a with ⟨u, hu⟩ | ⟨u, hu⟩
    · rcases Nat.even_or_odd b with ⟨w, hw⟩ | ⟨w, hw⟩
      · have haeq : a = 2*u := by omega
        have hbeq : b = 2*w := by omega
        have hu0 : u ≠ 0 := by omega
        have hw0 : w ≠ 0 := by omega
        rw [haeq, hbeq, or_even_even, lowestSetBitSpec_double, lowestSetBitSpec_double,
          lowestSetBitSpec_double, ih u (by omega) w hu0 hw0]
        rcases Nat.le_total (lowestSetBitSpec u) (lowestSetBitSpec w) with h | h <;>
          simp [Nat.min_def, h] <;> omega
      · have hbodd : (a ||| b) % 2 = 1 := by
          rw [Nat.or_mod_two_eq_one]; omega
        rw [lowestSetBitSpec_odd _ hbodd, lowestSetBitSpec_odd b (by omega)]
        have h1 : lowestSetBitSpec a ≠ 0 := lowestSetBitSpec_ne_zero a ha
        rcases Nat.le_total (lowestSetBitSpec a) 1 with h | h <;> simp [Nat.min_def, h] <;> omega
    · have haodd : (a ||| b) % 2 = 1 := by
        rw [Nat.or_mod_two_eq_one]; omega
      rw [lowestSetBitSpec_odd _ haodd, lowestSetBitSpec_odd a (by omega)]
      have h1 : lowestSetBitSpec b ≠ 0 := lowestSetBitSpec_ne_zero b hb
      rcases Nat.le_total 1 (lowestSetBitSpec b) with h | h <;> simp [Nat.min_def, h] <;> omega

/-- The reduced alignment is a fixed point of re-reducing against the same
accumulated misalignment. -/
theorem lowestSetBitSpec_fix (a x : Nat) :
    lowestSetBitSpec (a ||| lowestSetBitSpec (a ||| x)) = lowestSetBitSpec (a ||| x) := by
  by_cases ha : a = 0
  · subst ha; simp only [Nat.zero_or]; exact lowestSetBitSpec_idem x
  · by_cases hx : x = 0
    · subst hx; simp only [Nat.or_zero]
      rw [lowestSetBitSpec_or_min a _ ha (lowestSetBitSpec_ne_zero a ha),
        lowestSetBitSpec_idem, min_self]
    · have hox : a ||| x ≠ 0 := or_left_ne_zero a x ha
      have hL : lowestSetBitSpec (a ||| x) ≠ 0 := lowestSetBitSpec_ne_zero _ hox
      rw [lowestSetBitSpec_or_min a _ ha hL, lowestSetBitSpec_idem,
        lowestSetBitSpec_or_min a x ha hx, ← min_assoc, min_self]

/-- The 32-bit masked form of the fixed-point property. -/
theorem lowestSetBit32_fix (a x : Nat) (ha : a < 2^32) (hx : x < 2^32) :
    lowestSetBit32 (a ||| lowestSetBit32 (a ||| x)) = lowestSetBit32 (a ||| x) := by
  have h1 : a ||| x < 2^32 := Nat.or_lt_two_pow ha hx
  have h2 : lowestSetBit32 (a ||| x) = lowestSetBitSpec (a ||| x) := lowestSetBit32_eq_spec _ h1
  have hle : lowestSetBitSpec (a ||| x) ≤ a ||| x := lowestSetBitSpec_le _
  have h3 : a ||| lowestSetBit32 (a ||| x) < 2^32 := by
    rw [h2]; exact Nat.or_lt_two_pow ha (lt_of_le_of_lt hle h1)
  rw [lowestSetBit32_eq_spec _ h3, h2, lowestSetBitSpec_fix]

theorem getD_set_self (l : List Nat) (n v : Nat) (h : n < l.length) :
    (l.set n v).getD n 0 = v := by
  simp [List.getD_eq_getElem?_getD, List.getElem?_set_self', h]

theorem lowestSetBitSpec_zero : lowestSetBitSpec 0 = 0 := by
  simp [lowestSetBitSpec]

theorem lowestSetBitSpec_twelve : lowestSetBitSpec 12 = 4 := by
  rw [show (12:Nat) = 2*6 by norm_num, lowestSetBitSpec_double,
    show (6:Nat) = 2*3 by norm_num, lowestSetBitSpec_double,
    lowestSetBitSpec_odd 3 (by norm_num)]

/-- C1: for every load or store whose pointer operand is defined by an
access-chain whose base resolves to a pointer type in the byte-addressable
(PhysicalStorageBufferEXT) storage class, the value written back into the
aligned-memory-access alignment operand equals the lowest set bit of the
bitwise OR of the Offset/MatrixStride and ArrayStride decoration literals
matched during the index walk with the alignment previously stored in that
operand; in particular an accumulated value of 0 is written back as 0 and
contributions 4 and 8 reduce to 4. -/
theorem c1_alignment_writeback (b : Builder) (inst : Instruction)
    (hop : inst.opcode = Op.OpLoad ∨ inst.opcode = Op.OpStore)
    (hac : (findInst b.allInstructions (inst.getIdOperand 0)).opcode = Op.OpAccessChain)
    (hptrOp : (findInst b.allInstructions
        (findInst b.allInstructions
          ((findInst b.allInstructions (inst.getIdOperand 0)).getIdOperand 0)).typeId).opcode
      = Op.OpTypePointer)
    (hsc : (findInst b.allInstructions
        (findInst b.allInstructions
          ((findInst b.allInstructions (inst.getIdOperand 0)).getIdOperand 0)).typeId).getImmediateOperand 0
      = StorageClassPhysicalStorageBufferEXT)
    (hA : chainAlignment b.allInstructions b.decorations
        (findInst b.allInstructions (inst.getIdOperand 0)) < 2^32)
    (hold : inst.getImmediateOperand (alignmentIdx inst) < 2^32)
    (hlen : alignmentIdx inst < inst.operands.length) :
    ((b.postProcessInst inst).2).getImmediateOperand (alignmentIdx inst) =
      lowestSetBitSpec (chainAlignment b.allInstructions b.decorations
        (findInst b.allInstructions (inst.getIdOperand 0)) |||
        inst.getImmediateOperand (alignmentIdx inst)) ∧
    lowestSetBitSpec 0 = 0 ∧ lowestSetBitSpec (4 ||| 8) = 4 := by
  refine ⟨?_, lowestSetBitSpec_zero, ?_⟩
  · have hinst1 : (b.postProcessInst inst).2 =
        rewriteInst b.allInstructions b.decorations inst := by
      unfold Builder.postProcessInst
      simp [hop]
    rw [hinst1]
    unfold rewriteInst
    rw [if_pos hac, if_neg (by simp [hsc])]
    simp only [Instruction.setImmediateOperand, Instruction.getImmediateOperand]
    rw [getD_set_self _ _ _ hlen]
    exact lowestSetBit32_eq_spec _ (Nat.or_lt_two_pow hA hold)
  · rw [show (4 ||| 8 : Nat) = 12 by decide]
    exact lowestSetBitSpec_twelve

/-- Witness for C1: the walk of the witness module accumulates offset 8,
the stored alignment is 4, and 4 is written back. -/
theorem c1_alignment_writeback_witness :
    ((wBuilder.postProcessInst wLoad).2).getImmediateOperand (alignmentIdx wLoad) =
      lowestSetBitSpec (chainAlignment wBuilder.allInstructions wBuilder.decorations
        (findInst wBuilder.allInstructions (wLoad.getIdOperand 0)) |||
        wLoad.getImmediateOperand (alignmentIdx wLoad)) ∧
    lowestSetBitSpec 0 = 0 ∧ lowestSetBitSpec (4 ||| 8) = 4 :=
  c1_alignment_writeback wBuilder wLoad (Or.inl (by decide)) (by decide) (by decide)
    (by decide) (by decide) (by decide) (by decide)



theorem addCapability_decorations (b : Builder) (c : Nat) :
    (b.addCapability c).decorations = b.decorations := by
  unfold Builder.addCapability; split <;> rfl

theorem addExtension_decorations (b : Builder) (e : String) :
    (b.addExtension e).decorations = b.decorations := by
  unfold Builder.addExtension; split <;> rfl

theorem addCapability_globals (b : Builder) (c : Nat) :
    (b.addCapability c).globals = b.globals := by
  unfold Builder.addCapability; split <;> rfl

theorem addExtension_globals (b : Builder) (e : String) :
    (b.addExtension e).globals = b.globals := by
  unfold Builder.addExtension; split <;> rfl

theorem addCapability_functions (b : Builder) (c : Nat) :
    (b.addCapability c).functions = b.functions := by
  unfold Builder.addCapability; split <;> rfl

theorem addExtension_functions (b : Builder) (e : String) :
    (b.addExtension e).functions = b.functions := by
  unfold Builder.addExtension; split <;> rfl

theorem addCapability_spvVersion (b : Builder) (c : Nat) :
    (b.addCapability c).spvVersion = b.spvVersion := by
  unfold Builder.addCapability; split <;> rfl

theorem addExtension_spvVersion (b : Builder) (e : String) :
    (b.addExtension e).spvVersion = b.spvVersion := by
  unfold Builder.addExtension; split <;> rfl

theorem addCapability_extensions (b : Builder) (c : Nat) : (b.addCapability c).extensions = b.extensions := by
  unfold Builder.addCapability; split <;> rfl

theorem addExtension_capabilities (b : Builder) (e : String) : (b.addExtension e).capabilities = b.capabilities := by
  unfold Builder.addExtension; split <;> rfl

theorem addExtension_addCapability (b : Builder) (e : String) (c : Nat) :
    (b.addExtension e).addCapability c = (b.addCapability c).addExtension e := by
  unfold Builder.addExtension Builder.addCapability
  by_cases he : e ∈ b.extensions <;> by_cases hc : c ∈ b.capabilities <;> simp [he, hc]

theorem addCaps_addExtension (cs : List Nat) (b : Builder) (e : String) :
    cs.foldl Builder.addCapability (b.addExtension e) =
      (cs.foldl Builder.addCapability b).addExtension e := by
  induction cs generalizing b with
  | nil => rfl
  | cons c cs ih =>
    simp only [List.foldl_cons]
    rw [addExtension_addCapability, ih]

theorem addCaps_addExts (cs : List Nat) (es : List String) (b : Builder) :
    cs.foldl Builder.addCapability (es.foldl Builder.addExtension b) =
      es.foldl Builder.addExtension (cs.foldl Builder.addCapability b) := by
  induction es generalizing b with
  | nil => rfl
  | cons e es ih =>
    simp only [List.foldl_cons]
    rw [ih, addCaps_addExtension]

theorem applyReqs_def (b : Builder) (cs : List Nat) (es : List String) :
    b.applyReqs (cs, es) = es.foldl Builder.addExtension (cs.foldl Builder.addCapability b) := rfl

theorem applyReqs_comp (b : Builder) (r1 r2 : List Nat × List String) :
    (b.applyReqs r1).applyReqs r2 = b.applyReqs (r1.1 ++ r2.1, r1.2 ++ r2.2) := by
  obtain ⟨cs1, es1⟩ := r1
  obtain ⟨cs2, es2⟩ := r2
  simp only [applyReqs_def, List.foldl_append]
  rw [← addCaps_addExts cs2 es1]

theorem applyReqs_nil (b : Builder) : b.applyReqs ([], []) = b := rfl

/- field preservation -/
theorem addCaps_globals (cs : List Nat) (b : Builder) :
    (cs.foldl Builder.addCapability b).globals = b.globals := by
  induction cs generalizing b with
  | nil => rfl
  | cons c cs ih =>
    simp only [List.foldl_cons]; rw [ih]
    unfold Builder.addCapability; split <;> rfl

theorem addExts_globals (es : List String) (b : Builder) :
    (es.foldl Builder.addExtension b).globals = b.globals := by
  induction es generalizing b with
  | nil => rfl
  | cons e es ih =>
    simp only [List.foldl_cons]; rw [ih]
    unfold Builder.addExtension; split <;> rfl

theorem applyReqs_globals (b : Builder) (r : List Nat × List String) :
    (b.applyReqs r).globals = b.globals := by
  obtain ⟨cs, es⟩ := r
  rw [applyReqs_def, addExts_globals, addCaps_globals]

theorem addCaps_functions (cs : List Nat) (b : Builder) :
    (cs.foldl Builder.addCapability b).functions = b.functions := by
  induction cs generalizing b with
  | nil => rfl
  | cons c cs ih =>
    simp only [List.foldl_cons]; rw [ih]
    unfold Builder.addCapability; split <;> rfl

theorem addExts_functions (es : List String) (b : Builder) :
    (es.foldl Builder.addExtension b).functions = b.functions := by
  induction es generalizing b with
  | nil => rfl
  | cons e es ih =>
    simp only [List.foldl_cons]; rw [ih]
    unfold Builder.addExtension; split <;> rfl

theorem applyReqs_functions (b : Builder) (r : List Nat × List String) :
    (b.applyReqs r).functions = b.functions := by
  obtain ⟨cs, es⟩ := r
  rw [applyReqs_def, addExts_functions, addCaps_functions]

theorem addCaps_decorations (cs : List Nat) (b : Builder) :
    (cs.foldl Builder.addCapability b).decorations = b.decorations := by
  induction cs generalizing b with
  | nil => rfl
  | cons c cs ih =>
    simp only [List.foldl_cons]; rw [ih]
    unfold Builder.addCapability; split <;> rfl

theorem addExts_decorations (es : List String) (b : Builder) :
    (es.foldl Builder.addExtension b).decorations = b.decorations := by
  induction es generalizing b with
  | nil => rfl
  | cons e es ih =>
    simp only [List.foldl_cons]; rw [ih]
    unfold Builder.addExtension; split <;> rfl

theorem applyReqs_decorations (b : Builder) (r : List Nat × List String) :
    (b.applyReqs r).decorations = b.decorations := by
  obtain ⟨cs, es⟩ := r
  rw [applyReqs_def, addExts_decorations, addCaps_decorations]

theorem addCaps_spvVersion (cs : List Nat) (b : Builder) :
    (cs.foldl Builder.addCapability b).spvVersion = b.spvVersion := by
  induction cs generalizing b with
  | nil => rfl
  | cons c cs ih =>
    simp only [List.foldl_cons]; rw [ih]
    unfold Builder.addCapability; split <;> rfl

theorem addExts_spvVersion (es : List String) (b : Builder) :
    (es.foldl Builder.addExtension b).spvVersion = b.spvVersion := by
  induction es generalizing b with
  | nil => rfl
  | cons e es ih =>
    simp only [List.foldl_cons]; rw [ih]
    unfold Builder.addExtension; split <;> rfl

theorem applyReqs_spvVersion (b : Builder) (r : List Nat × List String) :
    (b.applyReqs r).spvVersion = b.spvVersion := by
  obtain ⟨cs, es⟩ := r
  rw [applyReqs_def, addExts_spvVersion, addCaps_spvVersion]

theorem applyReqs_allInstructions (b : Builder) (r : List Nat × List String) :
    (b.applyReqs r).allInstructions = b.allInstructions := by
  unfold Builder.allInstructions
  rw [applyReqs_globals, applyReqs_functions]

theorem applyReqs_fuel (b : Builder) (r : List Nat × List String) :
    (b.applyReqs r).fuel = b.fuel := by
  unfold Builder.fuel
  rw [applyReqs_allInstructions]

/- prefix extension of capability / extension lists -/
theorem addCapability_caps_pref (b : Builder) (c : Nat) :
    ∃ l, (b.addCapability c).capabilities = b.capabilities ++ l := by
  unfold Builder.addCapability
  split
  · exact ⟨[], by simp⟩
  · exact ⟨[c], rfl⟩

theorem addCaps_caps_pref (cs : List Nat) (b : Builder) :
    ∃ l, (cs.foldl Builder.addCapability b).capabilities = b.capabilities ++ l := by
  induction cs generalizing b with
  | nil => exact ⟨[], by simp⟩
  | cons c cs ih =>
    simp only [List.foldl_cons]
    rcases ih (b.addCapability c) with ⟨l1, h1⟩
    rcases addCapability_caps_pref b c with ⟨l2, h2⟩
    exact ⟨l2 ++ l1, by rw [h1, h2, List.append_assoc]⟩

theorem addExts_capabilities (es : List String) (b : Builder) :
    (es.foldl Builder.addExtension b).capabilities = b.capabilities := by
  induction es generalizing b with
  | nil => rfl
  | cons e es ih =>
    simp only [List.foldl_cons]; rw [ih, addExtension_capabilities]

theorem applyReqs_caps_pref (b : Builder) (r : List Nat × List String) :
    ∃ l, (b.applyReqs r).capabilities = b.capabilities ++ l := by
  obtain ⟨cs, es⟩ := r
  rw [applyReqs_def, addExts_capabilities]
  exact addCaps_caps_pref cs b

theorem addCaps_extensions (cs : List Nat) (b : Builder) :
    (cs.foldl Builder.addCapability b).extensions = b.extensions := by
  induction cs generalizing b with
  | nil => rfl
  | cons c cs ih =>
    simp only [List.foldl_cons]; rw [ih, addCapability_extensions]

theorem addExtension_exts_pref (b : Builder) (e : String) :
    ∃ l, (b.addExtension e).extensions = b.extensions ++ l := by
  unfold Builder.addExtension
  split
  · exact ⟨[], by simp⟩
  · exact ⟨[e], rfl⟩

theorem addExts_exts_pref (es : List String) (b : Builder) :
    ∃ l, (es.foldl Builder.addExtension b).extensions = b.extensions ++ l := by
  induction es generalizing b with
  | nil => exact ⟨[], by simp⟩
  | cons e es ih =>
    simp only [List.foldl_cons]
    rcases ih (b.addExtension e) with ⟨l1, h1⟩
    rcases addExtension_exts_pref b e with ⟨l2, h2⟩
    exact ⟨l2 ++ l1, by rw [h1, h2, List.append_assoc]⟩

theorem applyReqs_exts_pref (b : Builder) (r : List Nat × List String) :
    ∃ l, (b.applyReqs r).extensions = b.extensions ++ l := by
  obtain ⟨cs, es⟩ := r
  rw [applyReqs_def]
  rcases addExts_exts_pref es (cs.foldl Builder.addCapability b) with ⟨l, h⟩
  rw [h, addCaps_extensions]
  exact ⟨l, rfl⟩

theorem caps_mono_applyReqs (b : Builder) (r : List Nat × List String) (c : Nat)
    (h : c ∈ b.capabilities) : c ∈ (b.applyReqs r).capabilities := by
  rcases applyReqs_caps_pref b r with ⟨l, hl⟩
  rw [hl]
  exact List.mem_append_left _ h

theorem exts_mono_applyReqs (b : Builder) (r : List Nat × List String) (e : String)
    (h : e ∈ b.extensions) : e ∈ (b.applyReqs r).extensions := by
  rcases applyReqs_exts_pref b r with ⟨l, hl⟩
  rw [hl]
  exact List.mem_append_left _ h

theorem mem_addCapability_self (b : Builder) (c : Nat) : c ∈ (b.addCapability c).capabilities := by
  unfold Builder.addCapability
  split
  · assumption
  · simp

theorem mem_addExtension_self (b : Builder) (e : String) : e ∈ (b.addExtension e).extensions := by
  unfold Builder.addExtension
  split
  · assumption
  · simp

theorem caps_pref_mem (b b2 : Builder) (c : Nat)
    (h : ∃ l, b2.capabilities = b.capabilities ++ l) (hc : c ∈ b.capabilities) :
    c ∈ b2.capabilities := by
  rcases h with ⟨l, hl⟩; rw [hl]; exact List.mem_append_left _ hc

theorem mem_addCaps (cs : List Nat) (b : Builder) (c : Nat) (h : c ∈ cs) :
    c ∈ (cs.foldl Builder.addCapability b).capabilities := by
  induction cs generalizing b with
  | nil => cases h
  | cons c0 cs ih =>
    simp only [List.foldl_cons]
    rcases List.mem_cons.mp h with rfl | hmem
    · exact caps_pref_mem _ _ _ (addCaps_caps_pref cs (b.addCapability c)) (mem_addCapability_self b c)
    · exact ih (b.addCapability c0) hmem

theorem exts_pref_mem (b b2 : Builder) (e : String)
    (h : ∃ l, b2.extensions = b.extensions ++ l) (he : e ∈ b.extensions) :
    e ∈ b2.extensions := by
  rcases h with ⟨l, hl⟩; rw [hl]; exact List.mem_append_left _ he

theorem mem_addExts (es : List String) (b : Builder) (e : String) (h : e ∈ es) :
    e ∈ (es.foldl Builder.addExtension b).extensions := by
  induction es generalizing b with
  | nil => cases h
  | cons e0 es ih =>
    simp only [List.foldl_cons]
    rcases List.mem_cons.mp h with rfl | hmem
    · exact exts_pref_mem _ _ _ (addExts_exts_pref es (b.addExtension e)) (mem_addExtension_self b e)
    · exact ih (b.addExtension e0) hmem

theorem mem_applyReqs_cap (b : Builder) (r : List Nat × List String) (c : Nat) (h : c ∈ r.1) :
    c ∈ (b.applyReqs r).capabilities := by
  obtain ⟨cs, es⟩ := r
  rw [applyReqs_def, addExts_capabilities]
  exact mem_addCaps cs b c h

theorem mem_applyReqs_ext (b : Builder) (r : List Nat × List String) (e : String) (h : e ∈ r.2) :
    e ∈ (b.applyReqs r).extensions := by
  obtain ⟨cs, es⟩ := r
  rw [applyReqs_def]
  exact mem_addExts es _ e h

theorem addCapability_absorb (b : Builder) (c : Nat) (h : c ∈ b.capabilities) :
    b.addCapability c = b := by
  unfold Builder.addCapability
  rw [if_pos h]

theorem addExtension_absorb (b : Builder) (e : String) (h : e ∈ b.extensions) :
    b.addExtension e = b := by
  unfold Builder.addExtension
  rw [if_pos h]

theorem addCaps_absorb (cs : List Nat) (b : Builder) (hc : ∀ c ∈ cs, c ∈ b.capabilities) :
    cs.foldl Builder.addCapability b = b := by
  induction cs with
  | nil => rfl
  | cons c0 cs ih =>
    simp only [List.foldl_cons]
    rw [addCapability_absorb b c0 (hc c0 (by simp))]
    exact ih (fun c hh => hc c (by simp [hh]))

theorem addExts_absorb (es : List String) (b : Builder) (he : ∀ e ∈ es, e ∈ b.extensions) :
    es.foldl Builder.addExtension b = b := by
  induction es with
  | nil => rfl
  | cons e0 es ih =>
    simp only [List.foldl_cons]
    rw [addExtension_absorb b e0 (he e0 (by simp))]
    exact ih (fun e hh => he e (by simp [hh]))

theorem applyReqs_absorb (b : Builder) (r : List Nat × List String)
    (hc : ∀ c ∈ r.1, c ∈ b.capabilities) (he : ∀ e ∈ r.2, e ∈ b.extensions) :
    b.applyReqs r = b := by
  obtain ⟨cs, es⟩ := r
  rw [applyReqs_def, addCaps_absorb cs b hc, addExts_absorb es b he]



theorem postProcessType_eq_applyReqs (b : Builder) (inst : Instruction) (typeId : Id) :
    b.postProcessType inst typeId =
      b.applyReqs (typeReqs b.allInstructions b.fuel b.spvVersion inst typeId) := by
  unfold Builder.postProcessType typeReqs
  dsimp only
  repeat' split
  all_goals rfl



theorem CapsGrow.refl (b : Builder) : CapsGrow b b := ⟨⟨[], by simp⟩, ⟨[], by simp⟩⟩

theorem CapsGrow.trans {a b c : Builder} (h1 : CapsGrow a b) (h2 : CapsGrow b c) : CapsGrow a c := by
  obtain ⟨⟨l1, hc1⟩, ⟨m1, he1⟩⟩ := h1
  obtain ⟨⟨l2, hc2⟩, ⟨m2, he2⟩⟩ := h2
  exact ⟨⟨l1 ++ l2, by rw [hc2, hc1, List.append_assoc]⟩,
         ⟨m1 ++ m2, by rw [he2, he1, List.append_assoc]⟩⟩

theorem CapsGrow.mem_cap {a b : Builder} (h : CapsGrow a b) {c : Nat}
    (hc : c ∈ a.capabilities) : c ∈ b.capabilities := by
  obtain ⟨⟨l, hl⟩, _⟩ := h
  rw [hl]; exact List.mem_append_left _ hc

theorem CapsGrow.mem_ext {a b : Builder} (h : CapsGrow a b) {e : String}
    (he : e ∈ a.extensions) : e ∈ b.extensions := by
  obtain ⟨_, ⟨l, hl⟩⟩ := h
  rw [hl]; exact List.mem_append_left _ he

theorem CapsGrow.of_eq_lists {a b : Builder} (hc : b.capabilities = a.capabilities)
    (he : b.extensions = a.extensions) : CapsGrow a b :=
  ⟨⟨[], by simp [hc]⟩, ⟨[], by simp [he]⟩⟩

theorem grows_foldl {α : Type} (step : Builder → α → Builder) (l : List α)
    (h : ∀ s x, CapsGrow s (step s x)) (b : Builder) :
    CapsGrow b (l.foldl step b) := by
  induction l generalizing b with
  | nil => exact CapsGrow.refl b
  | cons x l ih => exact (h b x).trans (ih (step b x))



/-- C5: for a load or store of a non-aggregate 16-bit scalar, the type-driven
rule requests no capability when the pointer operand's storage class is one of
byte-addressable, uniform, storage-buffer, push-constant, input or output;
for any other storage class it requests the 16-bit-integer capability for an
integer scalar and the 16-bit-float capability for a float scalar. -/
theorem c5_scalar_16bit_storage_exemption (b : Builder) (inst : Instruction) (typeId : Id)
    (hop : inst.opcode = Op.OpLoad ∨ inst.opcode = Op.OpStore)
    (hbasic : getMostBasicTypeClass b.allInstructions b.fuel typeId = Op.OpTypeInt ∨
              getMostBasicTypeClass b.allInstructions b.fuel typeId = Op.OpTypeFloat)
    (hw : getScalarTypeWidth b.allInstructions b.fuel typeId = 16) :
    ((getStorageClass b.allInstructions (inst.getIdOperand 0) = StorageClassPhysicalStorageBufferEXT ∨
      getStorageClass b.allInstructions (inst.getIdOperand 0) = StorageClassUniform ∨
      getStorageClass b.allInstructions (inst.getIdOperand 0) = StorageClassStorageBuffer ∨
      getStorageClass b.allInstructions (inst.getIdOperand 0) = StorageClassPushConstant ∨
      getStorageClass b.allInstructions (inst.getIdOperand 0) = StorageClassInput ∨
      getStorageClass b.allInstructions (inst.getIdOperand 0) = StorageClassOutput) →
      b.postProcessType inst typeId = b) ∧
    (¬(getStorageClass b.allInstructions (inst.getIdOperand 0) = StorageClassPhysicalStorageBufferEXT ∨
       getStorageClass b.allInstructions (inst.getIdOperand 0) = StorageClassUniform ∨
       getStorageClass b.allInstructions (inst.getIdOperand 0) = StorageClassStorageBuffer ∨
       getStorageClass b.allInstructions (inst.getIdOperand 0) = StorageClassPushConstant ∨
       getStorageClass b.allInstructions (inst.getIdOperand 0) = StorageClassInput ∨
       getStorageClass b.allInstructions (inst.getIdOperand 0) = StorageClassOutput) →
      (getMostBasicTypeClass b.allInstructions b.fuel typeId = Op.OpTypeInt →
        b.postProcessType inst typeId = b.addCapability CapabilityInt16) ∧
      (getMostBasicTypeClass b.allInstructions b.fuel typeId = Op.OpTypeFloat →
        b.postProcessType inst typeId = b.addCapability CapabilityFloat16)) := by
  have hns : ¬(getMostBasicTypeClass b.allInstructions b.fuel typeId = Op.OpTypeStruct) := by
    rcases hbasic with h | h <;> simp [h]
  have hor : (getMostBasicTypeClass b.allInstructions b.fuel typeId = Op.OpTypeFloat ∨
      getMostBasicTypeClass b.allInstructions b.fuel typeId = Op.OpTypeInt) := hbasic.symm
  constructor
  · intro hex
    unfold Builder.postProcessType
    rw [if_pos hop, if_neg hns, if_pos hor, hw,
      if_neg (show ¬((16:Nat) = 8) by norm_num), if_pos (rfl : (16:Nat) = 16), if_pos hex]
  · intro hex
    constructor
    · intro hint
      unfold Builder.postProcessType
      rw [if_pos hop, if_neg hns, if_pos hor, hw,
        if_neg (show ¬((16:Nat) = 8) by norm_num), if_pos (rfl : (16:Nat) = 16), if_neg hex,
        if_pos hint]
      have hnf : ¬(getMostBasicTypeClass b.allInstructions b.fuel typeId = Op.OpTypeFloat) := by
        simp [hint]
      rw [if_neg hnf]
    · intro hfloat
      unfold Builder.postProcessType
      rw [if_pos hop, if_neg hns, if_pos hor, hw,
        if_neg (show ¬((16:Nat) = 8) by norm_num), if_pos (rfl : (16:Nat) = 16), if_neg hex]
      have hni : ¬(getMostBasicTypeClass b.allInstructions b.fuel typeId = Op.OpTypeInt) := by
        simp [hfloat]
      rw [if_neg hni, if_pos hfloat]


/-- Witness for C5: loading a 16-bit integer from an input-class variable
requests nothing; loading it from a private-class variable requests the
16-bit-integer capability. -/
theorem c5_scalar_16bit_storage_exemption_witness :
    wBuilder5.postProcessType wLoadInput 20 = wBuilder5 ∧
    wBuilder5.postProcessType wLoadPrivate 20 = wBuilder5.addCapability CapabilityInt16 :=
  ⟨(c5_scalar_16bit_storage_exemption wBuilder5 wLoadInput 20 (Or.inl (by decide))
      (Or.inl (by decide)) (by decide)).1 (by decide),
   ((c5_scalar_16bit_storage_exemption wBuilder5 wLoadPrivate 20 (Or.inl (by decide))
      (Or.inl (by decide)) (by decide)).2 (by decide)).1 (by decide)⟩



theorem allInstructions_addCapability (b : Builder) (c : Nat) :
    (b.addCapability c).allInstructions = b.allInstructions := by
  unfold Builder.allInstructions Builder.addCapability
  split <;> rfl

theorem allInstructions_addExtension (b : Builder) (e : String) :
    (b.addExtension e).allInstructions = b.allInstructions := by
  unfold Builder.allInstructions Builder.addExtension
  split <;> rfl

theorem fuel_congr {b1 b2 : Builder} (h : b1.allInstructions = b2.allInstructions) :
    b1.fuel = b2.fuel := by
  unfold Builder.fuel
  rw [h]

theorem fuel_addCapability (b : Builder) (c : Nat) : (b.addCapability c).fuel = b.fuel :=
  fuel_congr (allInstructions_addCapability b c)

theorem fuel_addExtension (b : Builder) (e : String) : (b.addExtension e).fuel = b.fuel :=
  fuel_congr (allInstructions_addExtension b e)

theorem CapsGrow.addCapability (b : Builder) (c : Nat) : CapsGrow b (b.addCapability c) := by
  constructor
  · exact addCapability_caps_pref b c
  · exact ⟨[], by rw [addCapability_extensions, List.append_nil]⟩

theorem CapsGrow.addExtension (b : Builder) (e : String) : CapsGrow b (b.addExtension e) := by
  constructor
  · exact ⟨[], by rw [addExtension_capabilities, List.append_nil]⟩
  · exact addExtension_exts_pref b e

theorem sweepStep_allInstructions (s : Builder) (t : Instruction) :
    (s.sweepStep t).allInstructions = s.allInstructions := by
  unfold Builder.sweepStep
  dsimp only
  repeat' split
  all_goals first
    | rfl
    | simp [allInstructions_addCapability, allInstructions_addExtension]

theorem sweepStep_grows (s : Builder) (t : Instruction) : CapsGrow s (s.sweepStep t) := by
  unfold Builder.sweepStep
  dsimp only
  repeat' split
  all_goals
    first
    | exact CapsGrow.refl s
    | exact ((CapsGrow.addExtension _ _).trans (CapsGrow.addCapability _ _))
    | exact (((CapsGrow.addExtension _ _).trans (CapsGrow.addCapability _ _)).trans
        ((CapsGrow.addExtension _ _).trans (CapsGrow.addCapability _ _)))

theorem sweepStep_mem8 (s : Builder) (t : Instruction)
    (hsc : t.getImmediateOperand 0 = StorageClassPhysicalStorageBufferEXT)
    (hc8 : containsType s.allInstructions s.fuel (t.getIdOperand 1) Op.OpTypeInt 8 = true) :
    E_SPV_KHR_8bit_storage ∈ (s.sweepStep t).extensions ∧
    CapabilityStorageBuffer8BitAccess ∈ (s.sweepStep t).capabilities := by
  unfold Builder.sweepStep
  dsimp only
  rw [if_pos hsc, if_pos hc8]
  have hbase : E_SPV_KHR_8bit_storage ∈
      ((s.addExtension E_SPV_KHR_8bit_storage).addCapability CapabilityStorageBuffer8BitAccess).extensions := by
    rw [addCapability_extensions]
    exact mem_addExtension_self s _
  have hbasec : CapabilityStorageBuffer8BitAccess ∈
      ((s.addExtension E_SPV_KHR_8bit_storage).addCapability CapabilityStorageBuffer8BitAccess).capabilities :=
    mem_addCapability_self _ _
  split
  · constructor
    · exact ((CapsGrow.addExtension _ _).trans (CapsGrow.addCapability _ _)).mem_ext hbase
    · exact ((CapsGrow.addExtension _ _).trans (CapsGrow.addCapability _ _)).mem_cap hbasec
  · exact ⟨hbase, hbasec⟩

theorem sweepStep_mem16 (s : Builder) (t : Instruction)
    (hsc : t.getImmediateOperand 0 = StorageClassPhysicalStorageBufferEXT)
    (hc16 : containsType s.allInstructions s.fuel (t.getIdOperand 1) Op.OpTypeInt 16 = true ∨
            containsType s.allInstructions s.fuel (t.getIdOperand 1) Op.OpTypeFloat 16 = true) :
    E_SPV_KHR_16bit_storage ∈ (s.sweepStep t).extensions ∧
    CapabilityStorageBuffer16BitAccess ∈ (s.sweepStep t).capabilities := by
  unfold Builder.sweepStep
  dsimp only
  rw [if_pos hsc]
  by_cases hc8 : containsType s.allInstructions s.fuel (t.getIdOperand 1) Op.OpTypeInt 8 = true
  · rw [if_pos hc8]
    simp only [allInstructions_addCapability, allInstructions_addExtension,
      fuel_addCapability, fuel_addExtension]
    rw [if_pos hc16]
    exact ⟨by rw [addCapability_extensions]; exact mem_addExtension_self _ _,
           mem_addCapability_self _ _⟩
  · rw [if_neg hc8, if_pos hc16]
    exact ⟨by rw [addCapability_extensions]; exact mem_addExtension_self _ _,
           mem_addCapability_self _ _⟩

theorem sweepStep_skip (s : Builder) (t : Instruction)
    (hsc : t.getImmediateOperand 0 ≠ StorageClassPhysicalStorageBufferEXT) :
    s.sweepStep t = s := by
  unfold Builder.sweepStep
  dsimp only
  rw [if_neg hsc]




theorem sweep_aux_mem8 (t : Instruction)
    (hsc : t.getImmediateOperand 0 = StorageClassPhysicalStorageBufferEXT) :
    ∀ (l : List Instruction) (s : Builder),
      t ∈ l →
      containsType s.allInstructions s.fuel (t.getIdOperand 1) Op.OpTypeInt 8 = true →
      E_SPV_KHR_8bit_storage ∈ (l.foldl Builder.sweepStep s).extensions ∧
      CapabilityStorageBuffer8BitAccess ∈ (l.foldl Builder.sweepStep s).capabilities := by
  intro l
  induction l with
  | nil => intro s h; cases h
  | cons x l ih =>
    intro s hmem hc8
    simp only [List.foldl_cons]
    rcases List.mem_cons.mp hmem with rfl | hmem2
    · have h1 := sweepStep_mem8 s t hsc hc8
      have hg := grows_foldl Builder.sweepStep l sweepStep_grows (s.sweepStep t)
      exact ⟨hg.mem_ext h1.1, hg.mem_cap h1.2⟩
    · apply ih (s.sweepStep x) hmem2
      rw [sweepStep_allInstructions, fuel_congr (sweepStep_allInstructions s x)]
      exact hc8

theorem sweep_aux_mem16 (t : Instruction)
    (hsc : t.getImmediateOperand 0 = StorageClassPhysicalStorageBufferEXT) :
    ∀ (l : List Instruction) (s : Builder),
      t ∈ l →
      (containsType s.allInstructions s.fuel (t.getIdOperand 1) Op.OpTypeInt 16 = true ∨
       containsType s.allInstructions s.fuel (t.getIdOperand 1) Op.OpTypeFloat 16 = true) →
      E_SPV_KHR_16bit_storage ∈ (l.foldl Builder.sweepStep s).extensions ∧
      CapabilityStorageBuffer16BitAccess ∈ (l.foldl Builder.sweepStep s).capabilities := by
  intro l
  induction l with
  | nil => intro s h; cases h
  | cons x l ih =>
    intro s hmem hc16
    simp only [List.foldl_cons]
    rcases List.mem_cons.mp hmem with rfl | hmem2
    · have h1 := sweepStep_mem16 s t hsc hc16
      have hg := grows_foldl Builder.sweepStep l sweepStep_grows (s.sweepStep t)
      exact ⟨hg.mem_ext h1.1, hg.mem_cap h1.2⟩
    · apply ih (s.sweepStep x) hmem2
      rw [sweepStep_allInstructions, fuel_congr (sweepStep_allInstructions s x)]
      exact hc16

/-- C7: the whole-module sweep visits every pointer-type instruction of the
type table; a byte-addressable pointer type whose pointee transitively
contains an 8-bit integer yields the 8-bit-storage extension and capability,
one whose pointee contains a 16-bit integer or float yields the
16-bit-storage extension and capability, and a pointer type of any other
storage class contributes nothing. -/
theorem c7_sweep_pointer_types (b : Builder) (t : Instruction)
    (ht : t ∈ b.groupedTypesPointer) :
    (t.getImmediateOperand 0 = StorageClassPhysicalStorageBufferEXT →
      (containsType b.allInstructions b.fuel (t.getIdOperand 1) Op.OpTypeInt 8 = true →
        E_SPV_KHR_8bit_storage ∈ b.sweep.extensions ∧
        CapabilityStorageBuffer8BitAccess ∈ b.sweep.capabilities) ∧
      ((containsType b.allInstructions b.fuel (t.getIdOperand 1) Op.OpTypeInt 16 = true ∨
        containsType b.allInstructions b.fuel (t.getIdOperand 1) Op.OpTypeFloat 16 = true) →
        E_SPV_KHR_16bit_storage ∈ b.sweep.extensions ∧
        CapabilityStorageBuffer16BitAccess ∈ b.sweep.capabilities)) ∧
    (t.getImmediateOperand 0 ≠ StorageClassPhysicalStorageBufferEXT →
      ∀ s : Builder, s.sweepStep t = s) ∧
    b.sweep = b.groupedTypesPointer.foldl Builder.sweepStep b := by
  refine ⟨fun hsc => ⟨fun hc8 => ?_, fun hc16 => ?_⟩, fun hsc s => sweepStep_skip s t hsc, rfl⟩
  · exact sweep_aux_mem8 t hsc b.groupedTypesPointer b ht hc8
  · exact sweep_aux_mem16 t hsc b.groupedTypesPointer b ht hc16

/-- Witness for C7 on a byte-addressable pointer to a struct with an 8-bit
integer member and a 16-bit float member. -/
theorem c7_sweep_pointer_types_witness :
    (E_SPV_KHR_8bit_storage ∈ wBuilder7.sweep.extensions ∧
     CapabilityStorageBuffer8BitAccess ∈ wBuilder7.sweep.capabilities) ∧
    (E_SPV_KHR_16bit_storage ∈ wBuilder7.sweep.extensions ∧
     CapabilityStorageBuffer16BitAccess ∈ wBuilder7.sweep.capabilities) :=
  ⟨((c7_sweep_pointer_types wBuilder7 wPtrPSBNarrow (by decide)).1 (by decide)).1 (by decide),
   ((c7_sweep_pointer_types wBuilder7 wPtrPSBNarrow (by decide)).1 (by decide)).2
     (Or.inr (by decide))⟩




theorem fillLocalVar_decorations (b : Builder) (v : Instruction) :
    (b.fillLocalVar v).decorations = b.decorations ∨
    (b.fillLocalVar v).decorations = b.decorations ++ [aliasedDecoration v.getResultId] := by
  unfold Builder.fillLocalVar
  dsimp only
  split
  · split
    · exact Or.inl rfl
    · exact Or.inr rfl
  · exact Or.inl rfl

theorem fillLocalVar_allInstructions (b : Builder) (v : Instruction) :
    (b.fillLocalVar v).allInstructions = b.allInstructions := by
  unfold Builder.fillLocalVar Builder.allInstructions
  dsimp only
  split
  · split <;> rfl
  · rfl

theorem isAliasedFor_aliasedDecoration (r rid : Id) :
    isAliasedFor r (aliasedDecoration rid) = decide (rid = r) := by
  by_cases h : rid = r <;>
    simp [isAliasedFor, aliasedDecoration, Instruction.getIdOperand,
      Instruction.getImmediateOperand, h]

theorem aliasMarkerFor_aliasedDecoration_self (r : Id) :
    aliasMarkerFor r (aliasedDecoration r) = true := by
  simp [aliasMarkerFor, aliasedDecoration, Instruction.getIdOperand,
    Instruction.getImmediateOperand]

theorem fill_fold_filter (q : Instruction → Bool) (l : List Instruction) :
    ∀ s : Builder, (∀ w ∈ l, q (aliasedDecoration w.getResultId) = false) →
      ((l.foldl Builder.fillLocalVar s).decorations.filter q = s.decorations.filter q) := by
  induction l with
  | nil => intro s _; rfl
  | cons w l ih =>
    intro s hq
    simp only [List.foldl_cons]
    rw [ih (s.fillLocalVar w) (fun w2 h2 => hq w2 (by simp [h2]))]
    rcases fillLocalVar_decorations s w with h | h <;> rw [h]
    rw [List.filter_append]
    have hnil : (List.filter q [aliasedDecoration w.getResultId]) = [] := by
      simp [List.filter, hq w (by simp)]
    rw [hnil, List.append_nil]

theorem isAliasedFor_marker (r : Id) (d : Instruction) (h : isAliasedFor r d = true) :
    aliasMarkerFor r d = true := by
  simp only [isAliasedFor, Bool.and_eq_true, decide_eq_true_eq] at h
  simp [aliasMarkerFor, h.1.1, h.1.2, h.2]

/-- C6: a local variable whose pointee type transitively contains a
byte-addressable pointer receives exactly one appended aliased-pointer
decoration from the default-aliasing fill when no aliased- or
restrict-pointer decoration targets it yet; when such a marker already
exists, no decoration targeting it is added. -/
theorem c6_default_aliasing (b : Builder) (vars : List Instruction) (v : Instruction)
    (hcount : vars.count v = 1)
    (huniq : ∀ w ∈ vars, w.getResultId = v.getResultId → w = v)
    (hpsb : containsPhysicalStorageBufferOrArray b.allInstructions b.fuel
      (getDerefTypeId b.allInstructions v.getResultId) = true) :
    (¬(b.decorations.any (aliasMarkerFor v.getResultId) = true) →
      (vars.foldl Builder.fillLocalVar b).decorations.filter (isAliasedFor v.getResultId) =
        [aliasedDecoration v.getResultId]) ∧
    (b.decorations.any (aliasMarkerFor v.getResultId) = true →
      (vars.foldl Builder.fillLocalVar b).decorations.filter
          (fun d => decide (d.getIdOperand 0 = v.getResultId)) =
        b.decorations.filter (fun d => decide (d.getIdOperand 0 = v.getResultId))) := by
  induction vars generalizing b with
  | nil => simp at hcount
  | cons w l ih =>
    by_cases hwv : v = w
    · obtain rfl := hwv
      -- head is the variable itself; it occurs only once
      have hvnotl : v ∉ l := by
        by_contra hmem
        have := List.count_pos_iff.mpr hmem
        simp [List.count_cons] at hcount
        omega
      have hlne : ∀ w2 ∈ l, w2.getResultId ≠ v.getResultId := by
        intro w2 h2 heq
        have := huniq w2 (by simp [h2]) heq
        exact hvnotl (this ▸ h2)
      have hfoldq : ∀ (q : Instruction → Bool) (s : Builder),
          (∀ rid, q (aliasedDecoration rid) = decide (rid = v.getResultId)) →
          ((l.foldl Builder.fillLocalVar s).decorations.filter q = s.decorations.filter q) := by
        intro q s hq
        apply fill_fold_filter q l s
        intro w2 h2
        rw [hq]
        simp [hlne w2 h2]
      constructor
      · intro hnomark
        simp only [List.foldl_cons]
        -- the step on v appends the decoration
        have hstep : (b.fillLocalVar v).decorations =
            b.decorations ++ [aliasedDecoration v.getResultId] := by
          unfold Builder.fillLocalVar
          dsimp only
          rw [if_pos hpsb]
          rw [if_neg (by simpa using hnomark)]
        rw [hfoldq (isAliasedFor v.getResultId) (b.fillLocalVar v)
          (fun rid => isAliasedFor_aliasedDecoration v.getResultId rid), hstep,
          List.filter_append]
        have h1 : b.decorations.filter (isAliasedFor v.getResultId) = [] := by
          rw [List.filter_eq_nil_iff]
          intro d hd
          intro hal
          exact hnomark (List.any_eq_true.mpr ⟨d, hd, isAliasedFor_marker _ _ hal⟩)
        rw [h1]
        simp [List.filter, isAliasedFor_aliasedDecoration]
      · intro hmark
        simp only [List.foldl_cons]
        have hstep : (b.fillLocalVar v).decorations = b.decorations := by
          unfold Builder.fillLocalVar
          dsimp only
          rw [if_pos hpsb]
          rw [if_pos (by simpa using hmark)]
        rw [hfoldq (fun d => decide (d.getIdOperand 0 = v.getResultId)) (b.fillLocalVar v)
          (fun rid => by simp [aliasedDecoration, Instruction.getIdOperand]), hstep]
    · -- head is another variable
      have hcount2 : l.count v = 1 := by
        simp [List.count_cons, hwv] at hcount
        exact hcount
      have hwne : w.getResultId ≠ v.getResultId := by
        intro heq
        exact hwv (huniq w (by simp) heq).symm
      have ih2 := ih (b.fillLocalVar w) hcount2
        (fun w2 h2 heq => huniq w2 (by simp [h2]) heq)
        (by rw [fillLocalVar_allInstructions, fuel_congr (fillLocalVar_allInstructions b w)]
            exact hpsb)
      -- decoration filters through the head step
      have hdec := fillLocalVar_decorations b w
      constructor
      · intro hnomark
        simp only [List.foldl_cons]
        have hnomark2 : ¬((b.fillLocalVar w).decorations.any (aliasMarkerFor v.getResultId) = true) := by
          rcases hdec with h | h <;> rw [h]
          · exact hnomark
          · intro hany
            rcases List.any_eq_true.mp hany with ⟨d, hd, hdm⟩
            rcases List.mem_append.mp hd with hd1 | hd2
            · exact hnomark (List.any_eq_true.mpr ⟨d, hd1, hdm⟩)
            · have : d = aliasedDecoration w.getResultId := by simpa using hd2
              subst this
              simp [aliasMarkerFor, aliasedDecoration, Instruction.getIdOperand, hwne] at hdm
        exact ih2.1 hnomark2
      · intro hmark
        simp only [List.foldl_cons]
        have hmark2 : (b.fillLocalVar w).decorations.any (aliasMarkerFor v.getResultId) = true := by
          rcases hdec with h | h <;> rw [h]
          · exact hmark
          · rcases List.any_eq_true.mp hmark with ⟨d, hd, hdm⟩
            exact List.any_eq_true.mpr ⟨d, List.mem_append_left _ hd, hdm⟩
        have heq2 := ih2.2 hmark2
        rw [heq2]
        rcases hdec with h | h <;> rw [h]
        rw [List.filter_append]
        have : List.filter (fun d => decide (d.getIdOperand 0 = v.getResultId))
            [aliasedDecoration w.getResultId] = [] := by
          simp [List.filter, aliasedDecoration, Instruction.getIdOperand, hwne]
        rw [this, List.append_nil]


/-- Witness for C6: with no pre-existing marker exactly one aliased-pointer
record for the variable is present after the fill; with a restrict-pointer
marker already present, the records targeting the variable are unchanged. -/
theorem c6_default_aliasing_witness :
    ([wVarAlias].foldl Builder.fillLocalVar wBuilder6).decorations.filter
        (isAliasedFor wVarAlias.getResultId) = [aliasedDecoration wVarAlias.getResultId] ∧
    ([wVarAlias].foldl Builder.fillLocalVar wBuilder6r).decorations.filter
        (fun d => decide (d.getIdOperand 0 = wVarAlias.getResultId)) =
      wBuilder6r.decorations.filter
        (fun d => decide (d.getIdOperand 0 = wVarAlias.getResultId)) :=
  ⟨(c6_default_aliasing wBuilder6 [wVarAlias] wVarAlias (by decide) (by decide)
      (by decide)).1 (by decide),
   (c6_default_aliasing wBuilder6r [wVarAlias] wVarAlias (by decide) (by decide)
      (by decide)).2 (by decide)⟩



theorem foldl_append_acc {α β : Type} (g : α → List β) (l : List α) :
    ∀ acc : List β, l.foldl (fun a x => a ++ g x) acc = acc ++ l.flatMap g := by
  induction l with
  | nil => intro acc; simp
  | cons x l ih =>
    intro acc
    simp only [List.foldl_cons, List.flatMap_cons]
    rw [ih, List.append_assoc]

theorem orphanedIds_eq (b : Builder) :
    b.orphanedIds = b.functions.flatMap (fun f =>
      (List.range f.blocks.length).flatMap (fun bi =>
        if bi ∈ f.reachableBlocks then []
        else (f.blocks.getD bi default).instructions.map Instruction.getResultId)) := by
  unfold Builder.orphanedIds
  have hinner : ∀ (f : Function) (acc : List Id),
      (List.range f.blocks.length).foldl (fun acc2 bi =>
        if bi ∈ f.reachableBlocks then acc2
        else acc2 ++ (f.blocks.getD bi default).instructions.map Instruction.getResultId) acc =
      acc ++ (List.range f.blocks.length).flatMap (fun bi =>
        if bi ∈ f.reachableBlocks then []
        else (f.blocks.getD bi default).instructions.map Instruction.getResultId) := by
    intro f acc
    have : ∀ (l : List Nat) (acc : List Id),
        l.foldl (fun acc2 bi =>
          if bi ∈ f.reachableBlocks then acc2
          else acc2 ++ (f.blocks.getD bi default).instructions.map Instruction.getResultId) acc =
        acc ++ l.flatMap (fun bi =>
          if bi ∈ f.reachableBlocks then []
          else (f.blocks.getD bi default).instructions.map Instruction.getResultId) := by
      intro l
      induction l with
      | nil => intro acc; simp
      | cons x l ih =>
        intro acc
        simp only [List.foldl_cons, List.flatMap_cons]
        split
        · rw [ih]
          simp
        · rw [ih, List.append_assoc]
    exact this _ acc
  have houter : ∀ (lf : List Function) (acc : List Id),
      lf.foldl (fun acc f =>
        let reach := f.reachableBlocks
        (List.range f.blocks.length).foldl (fun acc2 bi =>
          if bi ∈ reach then acc2
          else acc2 ++ (f.blocks.getD bi default).instructions.map Instruction.getResultId) acc) acc =
      acc ++ lf.flatMap (fun f =>
        (List.range f.blocks.length).flatMap (fun bi =>
          if bi ∈ f.reachableBlocks then []
          else (f.blocks.getD bi default).instructions.map Instruction.getResultId)) := by
    intro lf
    induction lf with
    | nil => intro acc; simp
    | cons f lf ih =>
      intro acc
      simp only [List.foldl_cons, List.flatMap_cons]
      rw [hinner f acc, ih, List.append_assoc]
  exact houter b.functions []

/-- C8 amended: membership in the orphaned-identifier list is exactly having
the result-id field (which is the 0 sentinel for result-less instructions) of
some instruction of an unreachable block; the sentinel is therefore inserted
whenever an unreachable block contains a result-less instruction. -/
theorem c8_orphan_membership (b : Builder) (i : Id) :
    i ∈ b.orphanedIds ↔
      ∃ f ∈ b.functions, ∃ bi, bi < f.blocks.length ∧ bi ∉ f.reachableBlocks ∧
        ∃ inst ∈ (f.blocks.getD bi default).instructions, inst.getResultId = i := by
  rw [orphanedIds_eq]
  simp only [List.mem_flatMap, List.mem_range, List.mem_map]
  constructor
  · rintro ⟨f, hf, bi, hbi, hmem⟩
    split at hmem
    · cases hmem
    · rcases List.mem_map.mp hmem with ⟨inst, hinst, heq⟩
      exact ⟨f, hf, bi, hbi, by assumption, inst, hinst, heq⟩
  · rintro ⟨f, hf, bi, hbi, hreach, inst, hinst, heq⟩
    refine ⟨f, hf, bi, hbi, ?_⟩
    rw [if_neg hreach]
    exact List.mem_map.mpr ⟨inst, hinst, heq⟩

/-- Counterexample for C8 as stated: the second block is unreachable and
holds only a result-less terminator, yet the orphaned set is exactly the
sentinel value 0. -/
theorem c8_sentinel_counterexample :
    wBuilder8.orphanedIds = [0] ∧ (0 : Id) ∈ wBuilder8.orphanedIds := by
  constructor <;> decide




/-- Generic: a fold whose every step preserves a projection preserves it. -/
theorem foldl_proj_eq {α β : Type} (proj : Builder → β) (step : Builder → α → Builder)
    (l : List α) (h : ∀ s x, proj (step s x) = proj s) :
    ∀ b : Builder, proj (l.foldl step b) = proj b := by
  induction l with
  | nil => intro b; rfl
  | cons x l ih =>
    intro b
    simp only [List.foldl_cons]
    rw [ih (step b x), h b x]

theorem flatMap_set_eq {α β : Type} [Inhabited α] (g : α → List β) (l : List α) (i : Nat) (x : α)
    (h : g x = g (l.getD i default)) : (l.set i x).flatMap g = l.flatMap g := by
  induction l generalizing i with
  | nil => simp
  | cons a l ih =>
    cases i with
    | zero =>
      simp only [List.getD_cons_zero] at h
      simp [List.set, h]
    | succ n =>
      simp only [List.getD_cons_succ] at h
      simp [List.set, ih n h]

theorem postProcessType_decorations (b : Builder) (inst : Instruction) (t : Id) :
    (b.postProcessType inst t).decorations = b.decorations := by
  rw [postProcessType_eq_applyReqs, applyReqs_decorations]

theorem postProcessType_functions (b : Builder) (inst : Instruction) (t : Id) :
    (b.postProcessType inst t).functions = b.functions := by
  rw [postProcessType_eq_applyReqs, applyReqs_functions]

theorem postProcessType_globals (b : Builder) (inst : Instruction) (t : Id) :
    (b.postProcessType inst t).globals = b.globals := by
  rw [postProcessType_eq_applyReqs, applyReqs_globals]

theorem postProcessInst_decorations (b : Builder) (inst : Instruction) :
    (b.postProcessInst inst).1.decorations = b.decorations := by
  unfold Builder.postProcessInst
  dsimp only
  have hstep : ∀ (inst1 : Instruction) (s : Builder) (x : Nat),
      (if inst1.isIdOperand x ∧ getTypeIdOf s.allInstructions (inst1.getIdOperand x) ≠ 0 then
        s.postProcessType inst1 (getTypeIdOf s.allInstructions (inst1.getIdOperand x))
      else s).decorations = s.decorations := by
    intro inst1 s x
    split
    · exact postProcessType_decorations _ _ _
    · rfl
  rw [foldl_proj_eq Builder.decorations _ _ (hstep _)]
  split <;> split <;>
    first
      | rw [postProcessType_decorations, applyReqs_decorations]
      | rw [applyReqs_decorations]

theorem postProcessInst_functions (b : Builder) (inst : Instruction) :
    (b.postProcessInst inst).1.functions = b.functions := by
  unfold Builder.postProcessInst
  dsimp only
  have hstep : ∀ (inst1 : Instruction) (s : Builder) (x : Nat),
      (if inst1.isIdOperand x ∧ getTypeIdOf s.allInstructions (inst1.getIdOperand x) ≠ 0 then
        s.postProcessType inst1 (getTypeIdOf s.allInstructions (inst1.getIdOperand x))
      else s).functions = s.functions := by
    intro inst1 s x
    split
    · exact postProcessType_functions _ _ _
    · rfl
  rw [foldl_proj_eq Builder.functions _ _ (hstep _)]
  split <;> split <;>
    first
      | rw [postProcessType_functions, applyReqs_functions]
      | rw [applyReqs_functions]

theorem postProcessInst_globals (b : Builder) (inst : Instruction) :
    (b.postProcessInst inst).1.globals = b.globals := by
  unfold Builder.postProcessInst
  dsimp only
  have hstep : ∀ (inst1 : Instruction) (s : Builder) (x : Nat),
      (if inst1.isIdOperand x ∧ getTypeIdOf s.allInstructions (inst1.getIdOperand x) ≠ 0 then
        s.postProcessType inst1 (getTypeIdOf s.allInstructions (inst1.getIdOperand x))
      else s).globals = s.globals := by
    intro inst1 s x
    split
    · exact postProcessType_globals _ _ _
    · rfl
  rw [foldl_proj_eq Builder.globals _ _ (hstep _)]
  split <;> split <;>
    first
      | rw [postProcessType_globals, applyReqs_globals]
      | rw [applyReqs_globals]

theorem setInstAt_decorations (b : Builder) (fi bi ii : Nat) (inst : Instruction) :
    (b.setInstAt fi bi ii inst).decorations = b.decorations := rfl

theorem setInstAt_globals (b : Builder) (fi bi ii : Nat) (inst : Instruction) :
    (b.setInstAt fi bi ii inst).globals = b.globals := rfl

theorem setInstAt_localVarIds (b : Builder) (fi bi ii : Nat) (inst : Instruction) :
    (b.setInstAt fi bi ii inst).localVarIds = b.localVarIds := by
  unfold Builder.setInstAt Builder.localVarIds
  dsimp only
  apply flatMap_set_eq
  apply flatMap_set_eq
  rfl

theorem processInstAt_decorations (b : Builder) (fi bi ii : Nat) :
    (b.processInstAt fi bi ii).decorations = b.decorations := by
  unfold Builder.processInstAt
  rw [setInstAt_decorations, postProcessInst_decorations]

theorem processInstAt_localVarIds (b : Builder) (fi bi ii : Nat) :
    (b.processInstAt fi bi ii).localVarIds = b.localVarIds := by
  unfold Builder.processInstAt
  rw [setInstAt_localVarIds]
  unfold Builder.localVarIds
  rw [postProcessInst_functions]

theorem processInsts_decorations (b : Builder) (fi bi : Nat) :
    (b.processInsts fi bi).decorations = b.decorations := by
  unfold Builder.processInsts
  exact foldl_proj_eq Builder.decorations _ _ (fun s x => processInstAt_decorations s fi bi x) b

theorem processInsts_localVarIds (b : Builder) (fi bi : Nat) :
    (b.processInsts fi bi).localVarIds = b.localVarIds := by
  unfold Builder.processInsts
  exact foldl_proj_eq Builder.localVarIds _ _ (fun s x => processInstAt_localVarIds s fi bi x) b

theorem fillLocalVar_functions (b : Builder) (v : Instruction) :
    (b.fillLocalVar v).functions = b.functions := by
  unfold Builder.fillLocalVar
  dsimp only
  split
  · split <;> rfl
  · rfl

theorem fillLocalVar_localVarIds (b : Builder) (v : Instruction) :
    (b.fillLocalVar v).localVarIds = b.localVarIds := by
  unfold Builder.localVarIds
  rw [fillLocalVar_functions]

theorem fillVars_localVarIds (b : Builder) (fi bi : Nat) :
    (b.fillVars fi bi).localVarIds = b.localVarIds := by
  unfold Builder.fillVars
  exact foldl_proj_eq Builder.localVarIds _ _ (fun s x => fillLocalVar_localVarIds s x) b

theorem getD_mem {α : Type} [Inhabited α] (l : List α) (i : Nat) (h : i < l.length) :
    l.getD i default ∈ l := by
  rw [List.getD_eq_getElem?_getD, List.getElem?_eq_getElem h]
  simpa using List.getElem_mem h

theorem getD_eq_default {α : Type} [Inhabited α] (l : List α) (i : Nat) (h : ¬(i < l.length)) :
    l.getD i default = default := by
  rw [List.getD_eq_getElem?_getD, List.getElem?_eq_none (by omega)]
  rfl

theorem blockAtPos_var_mem (b : Builder) (fi bi : Nat) (v : Instruction)
    (hv : v ∈ (b.blockAtPos fi bi).localVariables) :
    v.getResultId ∈ b.localVarIds := by
  unfold Builder.blockAtPos at hv
  unfold Builder.localVarIds
  by_cases hfi : fi < b.functions.length
  · have hf : b.functions.getD fi default ∈ b.functions := getD_mem _ _ hfi
    by_cases hbi : bi < (b.functions.getD fi default).blocks.length
    · have hblk : (b.functions.getD fi default).blocks.getD bi default ∈
          (b.functions.getD fi default).blocks := getD_mem _ _ hbi
      exact List.mem_flatMap.mpr ⟨_, hf, List.mem_flatMap.mpr ⟨_, hblk,
        List.mem_map.mpr ⟨v, hv, rfl⟩⟩⟩
    · rw [getD_eq_default _ _ hbi] at hv
      cases hv
  · rw [getD_eq_default _ _ hfi] at hv
    have : (default : Function).blocks.getD bi default = default := rfl
    rw [this] at hv
    cases hv




/-- Decoration lists only grow during the fill, and every appended record is
an aliased-pointer decoration for some local variable. -/
theorem fillVars_dec_append (vars : List Instruction) :
    ∀ s : Builder, ∃ rest, (vars.foldl Builder.fillLocalVar s).decorations =
        s.decorations ++ rest ∧
      ∀ d ∈ rest, ∃ v ∈ vars, d = aliasedDecoration v.getResultId := by
  induction vars with
  | nil => exact fun s => ⟨[], by simp, by simp⟩
  | cons w l ih =>
    intro s
    simp only [List.foldl_cons]
    rcases ih (s.fillLocalVar w) with ⟨rest, hrest, hall⟩
    rcases fillLocalVar_decorations s w with h | h
    · exact ⟨rest, by rw [hrest, h], fun d hd => by
        rcases hall d hd with ⟨v, hv, hdv⟩
        exact ⟨v, by simp [hv], hdv⟩⟩
    · refine ⟨[aliasedDecoration w.getResultId] ++ rest, ?_, ?_⟩
      · rw [hrest, h, List.append_assoc]
      · intro d hd
        rcases List.mem_append.mp hd with hd1 | hd2
        · have : d = aliasedDecoration w.getResultId := by simpa using hd1
          exact ⟨w, by simp, this⟩
        · rcases hall d hd2 with ⟨v, hv, hdv⟩
          exact ⟨v, by simp [hv], hdv⟩

theorem fillVars_dec (b : Builder) (fi bi : Nat) :
    ∃ rest, (b.fillVars fi bi).decorations = b.decorations ++ rest ∧
      ∀ d ∈ rest, ∃ r ∈ b.localVarIds, d = aliasedDecoration r := by
  unfold Builder.fillVars
  rcases fillVars_dec_append (b.blockAtPos fi bi).localVariables b with ⟨rest, h1, h2⟩
  refine ⟨rest, h1, fun d hd => ?_⟩
  rcases h2 d hd with ⟨v, hv, hdv⟩
  exact ⟨v.getResultId, blockAtPos_var_mem b fi bi v hv, hdv⟩

theorem processBlockAt_dec (b : Builder) (fi bi : Nat) :
    ∃ rest, (b.processBlockAt fi bi).decorations = b.decorations ++ rest ∧
      ∀ d ∈ rest, ∃ r ∈ b.localVarIds, d = aliasedDecoration r := by
  unfold Builder.processBlockAt
  rcases fillVars_dec (b.processInsts fi bi) fi bi with ⟨rest, h1, h2⟩
  refine ⟨rest, ?_, fun d hd => ?_⟩
  · rw [h1, processInsts_decorations]
  · rcases h2 d hd with ⟨r, hr, hdr⟩
    rw [processInsts_localVarIds] at hr
    exact ⟨r, hr, hdr⟩

theorem processBlockAt_localVarIds (b : Builder) (fi bi : Nat) :
    (b.processBlockAt fi bi).localVarIds = b.localVarIds := by
  unfold Builder.processBlockAt
  rw [fillVars_localVarIds, processInsts_localVarIds]

theorem dec_append_fold {α : Type} (step : Builder → α → Builder) (l : List α)
    (hstep : ∀ s x, ∃ rest, (step s x).decorations = s.decorations ++ rest ∧
      ∀ d ∈ rest, ∃ r ∈ s.localVarIds, d = aliasedDecoration r)
    (hvars : ∀ s x, (step s x).localVarIds = s.localVarIds) :
    ∀ b : Builder, ∃ rest, (l.foldl step b).decorations = b.decorations ++ rest ∧
      ∀ d ∈ rest, ∃ r ∈ b.localVarIds, d = aliasedDecoration r := by
  induction l with
  | nil => exact fun b => ⟨[], by simp, by simp⟩
  | cons x l ih =>
    intro b
    simp only [List.foldl_cons]
    rcases ih (step b x) with ⟨rest2, h21, h22⟩
    rcases hstep b x with ⟨rest1, h11, h12⟩
    refine ⟨rest1 ++ rest2, ?_, ?_⟩
    · rw [h21, h11, List.append_assoc]
    · intro d hd
      rcases List.mem_append.mp hd with hd1 | hd2
      · exact h12 d hd1
      · rcases h22 d hd2 with ⟨r, hr, hdr⟩
        rw [hvars b x] at hr
        exact ⟨r, hr, hdr⟩

theorem processFunctionAt_dec (b : Builder) (fi : Nat) :
    ∃ rest, (b.processFunctionAt fi).decorations = b.decorations ++ rest ∧
      ∀ d ∈ rest, ∃ r ∈ b.localVarIds, d = aliasedDecoration r := by
  unfold Builder.processFunctionAt
  exact dec_append_fold _ _ (fun s x => processBlockAt_dec s fi x)
    (fun s x => processBlockAt_localVarIds s fi x) b

theorem processFunctionAt_localVarIds (b : Builder) (fi : Nat) :
    (b.processFunctionAt fi).localVarIds = b.localVarIds := by
  unfold Builder.processFunctionAt
  exact foldl_proj_eq Builder.localVarIds _ _ (fun s x => processBlockAt_localVarIds s fi x) b

theorem processAllFunctions_dec (b : Builder) :
    ∃ rest, b.processAllFunctions.decorations = b.decorations ++ rest ∧
      ∀ d ∈ rest, ∃ r ∈ b.localVarIds, d = aliasedDecoration r := by
  unfold Builder.processAllFunctions
  exact dec_append_fold _ _ (fun s x => processFunctionAt_dec s x)
    (fun s x => processFunctionAt_localVarIds s x) b

theorem sweepStep_decorations (s : Builder) (t : Instruction) :
    (s.sweepStep t).decorations = s.decorations := by
  unfold Builder.sweepStep
  dsimp only
  repeat' split
  all_goals first
    | rfl
    | simp [addCapability_decorations, addExtension_decorations]

theorem sweep_decorations (b : Builder) :
    b.sweep.decorations = b.decorations := by
  unfold Builder.sweep
  exact foldl_proj_eq Builder.decorations _ _ sweepStep_decorations b

theorem pruneDecorations_decorations (b : Builder) :
    b.pruneDecorations.decorations =
      b.decorations.filter (fun d => decide (d.getIdOperand 0 ∉ b.orphanedIds)) := rfl

theorem pruneDecorations_localVarIds (b : Builder) :
    b.pruneDecorations.localVarIds = b.localVarIds := rfl




/-- C3 amended: after the pass, the decoration list is the original list with
every record whose target id is the result id of an instruction in the main
instruction sequence of an unreachable block removed, in original relative
order, followed only by appended default-aliasing records, which target
local-variable declarations and not orphaned ids (decorations attached to
local variables owned by unreachable blocks are not pruned, since only the
main instruction sequence contributes to the orphaned-id set). -/
theorem c3_decoration_pruning (b : Builder)
    (hvars : ∀ r ∈ b.localVarIds, r ∉ b.orphanedIds) :
    ∃ rest, b.postProcessAll.decorations =
        b.decorations.filter (fun d => decide (d.getIdOperand 0 ∉ b.orphanedIds)) ++ rest ∧
      ∀ d ∈ rest, d.getIdOperand 0 ∉ b.orphanedIds := by
  unfold Builder.postProcessAll
  rw [sweep_decorations]
  rcases processAllFunctions_dec b.pruneDecorations with ⟨rest, h1, h2⟩
  refine ⟨rest, ?_, ?_⟩
  · rw [h1, pruneDecorations_decorations]
  · intro d hd
    rcases h2 d hd with ⟨r, hr, hdr⟩
    rw [pruneDecorations_localVarIds] at hr
    subst hdr
    have : (aliasedDecoration r).getIdOperand 0 = r := by
      simp [aliasedDecoration, Instruction.getIdOperand]
    rw [this]
    exact hvars r hr

/-- Counterexample for C3 as stated: the decoration targets the local
variable owned by the unreachable second block, yet after the pass it is
still present (local-variable declarations are not collected into the
orphaned-id set). -/
theorem c3_counterexample :
    wVarDead ∈ ((wBuilder3.functions.getD 0 default).blocks.getD 1 default).localVariables ∧
    (1 : Nat) ∉ (wBuilder3.functions.getD 0 default).reachableBlocks ∧
    wDeadDec.getIdOperand 0 = wVarDead.getResultId ∧
    wDeadDec ∈ wBuilder3.decorations ∧
    wDeadDec ∈ wBuilder3.postProcessAll.decorations := by
  refine ⟨by decide, by decide, by decide, by decide, by decide⟩

/-- Witness for the amended C3 on a module with an unreachable block, a
pruned decoration and a surviving one. -/
theorem c3_decoration_pruning_witness :
    ∃ rest, wBuilder3w.postProcessAll.decorations =
        wBuilder3w.decorations.filter
          (fun d => decide (d.getIdOperand 0 ∉ wBuilder3w.orphanedIds)) ++ rest ∧
      ∀ d ∈ rest, d.getIdOperand 0 ∉ wBuilder3w.orphanedIds :=
  c3_decoration_pruning wBuilder3w (by decide)




theorem applyReqs_grows (b : Builder) (r : List Nat × List String) :
    CapsGrow b (b.applyReqs r) :=
  ⟨applyReqs_caps_pref b r, applyReqs_exts_pref b r⟩

theorem postProcessType_grows (b : Builder) (inst : Instruction) (t : Id) :
    CapsGrow b (b.postProcessType inst t) := by
  rw [postProcessType_eq_applyReqs]
  exact applyReqs_grows _ _

theorem postProcessInst_grows (b : Builder) (inst : Instruction) :
    CapsGrow b (b.postProcessInst inst).1 := by
  unfold Builder.postProcessInst
  dsimp only
  have hstep : ∀ (inst1 : Instruction) (s : Builder) (x : Nat),
      CapsGrow s (if inst1.isIdOperand x ∧ getTypeIdOf s.allInstructions (inst1.getIdOperand x) ≠ 0 then
        s.postProcessType inst1 (getTypeIdOf s.allInstructions (inst1.getIdOperand x))
      else s) := by
    intro inst1 s x
    split
    · exact postProcessType_grows _ _ _
    · exact CapsGrow.refl s
  have h2 : ∀ (s : Builder) (inst1 : Instruction),
      CapsGrow s (if inst1.typeId ≠ 0 then s.postProcessType inst1 inst1.typeId else s) := by
    intro s inst1
    split
    · exact postProcessType_grows _ _ _
    · exact CapsGrow.refl s
  exact ((applyReqs_grows b (switchReqs inst)).trans (h2 _ _)).trans
    (grows_foldl _ _ (hstep _) _)

theorem setInstAt_grows (b : Builder) (fi bi ii : Nat) (inst : Instruction) :
    CapsGrow b (b.setInstAt fi bi ii inst) :=
  CapsGrow.of_eq_lists rfl rfl

theorem processInstAt_grows (b : Builder) (fi bi ii : Nat) :
    CapsGrow b (b.processInstAt fi bi ii) := by
  unfold Builder.processInstAt
  exact (postProcessInst_grows b _).trans (setInstAt_grows _ fi bi ii _)

theorem fillLocalVar_grows (b : Builder) (v : Instruction) :
    CapsGrow b (b.fillLocalVar v) := by
  unfold Builder.fillLocalVar
  dsimp only
  split
  · split
    · exact CapsGrow.refl b
    · exact CapsGrow.of_eq_lists rfl rfl
  · exact CapsGrow.refl b

theorem processBlockAt_grows (b : Builder) (fi bi : Nat) :
    CapsGrow b (b.processBlockAt fi bi) := by
  unfold Builder.processBlockAt Builder.processInsts Builder.fillVars
  exact (grows_foldl _ _ (fun s x => processInstAt_grows s fi bi x) b).trans
    (grows_foldl _ _ (fun s x => fillLocalVar_grows s x) _)

theorem processAllFunctions_grows (b : Builder) :
    CapsGrow b b.processAllFunctions := by
  unfold Builder.processAllFunctions Builder.processFunctionAt
  exact grows_foldl _ _
    (fun s x => grows_foldl _ _ (fun s2 y => processBlockAt_grows s2 x y) s) b

theorem sweep_grows (b : Builder) : CapsGrow b b.sweep := by
  unfold Builder.sweep
  exact grows_foldl _ _ sweepStep_grows b

theorem pruneDecorations_grows (b : Builder) : CapsGrow b b.pruneDecorations :=
  CapsGrow.of_eq_lists rfl rfl

theorem postProcessAll_grows (b : Builder) : CapsGrow b b.postProcessAll := by
  unfold Builder.postProcessAll
  exact ((pruneDecorations_grows b).trans (processAllFunctions_grows _)).trans (sweep_grows _)

/-- C4: across one invocation of the pass the capability and extension sets
only grow (the original lists stay as a prefix, so no entry is ever removed),
and requesting an already-present capability or extension leaves the state
unchanged. -/
theorem c4_monotone_caps_exts (b : Builder) :
    (∀ c ∈ b.capabilities, c ∈ b.postProcessAll.capabilities) ∧
    (∀ e ∈ b.extensions, e ∈ b.postProcessAll.extensions) ∧
    (∃ l, b.postProcessAll.capabilities = b.capabilities ++ l) ∧
    (∃ l, b.postProcessAll.extensions = b.extensions ++ l) ∧
    (∀ (b2 : Builder) (c : Nat), c ∈ b2.capabilities → b2.addCapability c = b2) ∧
    (∀ (b2 : Builder) (e : String), e ∈ b2.extensions → b2.addExtension e = b2) := by
  have hg := postProcessAll_grows b
  exact ⟨fun c hc => hg.mem_cap hc, fun e he => hg.mem_ext he, hg.1, hg.2,
    addCapability_absorb, addExtension_absorb⟩

/-- Witness for C4: a builder with a pre-existing capability and extension
keeps them through the pass, and re-adding them is a no-op. -/
theorem c4_monotone_caps_exts_witness :
    CapabilityImageQuery ∈ wBuilder4.postProcessAll.capabilities ∧
    wBuilder4.addCapability CapabilityImageQuery = wBuilder4 :=
  ⟨(c4_monotone_caps_exts wBuilder4).1 CapabilityImageQuery (by decide),
   (c4_monotone_caps_exts wBuilder4).2.2.2.2.1 wBuilder4 CapabilityImageQuery (by decide)⟩




theorem postProcessType_allInstructions (b : Builder) (inst : Instruction) (t : Id) :
    (b.postProcessType inst t).allInstructions = b.allInstructions := by
  rw [postProcessType_eq_applyReqs, applyReqs_allInstructions]

theorem postProcessType_spvVersion (b : Builder) (inst : Instruction) (t : Id) :
    (b.postProcessType inst t).spvVersion = b.spvVersion := by
  rw [postProcessType_eq_applyReqs, applyReqs_spvVersion]

theorem extinst_not_loadstore {inst : Instruction} (hop : inst.opcode = Op.OpExtInst) :
    ¬(inst.opcode = Op.OpLoad ∨ inst.opcode = Op.OpStore) := by
  simp [hop]

theorem extinst_not_exempt {inst : Instruction} (hop : inst.opcode = Op.OpExtInst) :
    ¬(inst.opcode = Op.OpAccessChain ∨ inst.opcode = Op.OpPtrAccessChain ∨
      inst.opcode = Op.OpCopyObject ∨ inst.opcode = Op.OpFConvert ∨
      inst.opcode = Op.OpSConvert ∨ inst.opcode = Op.OpUConvert) := by
  simp [hop]

theorem postProcessType_frexp_int16 (s : Builder) (inst1 : Instruction) (t : Id)
    (hop : inst1.opcode = Op.OpExtInst)
    (hfx : inst1.getImmediateOperand 1 = GLSLstd450Frexp ∨
           inst1.getImmediateOperand 1 = GLSLstd450FrexpStruct)
    (hver : s.spvVersion < EShTargetSpv_1_3)
    (hct : containsType s.allInstructions s.fuel t Op.OpTypeInt 16 = true) :
    E_SPV_AMD_gpu_shader_int16 ∈ (s.postProcessType inst1 t).extensions := by
  rw [postProcessType_eq_applyReqs]
  apply mem_applyReqs_ext
  unfold typeReqs
  dsimp only
  rw [if_neg (extinst_not_loadstore hop), if_neg (extinst_not_exempt hop), if_pos hop,
    if_pos hfx, if_pos ⟨hver, hct⟩]
  simp

theorem postProcessType_interp_float16 (s : Builder) (inst1 : Instruction) (t : Id)
    (hop : inst1.opcode = Op.OpExtInst)
    (hin : inst1.getImmediateOperand 1 = GLSLstd450InterpolateAtCentroid ∨
           inst1.getImmediateOperand 1 = GLSLstd450InterpolateAtSample ∨
           inst1.getImmediateOperand 1 = GLSLstd450InterpolateAtOffset)
    (hnf : ¬(inst1.getImmediateOperand 1 = GLSLstd450Frexp ∨
             inst1.getImmediateOperand 1 = GLSLstd450FrexpStruct))
    (hver : s.spvVersion < EShTargetSpv_1_3)
    (hct : containsType s.allInstructions s.fuel t Op.OpTypeFloat 16 = true) :
    E_SPV_AMD_gpu_shader_half_float ∈ (s.postProcessType inst1 t).extensions := by
  rw [postProcessType_eq_applyReqs]
  apply mem_applyReqs_ext
  unfold typeReqs
  dsimp only
  rw [if_neg (extinst_not_loadstore hop), if_neg (extinst_not_exempt hop), if_pos hop,
    if_neg hnf, if_pos hin, if_pos ⟨hver, hct⟩]
  simp

theorem opLoop_step_allInstructions (inst1 : Instruction) (s : Builder) (x : Nat) :
    ((if inst1.isIdOperand x ∧ getTypeIdOf s.allInstructions (inst1.getIdOperand x) ≠ 0 then
      s.postProcessType inst1 (getTypeIdOf s.allInstructions (inst1.getIdOperand x))
    else s)).allInstructions = s.allInstructions := by
  split
  · exact postProcessType_allInstructions _ _ _
  · rfl

theorem opLoop_step_spvVersion (inst1 : Instruction) (s : Builder) (x : Nat) :
    ((if inst1.isIdOperand x ∧ getTypeIdOf s.allInstructions (inst1.getIdOperand x) ≠ 0 then
      s.postProcessType inst1 (getTypeIdOf s.allInstructions (inst1.getIdOperand x))
    else s)).spvVersion = s.spvVersion := by
  split
  · exact postProcessType_spvVersion _ _ _
  · rfl

theorem opLoop_step_grows (inst1 : Instruction) (s : Builder) (x : Nat) :
    CapsGrow s (if inst1.isIdOperand x ∧ getTypeIdOf s.allInstructions (inst1.getIdOperand x) ≠ 0 then
      s.postProcessType inst1 (getTypeIdOf s.allInstructions (inst1.getIdOperand x))
    else s) := by
  split
  · exact postProcessType_grows _ _ _
  · exact CapsGrow.refl s

theorem opLoop_ext_mem (inst1 : Instruction) (e : String) (op : Nat)
    (A : Insts) (V : Nat)
    (hid : inst1.isIdOperand op = true)
    (htype : getTypeIdOf A (inst1.getIdOperand op) ≠ 0)
    (heff : ∀ s : Builder, s.allInstructions = A → s.spvVersion = V →
      e ∈ (s.postProcessType inst1 (getTypeIdOf A (inst1.getIdOperand op))).extensions) :
    ∀ (l : List Nat) (s : Builder), op ∈ l → s.allInstructions = A → s.spvVersion = V →
      e ∈ (l.foldl (fun s2 op2 =>
        if inst1.isIdOperand op2 ∧ getTypeIdOf s2.allInstructions (inst1.getIdOperand op2) ≠ 0 then
          s2.postProcessType inst1 (getTypeIdOf s2.allInstructions (inst1.getIdOperand op2))
        else s2) s).extensions := by
  intro l
  induction l with
  | nil => intro s h; cases h
  | cons x l ih =>
    intro s hmem hA hV
    simp only [List.foldl_cons]
    rcases List.mem_cons.mp hmem with rfl | hmem2
    · have hcond : inst1.isIdOperand op ∧
          getTypeIdOf s.allInstructions (inst1.getIdOperand op) ≠ 0 := by
        rw [hA]; exact ⟨hid, htype⟩
      have hstep : (if inst1.isIdOperand op ∧
            getTypeIdOf s.allInstructions (inst1.getIdOperand op) ≠ 0 then
          s.postProcessType inst1 (getTypeIdOf s.allInstructions (inst1.getIdOperand op))
        else s) = s.postProcessType inst1 (getTypeIdOf A (inst1.getIdOperand op)) := by
        rw [if_pos hcond, hA]
      rw [hstep]
      have hg := grows_foldl _ l (opLoop_step_grows inst1)
        (s.postProcessType inst1 (getTypeIdOf A (inst1.getIdOperand op)))
      exact hg.mem_ext (heff s hA hV)
    · apply ih _ hmem2
      · rw [opLoop_step_allInstructions]; exact hA
      · rw [opLoop_step_spvVersion]; exact hV

/-- C10: the version-gated extended-instruction extension rules are applied
once per typed id operand of the call and once for its result type; an
operand whose type transitively contains the relevant 16-bit scalar triggers
the extension request, with no condition on the result type. -/
theorem c10_extinst_per_operand (b : Builder) (inst : Instruction) (op : Nat)
    (hop : inst.opcode = Op.OpExtInst)
    (hver : b.spvVersion < EShTargetSpv_1_3)
    (hoplt : op < inst.getNumOperands)
    (hid : inst.isIdOperand op = true)
    (htype : getTypeIdOf b.allInstructions (inst.getIdOperand op) ≠ 0) :
    ((inst.getImmediateOperand 1 = GLSLstd450Frexp ∨
      inst.getImmediateOperand 1 = GLSLstd450FrexpStruct) →
      containsType b.allInstructions b.fuel
        (getTypeIdOf b.allInstructions (inst.getIdOperand op)) Op.OpTypeInt 16 = true →
      E_SPV_AMD_gpu_shader_int16 ∈ (b.postProcessInst inst).1.extensions) ∧
    ((inst.getImmediateOperand 1 = GLSLstd450InterpolateAtCentroid ∨
      inst.getImmediateOperand 1 = GLSLstd450InterpolateAtSample ∨
      inst.getImmediateOperand 1 = GLSLstd450InterpolateAtOffset) →
      containsType b.allInstructions b.fuel
        (getTypeIdOf b.allInstructions (inst.getIdOperand op)) Op.OpTypeFloat 16 = true →
      E_SPV_AMD_gpu_shader_half_float ∈ (b.postProcessInst inst).1.extensions) ∧
    ((inst.getImmediateOperand 1 = GLSLstd450Frexp ∨
      inst.getImmediateOperand 1 = GLSLstd450FrexpStruct) →
      inst.typeId ≠ 0 →
      containsType b.allInstructions b.fuel inst.typeId Op.OpTypeInt 16 = true →
      E_SPV_AMD_gpu_shader_int16 ∈ (b.postProcessInst inst).1.extensions) ∧
    ((inst.getImmediateOperand 1 = GLSLstd450InterpolateAtCentroid ∨
      inst.getImmediateOperand 1 = GLSLstd450InterpolateAtSample ∨
      inst.getImmediateOperand 1 = GLSLstd450InterpolateAtOffset) →
      inst.typeId ≠ 0 →
      containsType b.allInstructions b.fuel inst.typeId Op.OpTypeFloat 16 = true →
      E_SPV_AMD_gpu_shader_half_float ∈ (b.postProcessInst inst).1.extensions) := by
  unfold Builder.postProcessInst
  dsimp only
  rw [if_neg (extinst_not_loadstore hop)]
  have hA1 : (b.applyReqs (switchReqs inst)).allInstructions = b.allInstructions :=
    applyReqs_allInstructions _ _
  have hV1 : (b.applyReqs (switchReqs inst)).spvVersion = b.spvVersion :=
    applyReqs_spvVersion _ _
  have hA2 : (if inst.typeId ≠ 0 then
        (b.applyReqs (switchReqs inst)).postProcessType inst inst.typeId
      else b.applyReqs (switchReqs inst)).allInstructions = b.allInstructions := by
    split
    · rw [postProcessType_allInstructions, hA1]
    · exact hA1
  have hV2 : (if inst.typeId ≠ 0 then
        (b.applyReqs (switchReqs inst)).postProcessType inst inst.typeId
      else b.applyReqs (switchReqs inst)).spvVersion = b.spvVersion := by
    split
    · rw [postProcessType_spvVersion, hV1]
    · exact hV1
  have hmemrange : op ∈ List.range inst.getNumOperands := List.mem_range.mpr hoplt
  have hinterp_nf : ∀ (h : inst.getImmediateOperand 1 = GLSLstd450InterpolateAtCentroid ∨
        inst.getImmediateOperand 1 = GLSLstd450InterpolateAtSample ∨
        inst.getImmediateOperand 1 = GLSLstd450InterpolateAtOffset),
      ¬(inst.getImmediateOperand 1 = GLSLstd450Frexp ∨
        inst.getImmediateOperand 1 = GLSLstd450FrexpStruct) := by
    intro h
    rcases h with h | h | h <;>
      simp [h, GLSLstd450Frexp, GLSLstd450FrexpStruct, GLSLstd450InterpolateAtCentroid,
        GLSLstd450InterpolateAtSample, GLSLstd450InterpolateAtOffset]
  refine ⟨fun hfx hct => ?_, fun hin hct => ?_, fun hfx ht0 hct => ?_, fun hin ht0 hct => ?_⟩
  · apply opLoop_ext_mem inst _ op b.allInstructions b.spvVersion hid htype _ _ _ hmemrange hA2 hV2
    intro s hsA hsV
    apply postProcessType_frexp_int16 s inst _ hop hfx (by rw [hsV]; exact hver)
    rw [hsA, fuel_congr hsA]
    exact hct
  · apply opLoop_ext_mem inst _ op b.allInstructions b.spvVersion hid htype _ _ _ hmemrange hA2 hV2
    intro s hsA hsV
    apply postProcessType_interp_float16 s inst _ hop hin (hinterp_nf hin)
      (by rw [hsV]; exact hver)
    rw [hsA, fuel_congr hsA]
    exact hct
  · have hb2 : E_SPV_AMD_gpu_shader_int16 ∈ (if inst.typeId ≠ 0 then
          (b.applyReqs (switchReqs inst)).postProcessType inst inst.typeId
        else b.applyReqs (switchReqs inst)).extensions := by
      rw [if_pos ht0]
      apply postProcessType_frexp_int16 _ inst _ hop hfx (by rw [hV1]; exact hver)
      rw [hA1, fuel_congr hA1]
      exact hct
    exact (grows_foldl _ _ (opLoop_step_grows inst) _).mem_ext hb2
  · have hb2 : E_SPV_AMD_gpu_shader_half_float ∈ (if inst.typeId ≠ 0 then
          (b.applyReqs (switchReqs inst)).postProcessType inst inst.typeId
        else b.applyReqs (switchReqs inst)).extensions := by
      rw [if_pos ht0]
      apply postProcessType_interp_float16 _ inst _ hop hin (hinterp_nf hin)
        (by rw [hV1]; exact hver)
      rw [hA1, fuel_congr hA1]
      exact hct
    exact (grows_foldl _ _ (opLoop_step_grows inst) _).mem_ext hb2


/-- Witness for C10: a Frexp call whose result type is a 32-bit float but
whose id operand has 16-bit-integer type requests the 16-bit-integer
extension. -/
theorem c10_extinst_per_operand_witness :
    E_SPV_AMD_gpu_shader_int16 ∈ (wBuilder10.postProcessInst wExtInstFrexp).1.extensions :=
  (c10_extinst_per_operand wBuilder10 wExtInstFrexp 2 (by decide) (by decide) (by decide)
    (by decide) (by decide)).1 (Or.inl (by decide)) (by decide)


/-- When the checked walk succeeds it computes the same accumulator as the
unchecked walk. -/
theorem alignLoopChecked_agrees (defs : Insts) (decs : List Instruction) (chain : Instruction) :
    ∀ (l : List Nat) (t : Id) (a r : Nat),
      alignLoopChecked defs decs chain l t a = some r →
      alignLoop defs decs chain l t a = r := by
  intro l
  induction l with
  | nil =>
    intro t a r h
    simp [alignLoopChecked] at h
    simp [alignLoop, h]
  | cons i rest ih =>
    intro t a r h
    unfold alignLoopChecked at h
    unfold alignLoop
    dsimp only at h ⊢
    split at h
    · split at h
      · exact ih _ _ _ h
      · cases h
    · exact ih _ _ _ h
    · exact ih _ _ _ h
    · cases h
      rfl

/-- When every struct index on the walk is a constant, the checked walk
succeeds and computes exactly the unchecked walk. -/
theorem alignLoopChecked_eq_of_const (defs : Insts) (decs : List Instruction)
    (chain : Instruction) :
    ∀ (l : List Nat) (t : Id) (a : Nat),
      structIndicesConstant defs chain l t = true →
      alignLoopChecked defs decs chain l t a = some (alignLoop defs decs chain l t a) := by
  intro l
  induction l with
  | nil =>
    intro t a _
    simp [alignLoopChecked, alignLoop]
  | cons i rest ih =>
    intro t a h
    unfold structIndicesConstant at h
    unfold alignLoopChecked alignLoop
    dsimp only at h ⊢
    split at h
    · split at h
      · rename_i hc
        rw [if_pos hc]
        exact ih _ _ h
      · cases h
    · exact ih _ _ h
    · exact ih _ _ h
    · rfl

/-- C9: for every load or store whose pointer operand is defined by an
access chain, under the well-formedness precondition (the chain base's type
resolves to a pointer type and, on the byte-addressable path, every struct
index operand is a constant instruction, the instruction carries at least
three operands and its memory-access operand has the aligned flag set) the
checked rewrite, which fails at each of the source's assertion points,
succeeds and produces exactly the pass's total rewrite - so the fatal
assertion branches are unreachable; when the base's type is not a pointer
type, the checked rewrite halts at the point of detection, producing no
rewritten instruction. -/
theorem c9_assert_unreachable (defs : Insts) (decs : List Instruction) (inst : Instruction)
    (hchain : (chainOf defs inst).opcode = Op.OpAccessChain) :
    ((baseTypeOf defs inst).opcode = Op.OpTypePointer →
      ((baseTypeOf defs inst).getImmediateOperand 0 = StorageClassPhysicalStorageBufferEXT →
        structIndicesConstant defs (chainOf defs inst)
          (List.range' 1 ((chainOf defs inst).getNumOperands - 1))
          ((baseTypeOf defs inst).getIdOperand 1) = true ∧
        3 ≤ inst.getNumOperands ∧
        inst.getImmediateOperand (if inst.opcode = Op.OpStore then 2 else 1) &&&
          MemoryAccessAlignedMask ≠ 0) →
      rewriteInstChecked defs decs inst = some (rewriteInst defs decs inst)) ∧
    ((baseTypeOf defs inst).opcode ≠ Op.OpTypePointer →
      rewriteInstChecked defs decs inst = none) := by
  constructor
  · intro hptr hpre
    simp only [chainOf, baseTypeOf] at hchain hptr hpre
    unfold rewriteInstChecked rewriteInst
    dsimp only
    rw [if_pos hchain, if_pos hchain, if_pos hptr]
    by_cases hpsb : (findInst defs (findInst defs ((findInst defs
        (inst.getIdOperand 0)).getIdOperand 0)).typeId).getImmediateOperand 0 =
        StorageClassPhysicalStorageBufferEXT
    · obtain ⟨hwalk, hlen, hflag⟩ := hpre hpsb
      rw [if_neg (not_not_intro hpsb), if_neg (not_not_intro hpsb)]
      rw [alignLoopChecked_eq_of_const defs decs _ _ _ _ hwalk]
      dsimp only
      rw [if_pos hlen, if_pos hflag]
      unfold chainAlignment
      rfl
    · rw [if_pos hpsb, if_pos hpsb]
  · intro hnptr
    simp only [chainOf, baseTypeOf] at hchain hnptr
    unfold rewriteInstChecked
    dsimp only
    rw [if_pos hchain, if_neg hnptr]


theorem c9_assert_unreachable_witness :
    rewriteInstChecked wBuilder.allInstructions wBuilder.decorations wLoad =
      some (rewriteInst wBuilder.allInstructions wBuilder.decorations wLoad) ∧
    rewriteInstChecked wBadDefs wBuilder.decorations wBadLoad = none := by
  constructor
  · exact (c9_assert_unreachable wBuilder.allInstructions wBuilder.decorations wLoad
      (by decide)).1 (by decide) (fun _ => ⟨by decide, by decide, by decide⟩)
  · exact (c9_assert_unreachable wBadDefs wBuilder.decorations wBadLoad (by decide)).2 (by decide)


/-- List.set beyond the length is the identity. -/
theorem set_of_length_le {α : Type} (l : List α) (n : Nat) (v : α) (h : l.length ≤ n) :
    l.set n v = l := by
  induction l generalizing n with
  | nil => rfl
  | cons a l ih =>
    cases n with
    | zero => simp at h
    | succ m => simp only [List.set]; rw [ih m (by simpa using h)]

/-- Writing back the element already stored is the identity. -/
theorem set_getD_self {α : Type} (l : List α) (n : Nat) (d : α) (h : n < l.length) :
    l.set n (l.getD n d) = l := by
  induction l generalizing n with
  | nil => rfl
  | cons a l ih =>
    cases n with
    | zero => simp [List.set]
    | succ m =>
      simp only [List.set, List.getD_cons_succ]
      rw [ih m (by simpa using h)]

theorem getD_set_ne {α : Type} (l : List α) (n k : Nat) (v : α) (d : α) (h : n ≠ k) :
    (l.set n v).getD k d = l.getD k d := by
  induction l generalizing n k with
  | nil => rfl
  | cons a l ih =>
    cases n with
    | zero =>
      cases k with
      | zero => omega
      | succ j => simp [List.set]
    | succ m =>
      cases k with
      | zero => simp [List.set]
      | succ j => simp only [List.set, List.getD_cons_succ]; exact ih m j (by omega)

theorem getD_set_self' {α : Type} (l : List α) (n : Nat) (v : α) (d : α) (h : n < l.length) :
    (l.set n v).getD n d = v := by
  induction l generalizing n with
  | nil => simp at h
  | cons a l ih =>
    cases n with
    | zero => simp [List.set]
    | succ m => simp only [List.set, List.getD_cons_succ]; exact ih m (by simpa using h)

/-- Projections untouched by an alignment write. -/
theorem setImm_opcode (i : Instruction) (n v : Nat) :
    (i.setImmediateOperand n v).opcode = i.opcode := rfl

theorem setImm_resultId (i : Instruction) (n v : Nat) :
    (i.setImmediateOperand n v).resultId = i.resultId := rfl

theorem setImm_typeId (i : Instruction) (n v : Nat) :
    (i.setImmediateOperand n v).typeId = i.typeId := rfl

theorem setImm_idOperand (i : Instruction) (n v : Nat) :
    (i.setImmediateOperand n v).idOperand = i.idOperand := rfl

theorem setImm_length (i : Instruction) (n v : Nat) :
    (i.setImmediateOperand n v).operands.length = i.operands.length := by
  simp [Instruction.setImmediateOperand]

theorem setImm_setImm (i : Instruction) (n v w : Nat) :
    (i.setImmediateOperand n v).setImmediateOperand n w = i.setImmediateOperand n w := by
  simp [Instruction.setImmediateOperand, List.set_set]


theorem InstEvolved.same (i : Instruction) : InstEvolved i i := Or.inl rfl

theorem alignmentIdx_ge_two (i : Instruction) : 2 ≤ alignmentIdx i := by
  unfold alignmentIdx; split <;> omega

theorem InstEvolved.opcode {i i' : Instruction} (h : InstEvolved i i') :
    i'.opcode = i.opcode := by
  rcases h with rfl | ⟨_, v, rfl⟩ <;> rfl

theorem InstEvolved.resultId {i i' : Instruction} (h : InstEvolved i i') :
    i'.resultId = i.resultId := by
  rcases h with rfl | ⟨_, v, rfl⟩ <;> rfl

theorem InstEvolved.typeId {i i' : Instruction} (h : InstEvolved i i') :
    i'.typeId = i.typeId := by
  rcases h with rfl | ⟨_, v, rfl⟩ <;> rfl

theorem InstEvolved.idOperand {i i' : Instruction} (h : InstEvolved i i') :
    i'.idOperand = i.idOperand := by
  rcases h with rfl | ⟨_, v, rfl⟩ <;> rfl

theorem InstEvolved.length {i i' : Instruction} (h : InstEvolved i i') :
    i'.operands.length = i.operands.length := by
  rcases h with rfl | ⟨_, v, rfl⟩
  · rfl
  · exact setImm_length _ _ _

theorem InstEvolved.numOperands {i i' : Instruction} (h : InstEvolved i i') :
    i'.getNumOperands = i.getNumOperands := h.length

theorem InstEvolved.operand_lt_two {i i' : Instruction} (h : InstEvolved i i')
    (k : Nat) (hk : k < 2) : i'.operands.getD k 0 = i.operands.getD k 0 := by
  rcases h with rfl | ⟨_, v, rfl⟩
  · rfl
  · exact getD_set_ne _ _ _ _ _ (by have := alignmentIdx_ge_two i; omega)

theorem InstEvolved.getIdOperand_lt_two {i i' : Instruction} (h : InstEvolved i i')
    (k : Nat) (hk : k < 2) : i'.getIdOperand k = i.getIdOperand k :=
  h.operand_lt_two k hk

theorem InstEvolved.getImmediateOperand_lt_two {i i' : Instruction} (h : InstEvolved i i')
    (k : Nat) (hk : k < 2) : i'.getImmediateOperand k = i.getImmediateOperand k :=
  h.operand_lt_two k hk

theorem InstEvolved.eq_of_not_ls {i i' : Instruction} (h : InstEvolved i i')
    (h1 : i.opcode ≠ Op.OpLoad) (h2 : i.opcode ≠ Op.OpStore) : i' = i := by
  rcases h with rfl | ⟨hls, _, _⟩
  · rfl
  · rcases hls with hl | hs
    · exact absurd hl h1
    · exact absurd hs h2

theorem alignmentIdx_congr {i i' : Instruction} (h : i'.opcode = i.opcode) :
    alignmentIdx i' = alignmentIdx i := by
  unfold alignmentIdx; rw [h]

theorem InstEvolved.chain {i i' i'' : Instruction}
    (h1 : InstEvolved i i') (h2 : InstEvolved i' i'') : InstEvolved i i'' := by
  rcases h1 with rfl | ⟨hls, v, rfl⟩
  · exact h2
  · rcases h2 with rfl | ⟨_, w, h2⟩
    · exact Or.inr ⟨hls, v, rfl⟩
    · refine Or.inr ⟨hls, w, ?_⟩
      rw [h2, alignmentIdx_congr (setImm_opcode i _ v), setImm_setImm]


theorem DefsEvolved.all_same (d : Insts) : DefsEvolved d d :=
  List.forall₂_same.mpr (fun i _ => InstEvolved.same i)

theorem DefsEvolved.all_chain {a b c : Insts} (h1 : DefsEvolved a b) (h2 : DefsEvolved b c) :
    DefsEvolved a c := by
  induction h1 generalizing c with
  | nil => cases h2; exact List.Forall₂.nil
  | cons hab hrest ih =>
    cases h2 with
    | cons hbc hrest2 => exact List.Forall₂.cons (hab.chain hbc) (ih hrest2)

theorem DefsEvolved.len_eq {d d' : Insts} (h : DefsEvolved d d') :
    d'.length = d.length := (List.Forall₂.length_eq h).symm

theorem findInst_evolved {d d' : Insts} (h : DefsEvolved d d') (i : Id) :
    InstEvolved (findInst d i) (findInst d' i) := by
  induction h with
  | nil => exact InstEvolved.same _
  | cons hx hrest ih =>
    rename_i a b l1 l2
    unfold findInst at *
    by_cases hr : a.resultId = i
    · rw [List.find?_cons_of_pos _ (by simp [hr]),
        List.find?_cons_of_pos _ (by simp [hx.resultId, hr])]
      exact hx
    · rw [List.find?_cons_of_neg _ (by simp [hr]),
        List.find?_cons_of_neg _ (by simp [hx.resultId, hr])]
      exact ih


/-- The basic-type classifier never reads a rewritten alignment slot. -/
theorem getMostBasicTypeClass_evolved {d d' : Insts} (h : DefsEvolved d d') :
    ∀ (fl : Nat) (t : Id), getMostBasicTypeClass d' fl t = getMostBasicTypeClass d fl t := by
  intro fl
  induction fl with
  | zero => intro t; rfl
  | succ n ih =>
    intro t
    unfold getMostBasicTypeClass
    dsimp only
    have he := findInst_evolved h t
    rw [he.opcode]
    split
    all_goals first
      | rfl
      | (rename_i heq
         rw [he.eq_of_not_ls (by rw [heq]; decide) (by rw [heq]; decide)]
         exact ih _)

theorem getScalarTypeId_evolved {d d' : Insts} (h : DefsEvolved d d') :
    ∀ (fl : Nat) (t : Id), getScalarTypeId d' fl t = getScalarTypeId d fl t := by
  intro fl
  induction fl with
  | zero => intro t; rfl
  | succ n ih =>
    intro t
    unfold getScalarTypeId
    dsimp only
    have he := findInst_evolved h t
    rw [he.opcode]
    split
    all_goals first
      | rfl
      | (rename_i heq
         rw [he.eq_of_not_ls (by rw [heq]; decide) (by rw [heq]; decide)]
         exact ih _)

theorem getScalarTypeWidth_evolved {d d' : Insts} (h : DefsEvolved d d')
    (fl : Nat) (t : Id) : getScalarTypeWidth d' fl t = getScalarTypeWidth d fl t := by
  unfold getScalarTypeWidth
  rw [getScalarTypeId_evolved h]
  exact (findInst_evolved h _).getImmediateOperand_lt_two 0 (by omega)

theorem containsType_evolved {d d' : Insts} (h : DefsEvolved d d') :
    ∀ (fl : Nat) (t : Id) (typeOp : Op) (width : Nat),
      containsType d' fl t typeOp width = containsType d fl t typeOp width := by
  intro fl
  induction fl with
  | zero => intro t _ _; rfl
  | succ n ih =>
    intro t typeOp width
    unfold containsType
    dsimp only
    have he := findInst_evolved h t
    rw [he.opcode]
    split
    all_goals first
      | rfl
      | (rename_i heq
         rw [he.eq_of_not_ls (by rw [heq]; decide) (by rw [heq]; decide)]
         all_goals first | exact ih _ _ _ | simp only [ih])

theorem containsPhysicalStorageBufferOrArray_evolved {d d' : Insts} (h : DefsEvolved d d') :
    ∀ (fl : Nat) (t : Id),
      containsPhysicalStorageBufferOrArray d' fl t =
        containsPhysicalStorageBufferOrArray d fl t := by
  intro fl
  induction fl with
  | zero => intro t; rfl
  | succ n ih =>
    intro t
    unfold containsPhysicalStorageBufferOrArray
    dsimp only
    have he := findInst_evolved h t
    rw [he.opcode]
    split
    all_goals first
      | rfl
      | (rename_i heq
         rw [he.eq_of_not_ls (by rw [heq]; decide) (by rw [heq]; decide)]
         all_goals first | exact ih _ | simp only [ih])

theorem getTypeIdOf_evolved {d d' : Insts} (h : DefsEvolved d d') (i : Id) :
    getTypeIdOf d' i = getTypeIdOf d i :=
  (findInst_evolved h i).typeId

theorem getStorageClass_evolved {d d' : Insts} (h : DefsEvolved d d') (i : Id) :
    getStorageClass d' i = getStorageClass d i := by
  unfold getStorageClass
  rw [getTypeIdOf_evolved h]
  exact (findInst_evolved h _).getImmediateOperand_lt_two 0 (by omega)

theorem getDerefTypeId_evolved {d d' : Insts} (h : DefsEvolved d d') (i : Id) :
    getDerefTypeId d' i = getDerefTypeId d i := by
  unfold getDerefTypeId
  rw [getTypeIdOf_evolved h]
  exact (findInst_evolved h _).getIdOperand_lt_two 1 (by omega)


theorem AliasedOnly.nil : AliasedOnly [] := fun d hd => absurd hd (List.not_mem_nil d)

theorem AliasedOnly.append {l1 l2 : List Instruction}
    (h1 : AliasedOnly l1) (h2 : AliasedOnly l2) : AliasedOnly (l1 ++ l2) := by
  intro d hd
  rcases List.mem_append.mp hd with h | h
  · exact h1 d h
  · exact h2 d h

theorem foldl_id_of_skip {β : Type} (f : β → Instruction → β) :
    ∀ (extra : List Instruction), (∀ acc d, d ∈ extra → f acc d = acc) →
      ∀ acc, extra.foldl f acc = acc := by
  intro extra
  induction extra with
  | nil => intro _ acc; rfl
  | cons x l ih =>
    intro hskip acc
    simp only [List.foldl_cons]
    rw [hskip acc x (List.mem_cons_self x l)]
    exact ih (fun a d hd => hskip a d (List.mem_cons_of_mem x hd)) acc

/-- Aliased-pointer records never match the member-offset filter of the
alignment walk. -/
theorem aliased_member_skip (t c : Id) (acc : Nat) (d : Instruction)
    (hd : ∃ r, d = aliasedDecoration r) :
    (if d.opcode = Op.OpMemberDecorate ∧ d.getIdOperand 0 = t ∧
        d.getImmediateOperand 1 = c ∧
        (d.getImmediateOperand 2 = DecorationOffset ∨
         d.getImmediateOperand 2 = DecorationMatrixStride)
     then acc ||| d.getImmediateOperand 3 else acc) = acc := by
  rcases hd with ⟨r, rfl⟩
  rw [if_neg]
  simp [aliasedDecoration]

/-- Aliased-pointer records never match the array-stride filter of the
alignment walk. -/
theorem aliased_array_skip (t : Id) (acc : Nat) (d : Instruction)
    (hd : ∃ r, d = aliasedDecoration r) :
    (if d.opcode = Op.OpDecorate ∧ d.getIdOperand 0 = t ∧
        d.getImmediateOperand 1 = DecorationArrayStride
     then acc ||| d.getImmediateOperand 2 else acc) = acc := by
  rcases hd with ⟨r, rfl⟩
  rw [if_neg]
  simp [aliasedDecoration, Instruction.getImmediateOperand, DecorationArrayStride,
    DecorationAliasedPointerEXT]

/-- The alignment walk ignores evolved alignment slots and appended aliasing
records. -/
theorem alignLoop_evolved {d d' : Insts} (h : DefsEvolved d d')
    (decs extra : List Instruction) (hal : AliasedOnly extra) (chain : Instruction) :
    ∀ (l : List Nat) (t : Id) (a : Nat),
      alignLoop d' (decs ++ extra) chain l t a = alignLoop d decs chain l t a := by
  intro l
  induction l with
  | nil => intro t a; rfl
  | cons i rest ih =>
    intro t a
    unfold alignLoop
    dsimp only
    have he := findInst_evolved h t
    have hidx := findInst_evolved h (chain.getIdOperand i)
    rw [he.opcode]
    split
    · rename_i heq
      rw [he.eq_of_not_ls (by rw [heq]; decide) (by rw [heq]; decide)]
      rw [hidx.getImmediateOperand_lt_two 0 (by omega)]
      rw [List.foldl_append,
        foldl_id_of_skip _ extra
          (fun acc rec hrec => aliased_member_skip _ _ acc rec (hal rec hrec))]
      exact ih _ _
    · rename_i heq
      rw [he.eq_of_not_ls (by rw [heq]; decide) (by rw [heq]; decide)]
      rw [List.foldl_append,
        foldl_id_of_skip _ extra
          (fun acc rec hrec => aliased_array_skip _ acc rec (hal rec hrec))]
      exact ih _ _
    · rename_i heq
      rw [he.eq_of_not_ls (by rw [heq]; decide) (by rw [heq]; decide)]
      rw [List.foldl_append,
        foldl_id_of_skip _ extra
          (fun acc rec hrec => aliased_array_skip _ acc rec (hal rec hrec))]
      exact ih _ _
    · rfl

theorem chainAlignment_evolved {d d' : Insts} (h : DefsEvolved d d')
    (decs extra : List Instruction) (hal : AliasedOnly extra) (chain : Instruction) :
    chainAlignment d' (decs ++ extra) chain = chainAlignment d decs chain := by
  unfold chainAlignment
  dsimp only
  rw [(findInst_evolved h (chain.getIdOperand 0)).typeId]
  rw [(findInst_evolved h (findInst d (chain.getIdOperand 0)).typeId).getIdOperand_lt_two 1
    (by omega)]
  exact alignLoop_evolved h decs extra hal chain _ _ _

theorem operands_getD_lt (i : Instruction) (hb : ∀ w ∈ i.operands, w < 2^32) (k : Nat) :
    i.operands.getD k 0 < 2^32 := by
  by_cases hk : k < i.operands.length
  · rw [List.getD_eq_getElem?_getD, List.getElem?_eq_getElem hk]
    exact hb _ (List.getElem_mem hk)
  · rw [List.getD_eq_getElem?_getD, List.getElem?_eq_none (by omega)]
    norm_num

theorem foldl_if_or_bound (P : Instruction → Prop) [DecidablePred P] (k : Nat) :
    ∀ (l : List Instruction), (∀ d ∈ l, ∀ w ∈ d.operands, w < 2^32) →
      ∀ acc, acc < 2^32 →
        l.foldl (fun acc d => if P d then acc ||| d.getImmediateOperand k else acc) acc
          < 2^32 := by
  intro l
  induction l with
  | nil => intro _ acc h; simpa using h
  | cons x l ih =>
    intro hb acc hacc
    simp only [List.foldl_cons]
    refine ih (fun d hd => hb d (List.mem_cons_of_mem x hd)) _ ?_
    split
    · exact Nat.or_lt_two_pow hacc
        (operands_getD_lt x (hb x (List.mem_cons_self x l)) k)
    · exact hacc

theorem alignLoop_bound (d : Insts) (decs : List Instruction) (chain : Instruction)
    (hdecs : ∀ rec ∈ decs, ∀ w ∈ rec.operands, w < 2^32) :
    ∀ (l : List Nat) (t : Id) (a : Nat), a < 2^32 → alignLoop d decs chain l t a < 2^32 := by
  intro l
  induction l with
  | nil => intro t a h; simpa [alignLoop] using h
  | cons i rest ih =>
    intro t a ha
    unfold alignLoop
    dsimp only
    split
    · exact ih _ _ (foldl_if_or_bound _ 3 decs hdecs a ha)
    · exact ih _ _ (foldl_if_or_bound _ 2 decs hdecs a ha)
    · exact ih _ _ (foldl_if_or_bound _ 2 decs hdecs a ha)
    · exact ha

theorem chainAlignment_bound (d : Insts) (decs : List Instruction) (chain : Instruction)
    (hdecs : ∀ rec ∈ decs, ∀ w ∈ rec.operands, w < 2^32) :
    chainAlignment d decs chain < 2^32 :=
  alignLoop_bound d decs chain hdecs _ _ 0 (by norm_num)


theorem rewriteInst_eq_not_chain (d : Insts) (decs : List Instruction) (inst : Instruction)
    (hch : (findInst d (inst.getIdOperand 0)).opcode ≠ Op.OpAccessChain) :
    rewriteInst d decs inst = inst := by
  unfold rewriteInst
  dsimp only
  rw [if_neg hch]

theorem rewriteInst_eq_not_psb (d : Insts) (decs : List Instruction) (inst : Instruction)
    (hch : (findInst d (inst.getIdOperand 0)).opcode = Op.OpAccessChain)
    (hpsb : (findInst d (findInst d ((findInst d (inst.getIdOperand 0)).getIdOperand 0)).typeId).getImmediateOperand 0
      ≠ StorageClassPhysicalStorageBufferEXT) :
    rewriteInst d decs inst = inst := by
  unfold rewriteInst
  dsimp only
  rw [if_pos hch, if_pos hpsb]

theorem rewriteInst_eq_psb (d : Insts) (decs : List Instruction) (inst : Instruction)
    (hch : (findInst d (inst.getIdOperand 0)).opcode = Op.OpAccessChain)
    (hpsb : (findInst d (findInst d ((findInst d (inst.getIdOperand 0)).getIdOperand 0)).typeId).getImmediateOperand 0
      = StorageClassPhysicalStorageBufferEXT) :
    rewriteInst d decs inst = inst.setImmediateOperand (alignmentIdx inst)
      (lowestSetBit32 (chainAlignment d decs (findInst d (inst.getIdOperand 0)) |||
        inst.getImmediateOperand (alignmentIdx inst))) := by
  unfold rewriteInst chainAlignment
  dsimp only
  rw [if_pos hch, if_neg (not_not_intro hpsb)]

theorem setImm_getIdOperand_zero (i : Instruction) (v : Nat) :
    (i.setImmediateOperand (alignmentIdx i) v).getIdOperand 0 = i.getIdOperand 0 :=
  getD_set_ne _ _ _ _ _ (by have := alignmentIdx_ge_two i; omega)

/-- The alignment rewrite is a fixed point of a second rewrite over evolved
definitions and extended decorations. -/
theorem rewriteInst_fixpoint {d d' : Insts} (decs extra : List Instruction)
    (inst : Instruction) (hd : DefsEvolved d d') (hal : AliasedOnly extra)
    (hdecs : ∀ rec ∈ decs, ∀ w ∈ rec.operands, w < 2^32)
    (hinst : ∀ w ∈ inst.operands, w < 2^32) :
    rewriteInst d' (decs ++ extra) (rewriteInst d decs inst) = rewriteInst d decs inst := by
  by_cases hch : (findInst d (inst.getIdOperand 0)).opcode = Op.OpAccessChain
  · have hchain' : findInst d' (inst.getIdOperand 0) = findInst d (inst.getIdOperand 0) :=
      (findInst_evolved hd _).eq_of_not_ls (by rw [hch]; decide) (by rw [hch]; decide)
    have hbase' : (findInst d' ((findInst d (inst.getIdOperand 0)).getIdOperand 0)).typeId =
        (findInst d ((findInst d (inst.getIdOperand 0)).getIdOperand 0)).typeId :=
      (findInst_evolved hd _).typeId
    have htype0 : ∀ t : Id, (findInst d' t).getImmediateOperand 0 =
        (findInst d t).getImmediateOperand 0 :=
      fun t => (findInst_evolved hd t).getImmediateOperand_lt_two 0 (by omega)
    by_cases hpsb : (findInst d (findInst d ((findInst d
        (inst.getIdOperand 0)).getIdOperand 0)).typeId).getImmediateOperand 0
        = StorageClassPhysicalStorageBufferEXT
    · rw [rewriteInst_eq_psb d decs inst hch hpsb]
      rw [rewriteInst_eq_psb d' (decs ++ extra) _
        (by rw [setImm_getIdOperand_zero, hchain', hch])
        (by rw [setImm_getIdOperand_zero, hchain', hbase', htype0]; exact hpsb)]
      rw [setImm_getIdOperand_zero, hchain',
        chainAlignment_evolved hd decs extra hal _,
        alignmentIdx_congr (setImm_opcode inst _ _)]
      have hw : chainAlignment d decs (findInst d (inst.getIdOperand 0)) < 2^32 :=
        chainAlignment_bound d decs _ hdecs
      have ha0 : inst.getImmediateOperand (alignmentIdx inst) < 2^32 :=
        operands_getD_lt inst hinst _
      by_cases hlen : alignmentIdx inst < inst.operands.length
      · rw [show (inst.setImmediateOperand (alignmentIdx inst)
            (lowestSetBit32 (chainAlignment d decs (findInst d (inst.getIdOperand 0)) |||
              inst.getImmediateOperand (alignmentIdx inst)))).getImmediateOperand
            (alignmentIdx inst) =
              lowestSetBit32 (chainAlignment d decs (findInst d (inst.getIdOperand 0)) |||
                inst.getImmediateOperand (alignmentIdx inst)) from
            getD_set_self' _ _ _ _ hlen]
        rw [lowestSetBit32_fix _ _ hw ha0, setImm_setImm]
      · have hid : inst.setImmediateOperand (alignmentIdx inst)
            (lowestSetBit32 (chainAlignment d decs (findInst d (inst.getIdOperand 0)) |||
              inst.getImmediateOperand (alignmentIdx inst))) = inst := by
          unfold Instruction.setImmediateOperand
          rw [set_of_length_le _ _ _ (by omega)]
        rw [hid]
        exact hid
    · rw [rewriteInst_eq_not_psb d decs inst hch hpsb]
      rw [rewriteInst_eq_not_psb d' (decs ++ extra) inst
        (by rw [hchain', hch])
        (by rw [hchain', hbase', htype0]; exact hpsb)]
  · rw [rewriteInst_eq_not_chain d decs inst hch]
    rw [rewriteInst_eq_not_chain d' (decs ++ extra) inst
      (by rw [(findInst_evolved hd (inst.getIdOperand 0)).opcode]; exact hch)]

theorem rewriteInst_evolved_of_ls (d : Insts) (decs : List Instruction) (inst : Instruction)
    (hls : inst.opcode = Op.OpLoad ∨ inst.opcode = Op.OpStore) :
    InstEvolved inst (rewriteInst d decs inst) := by
  unfold rewriteInst
  dsimp only
  split
  · split
    · exact InstEvolved.same inst
    · exact Or.inr ⟨hls, _, rfl⟩
  · exact InstEvolved.same inst

theorem rewriteOf_evolved (b : Builder) (inst : Instruction) :
    InstEvolved inst (b.rewriteOf inst) := by
  unfold Builder.rewriteOf
  split
  · exact rewriteInst_evolved_of_ls _ _ _ (by assumption)
  · exact InstEvolved.same inst


theorem applyReqs_reqCat (b : Builder) (r1 r2 : List Nat × List String) :
    b.applyReqs (reqCat r1 r2) = (b.applyReqs r1).applyReqs r2 :=
  (applyReqs_comp b r1 r2).symm

theorem switchReqs_evolved {i i' : Instruction} (h : InstEvolved i i') :
    switchReqs i' = switchReqs i := by
  unfold switchReqs
  rw [h.opcode, h.getImmediateOperand_lt_two 1 (by omega)]

theorem typeReqs_evolved {d d' : Insts} (h : DefsEvolved d d') (fl ver : Nat)
    (inst : Instruction) (t : Id) :
    typeReqs d' fl ver inst t = typeReqs d fl ver inst t := by
  unfold typeReqs
  simp only [getMostBasicTypeClass_evolved h, getScalarTypeWidth_evolved h,
    containsType_evolved h, getStorageClass_evolved h]

theorem opsReqs_evolved {d d' : Insts} (h : DefsEvolved d d') (fl ver : Nat)
    (inst1 : Instruction) :
    opsReqs d' fl ver inst1 = opsReqs d fl ver inst1 := by
  unfold opsReqs
  simp only [getTypeIdOf_evolved h, typeReqs_evolved h]

theorem instReqs_evolved {d d' : Insts} (h : DefsEvolved d d') (fl ver : Nat)
    (inst1 : Instruction) :
    instReqs d' fl ver inst1 = instReqs d fl ver inst1 := by
  unfold instReqs
  simp only [typeReqs_evolved h, opsReqs_evolved h]

theorem reqCat_nil_left (r : List Nat × List String) : reqCat ([], []) r = r := by
  cases r; simp [reqCat]

theorem reqCat_assoc (r1 r2 r3 : List Nat × List String) :
    reqCat (reqCat r1 r2) r3 = reqCat r1 (reqCat r2 r3) := by
  cases r1; cases r2; cases r3; simp [reqCat]

theorem foldl_reqCat_acc (g : Nat → List Nat × List String) (C : Nat → Prop)
    [DecidablePred C] :
    ∀ (l : List Nat) (acc : List Nat × List String),
      l.foldl (fun a op => if C op then reqCat a (g op) else a) acc =
      reqCat acc (l.foldl (fun a op => if C op then reqCat a (g op) else a) ([], [])) := by
  intro l
  induction l with
  | nil => intro acc; cases acc; simp [reqCat]
  | cons x l ih =>
    intro acc
    simp only [List.foldl_cons]
    by_cases hx : C x
    · rw [if_pos hx, if_pos hx, ih (reqCat acc (g x)), ih (reqCat ([], []) (g x)),
        reqCat_nil_left, reqCat_assoc]
    · rw [if_neg hx, if_neg hx]
      exact ih acc

theorem opLoop_eq (inst1 : Instruction) (defs : Insts) (fl ver : Nat) :
    ∀ (l : List Nat) (s : Builder) (acc : List Nat × List String),
      s.allInstructions = defs → s.fuel = fl → s.spvVersion = ver →
      l.foldl (fun s op =>
        if inst1.isIdOperand op ∧ getTypeIdOf s.allInstructions (inst1.getIdOperand op) ≠ 0
        then s.postProcessType inst1 (getTypeIdOf s.allInstructions (inst1.getIdOperand op))
        else s) (s.applyReqs acc) =
      s.applyReqs (l.foldl (fun acc op =>
        if inst1.isIdOperand op ∧ getTypeIdOf defs (inst1.getIdOperand op) ≠ 0
        then reqCat acc (typeReqs defs fl ver inst1 (getTypeIdOf defs (inst1.getIdOperand op)))
        else acc) acc) := by
  intro l
  induction l with
  | nil => intro s acc _ _ _; rfl
  | cons op l ih =>
    intro s acc hdefs hfl hver
    simp only [List.foldl_cons]
    rw [show (s.applyReqs acc).allInstructions = defs from by
      rw [applyReqs_allInstructions]; exact hdefs]
    by_cases hg : inst1.isIdOperand op = true ∧ getTypeIdOf defs (inst1.getIdOperand op) ≠ 0
    · rw [if_pos hg, if_pos hg]
      rw [postProcessType_eq_applyReqs]
      rw [applyReqs_allInstructions, applyReqs_fuel, applyReqs_spvVersion, hdefs, hfl, hver]
      rw [← applyReqs_reqCat]
      exact ih s _ hdefs hfl hver
    · rw [if_neg hg, if_neg hg]
      exact ih s acc hdefs hfl hver

/-- The per-instruction entry is exactly: apply all extracted requests, and
store the rewritten instruction. -/
theorem postProcessInst_eq_applyReqs (b : Builder) (inst : Instruction) :
    b.postProcessInst inst =
      (b.applyReqs (instReqs b.allInstructions b.fuel b.spvVersion (b.rewriteOf inst)),
       b.rewriteOf inst) := by
  unfold Builder.postProcessInst
  dsimp only
  have hinst1 : (if inst.opcode = Op.OpLoad ∨ inst.opcode = Op.OpStore
      then rewriteInst b.allInstructions b.decorations inst else inst) = b.rewriteOf inst := rfl
  rw [hinst1]
  have hsw : switchReqs inst = switchReqs (b.rewriteOf inst) :=
    (switchReqs_evolved (rewriteOf_evolved b inst)).symm
  rw [hsw]
  have hb1 : ∀ r : List Nat × List String,
      (if (b.rewriteOf inst).typeId ≠ 0
       then (b.applyReqs r).postProcessType (b.rewriteOf inst) (b.rewriteOf inst).typeId
       else b.applyReqs r) =
      (b.applyReqs r).applyReqs
        (if (b.rewriteOf inst).typeId ≠ 0
         then typeReqs b.allInstructions b.fuel b.spvVersion (b.rewriteOf inst)
           (b.rewriteOf inst).typeId
         else ([], [])) := by
    intro r
    split
    · rw [postProcessType_eq_applyReqs, applyReqs_allInstructions, applyReqs_fuel,
        applyReqs_spvVersion]
    · rw [applyReqs_nil]
  rw [hb1]
  rw [← applyReqs_reqCat]
  rw [opLoop_eq (b.rewriteOf inst) b.allInstructions b.fuel b.spvVersion _ b _ rfl rfl rfl]
  rw [foldl_reqCat_acc]
  rfl


theorem forall2_refl_of {α : Type} {R : α → α → Prop} (h : ∀ x, R x x) (l : List α) :
    List.Forall₂ R l l :=
  List.forall₂_same.mpr (fun x _ => h x)

theorem forall2_trans_of {α : Type} {R : α → α → Prop}
    (htr : ∀ {x y z}, R x y → R y z → R x z) :
    ∀ {l1 l2 l3 : List α}, List.Forall₂ R l1 l2 → List.Forall₂ R l2 l3 →
      List.Forall₂ R l1 l3 := by
  intro l1 l2 l3 h1
  induction h1 generalizing l3 with
  | nil => intro h2; cases h2; exact List.Forall₂.nil
  | cons hx hrest ih =>
    intro h2
    cases h2 with
    | cons hy hrest2 => exact List.Forall₂.cons (htr hx hy) (ih hrest2)

theorem forall2_getD {α : Type} {R : α → α → Prop} {l l' : List α}
    (h : List.Forall₂ R l l') {d d' : α} (hd : R d d') :
    ∀ i, R (l.getD i d) (l'.getD i d') := by
  induction h with
  | nil => intro i; exact hd
  | cons hx hrest ih =>
    intro i
    cases i with
    | zero => exact hx
    | succ j => exact ih j

theorem forall2_set_self {α : Type} {R : α → α → Prop} (hrefl : ∀ x, R x x) :
    ∀ {l : List α} {i : Nat} {x : α} (d : α), R (l.getD i d) x →
      List.Forall₂ R l (l.set i x) := by
  intro l
  induction l with
  | nil => intro i x d _; exact List.Forall₂.nil
  | cons a l ih =>
    intro i x d h
    cases i with
    | zero => exact List.Forall₂.cons h (forall2_refl_of hrefl l)
    | succ j => exact List.Forall₂.cons (hrefl a) (ih d h)

theorem forall2_append_rel {α : Type} {R : α → α → Prop} {l1 l2 l1' l2' : List α}
    (h1 : List.Forall₂ R l1 l1') (h2 : List.Forall₂ R l2 l2') :
    List.Forall₂ R (l1 ++ l2) (l1' ++ l2') := by
  induction h1 with
  | nil => exact h2
  | cons hx _ ih => exact List.Forall₂.cons hx ih

theorem forall2_flatMap {α β : Type} {S : α → α → Prop} {R : β → β → Prop}
    {l l' : List α} (h : List.Forall₂ S l l') (g g' : α → List β)
    (hg : ∀ x x', S x x' → List.Forall₂ R (g x) (g' x')) :
    List.Forall₂ R (l.flatMap g) (l'.flatMap g') := by
  induction h with
  | nil => exact List.Forall₂.nil
  | cons hx _ ih =>
    simp only [List.flatMap_cons]
    exact forall2_append_rel (hg _ _ hx) ih

theorem flatMap_congr_forall2 {α β : Type} {S : α → α → Prop} {l l' : List α}
    (h : List.Forall₂ S l l') (g : α → List β) (hg : ∀ x x', S x x' → g x' = g x) :
    l'.flatMap g = l.flatMap g := by
  induction h with
  | nil => rfl
  | cons hx _ ih =>
    simp only [List.flatMap_cons]
    rw [hg _ _ hx, ih]

theorem BlockEvolved.blk_same (blk : Block) : BlockEvolved blk blk :=
  ⟨rfl, rfl, forall2_refl_of InstEvolved.same _⟩

theorem BlockEvolved.blk_chain {a b c : Block} (h1 : BlockEvolved a b) (h2 : BlockEvolved b c) :
    BlockEvolved a c :=
  ⟨h2.1.trans h1.1, h2.2.1.trans h1.2.1,
   forall2_trans_of (fun hx hy => hx.chain hy) h1.2.2 h2.2.2⟩

theorem FnEvolved.fn_same (f : Function) : FnEvolved f f :=
  forall2_refl_of BlockEvolved.blk_same _

theorem FnEvolved.fn_chain {a b c : Function} (h1 : FnEvolved a b) (h2 : FnEvolved b c) :
    FnEvolved a c :=
  forall2_trans_of (fun hx hy => hx.blk_chain hy) h1 h2

theorem FnsEvolved.fns_same (fs : List Function) : FnsEvolved fs fs :=
  forall2_refl_of FnEvolved.fn_same fs

theorem FnsEvolved.fns_chain {a b c : List Function} (h1 : FnsEvolved a b) (h2 : FnsEvolved b c) :
    FnsEvolved a c :=
  forall2_trans_of (fun hx hy => hx.fn_chain hy) h1 h2

theorem BEvolved.state_same (b : Builder) : BEvolved b b :=
  ⟨rfl, FnsEvolved.fns_same _, ⟨[], by simp, AliasedOnly.nil⟩, CapsGrow.refl b, rfl⟩

theorem BEvolved.through {a b c : Builder} (h1 : BEvolved a b) (h2 : BEvolved b c) :
    BEvolved a c := by
  obtain ⟨hg1, hf1, ⟨e1, hd1, ha1⟩, hc1, hv1⟩ := h1
  obtain ⟨hg2, hf2, ⟨e2, hd2, ha2⟩, hc2, hv2⟩ := h2
  exact ⟨hg2.trans hg1, hf1.fns_chain hf2,
    ⟨e1 ++ e2, by rw [hd2, hd1, List.append_assoc], ha1.append ha2⟩,
    hc1.trans hc2, hv2.trans hv1⟩

/-- Instructions of related builders evolve pointwise. -/
theorem BEvolved.defs {b b' : Builder} (h : BEvolved b b') :
    DefsEvolved b.allInstructions b'.allInstructions := by
  obtain ⟨hg, hf, _, _, _⟩ := h
  unfold Builder.allInstructions
  rw [hg]
  refine forall2_append_rel (forall2_refl_of InstEvolved.same _) ?_
  refine forall2_flatMap hf _ _ (fun f f' hff => ?_)
  refine forall2_flatMap hff _ _ (fun blk blk' hbb => ?_)
  rw [hbb.2.1]
  exact forall2_append_rel (forall2_refl_of InstEvolved.same _) hbb.2.2

theorem BEvolved.fuel {b b' : Builder} (h : BEvolved b b') : b'.fuel = b.fuel := by
  unfold Builder.fuel
  rw [h.defs.len_eq]

theorem BEvolved.localVarIds {b b' : Builder} (h : BEvolved b b') :
    b'.localVarIds = b.localVarIds := by
  obtain ⟨_, hf, _, _, _⟩ := h
  unfold Builder.localVarIds
  refine flatMap_congr_forall2 hf _ (fun f f' hff => ?_)
  exact flatMap_congr_forall2 hff _ (fun blk blk' hbb => by rw [hbb.2.1])

theorem blockSuccessors_evolved {f f' : Function} (h : FnEvolved f f') (bi : Nat) :
    blockSuccessors f' bi = blockSuccessors f bi := by
  unfold blockSuccessors
  exact (forall2_getD h (BlockEvolved.blk_same default) bi).1

theorem reachClose_evolved {f f' : Function} (h : FnEvolved f f') :
    ∀ (fl : Nat) (acc : List Nat), reachClose f' fl acc = reachClose f fl acc := by
  intro fl
  induction fl with
  | zero => intro acc; rfl
  | succ n ih =>
    intro acc
    unfold reachClose
    simp only [blockSuccessors_evolved h]
    split
    · rfl
    · exact ih _

theorem reachableBlocks_evolved {f f' : Function} (h : FnEvolved f f') :
    f'.reachableBlocks = f.reachableBlocks := by
  unfold Function.reachableBlocks
  rw [List.Forall₂.length_eq h, reachClose_evolved h]

theorem map_resultId_forall2 {l l' : List Instruction}
    (h : List.Forall₂ InstEvolved l l') :
    l'.map Instruction.getResultId = l.map Instruction.getResultId := by
  induction h with
  | nil => rfl
  | cons hx _ ih =>
    simp only [List.map_cons]
    rw [ih]
    unfold Instruction.getResultId
    rw [hx.resultId]

theorem BEvolved.orphanedIds {b b' : Builder} (h : BEvolved b b') :
    b'.orphanedIds = b.orphanedIds := by
  rw [orphanedIds_eq, orphanedIds_eq]
  refine flatMap_congr_forall2 h.2.1 _ (fun f f' hff => ?_)
  rw [List.Forall₂.length_eq hff]
  congr 1
  funext bi
  rw [reachableBlocks_evolved hff]
  split
  · rfl
  · exact map_resultId_forall2 (forall2_getD hff (BlockEvolved.blk_same default) bi).2.2

theorem BEvolved.instAt {b b' : Builder} (h : BEvolved b b') (fi bi ii : Nat) :
    InstEvolved (b.instAt fi bi ii) (b'.instAt fi bi ii) := by
  unfold Builder.instAt Builder.blockAtPos
  have hfn := forall2_getD h.2.1 (FnEvolved.fn_same default) fi
  have hblk := forall2_getD hfn (BlockEvolved.blk_same default) bi
  exact forall2_getD hblk.2.2 (InstEvolved.same default) ii

theorem BEvolved.blocks_len {b b' : Builder} (h : BEvolved b b') (fi : Nat) :
    (b'.functions.getD fi default).blocks.length =
      (b.functions.getD fi default).blocks.length :=
  (List.Forall₂.length_eq (forall2_getD h.2.1 (FnEvolved.fn_same default) fi)).symm

theorem BEvolved.insts_len {b b' : Builder} (h : BEvolved b b') (fi bi : Nat) :
    (b'.blockAtPos fi bi).instructions.length = (b.blockAtPos fi bi).instructions.length := by
  unfold Builder.blockAtPos
  have hfn := forall2_getD h.2.1 (FnEvolved.fn_same default) fi
  have hblk := forall2_getD hfn (BlockEvolved.blk_same default) bi
  exact (List.Forall₂.length_eq hblk.2.2).symm

theorem BEvolved.localVars_at {b b' : Builder} (h : BEvolved b b') (fi bi : Nat) :
    (b'.blockAtPos fi bi).localVariables = (b.blockAtPos fi bi).localVariables := by
  unfold Builder.blockAtPos
  have hfn := forall2_getD h.2.1 (FnEvolved.fn_same default) fi
  have hblk := forall2_getD hfn (BlockEvolved.blk_same default) bi
  exact hblk.2.1

theorem BEvolved.functions_len {b b' : Builder} (h : BEvolved b b') :
    b'.functions.length = b.functions.length :=
  (List.Forall₂.length_eq h.2.1).symm


theorem BEvolved.applyReqs (b : Builder) (r : List Nat × List String) :
    BEvolved b (b.applyReqs r) :=
  ⟨applyReqs_globals b r, by rw [applyReqs_functions]; exact FnsEvolved.fns_same _,
   ⟨[], by rw [applyReqs_decorations, List.append_nil], AliasedOnly.nil⟩,
   applyReqs_grows b r, applyReqs_spvVersion b r⟩

theorem setInstAt_caps (b : Builder) (fi bi ii : Nat) (inst : Instruction) :
    (b.setInstAt fi bi ii inst).capabilities = b.capabilities := rfl

theorem setInstAt_exts (b : Builder) (fi bi ii : Nat) (inst : Instruction) :
    (b.setInstAt fi bi ii inst).extensions = b.extensions := rfl

theorem setInstAt_spvVersion (b : Builder) (fi bi ii : Nat) (inst : Instruction) :
    (b.setInstAt fi bi ii inst).spvVersion = b.spvVersion := rfl

theorem BEvolved.setInstAt (b : Builder) (fi bi ii : Nat) (inst2 : Instruction)
    (h : InstEvolved (b.instAt fi bi ii) inst2) :
    BEvolved b (b.setInstAt fi bi ii inst2) := by
  refine ⟨setInstAt_globals b fi bi ii inst2, ?_,
    ⟨[], by rw [setInstAt_decorations, List.append_nil], AliasedOnly.nil⟩,
    CapsGrow.of_eq_lists (setInstAt_caps b fi bi ii inst2) (setInstAt_exts b fi bi ii inst2),
    setInstAt_spvVersion b fi bi ii inst2⟩
  unfold Builder.setInstAt
  dsimp only
  refine forall2_set_self (fun f => FnEvolved.fn_same f) default ?_
  refine forall2_set_self (fun blk => BlockEvolved.blk_same blk) default ?_
  refine ⟨rfl, rfl, forall2_set_self (fun i => InstEvolved.same i) default ?_⟩
  exact h

theorem BEvolved.processInstAt (b : Builder) (fi bi ii : Nat) :
    BEvolved b (b.processInstAt fi bi ii) := by
  unfold Builder.processInstAt
  rw [postProcessInst_eq_applyReqs]
  dsimp only
  refine (BEvolved.applyReqs b _).through (BEvolved.setInstAt _ fi bi ii _ ?_)
  have hsame : (b.applyReqs (instReqs b.allInstructions b.fuel b.spvVersion
      (b.rewriteOf (b.instAt fi bi ii)))).instAt fi bi ii = b.instAt fi bi ii := by
    unfold Builder.instAt Builder.blockAtPos
    rw [applyReqs_functions]
  rw [hsame]
  exact rewriteOf_evolved b _

theorem fillLocalVar_caps (b : Builder) (v : Instruction) :
    (b.fillLocalVar v).capabilities = b.capabilities := by
  unfold Builder.fillLocalVar
  dsimp only
  repeat' split
  all_goals rfl

theorem fillLocalVar_exts (b : Builder) (v : Instruction) :
    (b.fillLocalVar v).extensions = b.extensions := by
  unfold Builder.fillLocalVar
  dsimp only
  repeat' split
  all_goals rfl

theorem fillLocalVar_spvVersion (b : Builder) (v : Instruction) :
    (b.fillLocalVar v).spvVersion = b.spvVersion := by
  unfold Builder.fillLocalVar
  dsimp only
  repeat' split
  all_goals rfl

theorem fillLocalVar_globals (b : Builder) (v : Instruction) :
    (b.fillLocalVar v).globals = b.globals := by
  unfold Builder.fillLocalVar
  dsimp only
  repeat' split
  all_goals rfl

theorem BEvolved.fillLocalVar (b : Builder) (v : Instruction) :
    BEvolved b (b.fillLocalVar v) := by
  refine ⟨fillLocalVar_globals b v,
    by rw [fillLocalVar_functions]; exact FnsEvolved.fns_same _, ?_,
    CapsGrow.of_eq_lists (fillLocalVar_caps b v) (fillLocalVar_exts b v),
    fillLocalVar_spvVersion b v⟩
  rcases fillLocalVar_decorations b v with h | h
  · exact ⟨[], by rw [h, List.append_nil], AliasedOnly.nil⟩
  · exact ⟨[aliasedDecoration v.getResultId], h,
      fun d hd => ⟨v.getResultId, by simpa using hd⟩⟩

theorem bevolved_foldl {α : Type} (step : Builder → α → Builder) (l : List α)
    (hstep : ∀ s x, BEvolved s (step s x)) :
    ∀ b : Builder, BEvolved b (l.foldl step b) := by
  induction l with
  | nil => intro b; exact BEvolved.state_same b
  | cons x l ih =>
    intro b
    simp only [List.foldl_cons]
    exact (hstep b x).through (ih (step b x))

theorem BEvolved.processInsts (b : Builder) (fi bi : Nat) :
    BEvolved b (b.processInsts fi bi) := by
  unfold Builder.processInsts
  exact bevolved_foldl _ _ (fun s ii => BEvolved.processInstAt s fi bi ii) b

theorem BEvolved.fillVars (b : Builder) (fi bi : Nat) :
    BEvolved b (b.fillVars fi bi) := by
  unfold Builder.fillVars
  exact bevolved_foldl _ _ (fun s v => BEvolved.fillLocalVar s v) b

theorem BEvolved.processBlockAt (b : Builder) (fi bi : Nat) :
    BEvolved b (b.processBlockAt fi bi) :=
  (BEvolved.processInsts b fi bi).through (BEvolved.fillVars _ fi bi)

theorem BEvolved.processFunctionAt (b : Builder) (fi : Nat) :
    BEvolved b (b.processFunctionAt fi) := by
  unfold Builder.processFunctionAt
  exact bevolved_foldl _ _ (fun s bi => BEvolved.processBlockAt s fi bi) b

theorem BEvolved.processAllFunctions (b : Builder) :
    BEvolved b b.processAllFunctions := by
  unfold Builder.processAllFunctions
  exact bevolved_foldl _ _ (fun s fi => BEvolved.processFunctionAt s fi) b

theorem sweepStep_globals (s : Builder) (t : Instruction) :
    (s.sweepStep t).globals = s.globals := by
  unfold Builder.sweepStep
  dsimp only
  repeat' split
  all_goals first
    | rfl
    | simp [addCapability_globals, addExtension_globals]

theorem sweepStep_functions (s : Builder) (t : Instruction) :
    (s.sweepStep t).functions = s.functions := by
  unfold Builder.sweepStep
  dsimp only
  repeat' split
  all_goals first
    | rfl
    | simp [addCapability_functions, addExtension_functions]

theorem sweepStep_spvVersion (s : Builder) (t : Instruction) :
    (s.sweepStep t).spvVersion = s.spvVersion := by
  unfold Builder.sweepStep
  dsimp only
  repeat' split
  all_goals first
    | rfl
    | simp [addCapability_spvVersion, addExtension_spvVersion]

theorem BEvolved.sweepStep (s : Builder) (t : Instruction) :
    BEvolved s (s.sweepStep t) :=
  ⟨sweepStep_globals s t, by rw [sweepStep_functions]; exact FnsEvolved.fns_same _,
   ⟨[], by rw [sweepStep_decorations, List.append_nil], AliasedOnly.nil⟩,
   sweepStep_grows s t, sweepStep_spvVersion s t⟩

theorem BEvolved.sweep (b : Builder) : BEvolved b b.sweep := by
  unfold Builder.sweep
  exact bevolved_foldl _ _ (fun s t => BEvolved.sweepStep s t) b


theorem foldl_proj_eq_mem {α β : Type} (proj : Builder → β) (step : Builder → α → Builder)
    (l : List α) (h : ∀ s x, x ∈ l → proj (step s x) = proj s) :
    ∀ b : Builder, proj (l.foldl step b) = proj b := by
  induction l with
  | nil => intro b; rfl
  | cons x l ih =>
    intro b
    simp only [List.foldl_cons]
    rw [ih (fun s y hy => h s y (List.mem_cons_of_mem x hy)) (step b x),
      h b x (List.mem_cons_self x l)]

theorem range_split (n k : Nat) (hk : k < n) :
    List.range n = List.range k ++ k :: List.range' (k + 1) (n - k - 1) := by
  rw [List.range_eq_range', List.range_eq_range']
  have h1 := List.range'_append 0 k (n - k) 1
  simp only [Nat.zero_add, Nat.one_mul, Nat.mul_one] at h1
  rw [show (n - k) + k = n by omega] at h1
  rw [← h1]
  congr 1
  rw [show n - k = (n - k - 1) + 1 by omega, List.range'_succ]
  norm_num

theorem foldl_range_split {α : Type} (f : α → Nat → α) (n k : Nat) (hk : k < n) (a : α) :
    (List.range n).foldl f a =
      (List.range' (k + 1) (n - k - 1)).foldl f (f ((List.range k).foldl f a) k) := by
  rw [range_split n k hk, List.foldl_append]
  rfl

theorem instAt_congr_functions {s s' : Builder} (h : s'.functions = s.functions)
    (fi bi ii : Nat) : s'.instAt fi bi ii = s.instAt fi bi ii := by
  unfold Builder.instAt Builder.blockAtPos
  rw [h]

/-- Writing one position leaves every other position unchanged. -/
theorem setInstAt_instAt_other (b : Builder) (fj bj jj fi bi ii : Nat) (inst : Instruction)
    (h : fj ≠ fi ∨ bj ≠ bi ∨ jj ≠ ii) :
    (b.setInstAt fj bj jj inst).instAt fi bi ii = b.instAt fi bi ii := by
  unfold Builder.setInstAt Builder.instAt Builder.blockAtPos
  dsimp only
  rcases h with hf | hb | hi
  · rw [getD_set_ne _ _ _ _ _ hf]
  · by_cases hfj : fj < b.functions.length
    · by_cases hff : fj = fi
      · subst hff
        rw [getD_set_self' _ _ _ _ hfj]
        dsimp only
        rw [getD_set_ne _ _ _ _ _ hb]
      · rw [getD_set_ne _ _ _ _ _ hff]
    · rw [set_of_length_le _ _ _ (by omega)]
  · by_cases hfj : fj < b.functions.length
    · by_cases hff : fj = fi
      · subst hff
        rw [getD_set_self' _ _ _ _ hfj]
        dsimp only
        by_cases hbj : bj < (b.functions.getD fj default).blocks.length
        · by_cases hbb : bj = bi
          · subst hbb
            rw [getD_set_self' _ _ _ _ hbj]
            dsimp only
            rw [getD_set_ne _ _ _ _ _ hi]
          · rw [getD_set_ne _ _ _ _ _ hbb]
        · rw [set_of_length_le _ _ _ (by omega)]
      · rw [getD_set_ne _ _ _ _ _ hff]
    · rw [set_of_length_le _ _ _ (by omega)]

theorem setInstAt_instAt_self (b : Builder) (fi bi ii : Nat) (inst : Instruction)
    (hfi : fi < b.functions.length)
    (hbi : bi < (b.functions.getD fi default).blocks.length)
    (hii : ii < ((b.functions.getD fi default).blocks.getD bi default).instructions.length) :
    (b.setInstAt fi bi ii inst).instAt fi bi ii = inst := by
  unfold Builder.setInstAt Builder.instAt Builder.blockAtPos
  dsimp only
  rw [getD_set_self' _ _ _ _ hfi]
  dsimp only
  rw [getD_set_self' _ _ _ _ hbi]
  dsimp only
  rw [getD_set_self' _ _ _ _ hii]

theorem processInstAt_instAt_other (s : Builder) (fj bj jj fi bi ii : Nat)
    (h : fj ≠ fi ∨ bj ≠ bi ∨ jj ≠ ii) :
    (s.processInstAt fj bj jj).instAt fi bi ii = s.instAt fi bi ii := by
  unfold Builder.processInstAt
  rw [setInstAt_instAt_other _ _ _ _ _ _ _ _ h]
  exact instAt_congr_functions (postProcessInst_functions s _) fi bi ii

theorem processInstAt_instAt_self (s : Builder) (fi bi ii : Nat)
    (hfi : fi < s.functions.length)
    (hbi : bi < (s.functions.getD fi default).blocks.length)
    (hii : ii < ((s.functions.getD fi default).blocks.getD bi default).instructions.length) :
    (s.processInstAt fi bi ii).instAt fi bi ii = s.rewriteOf (s.instAt fi bi ii) := by
  unfold Builder.processInstAt
  rw [postProcessInst_eq_applyReqs]
  dsimp only
  rw [setInstAt_instAt_self _ fi bi ii _
    (by rw [applyReqs_functions]; exact hfi)
    (by rw [applyReqs_functions]; exact hbi)
    (by rw [applyReqs_functions]; exact hii)]

theorem fillVars_functions (s : Builder) (fi bi : Nat) :
    (s.fillVars fi bi).functions = s.functions := by
  unfold Builder.fillVars
  exact foldl_proj_eq Builder.functions _ _ (fun s v => fillLocalVar_functions s v) s

theorem processBlockAt_instAt_other (s : Builder) (fj bj fi bi ii : Nat)
    (h : fj ≠ fi ∨ bj ≠ bi) :
    (s.processBlockAt fj bj).instAt fi bi ii = s.instAt fi bi ii := by
  unfold Builder.processBlockAt
  rw [instAt_congr_functions (fillVars_functions _ fj bj) fi bi ii]
  unfold Builder.processInsts
  refine foldl_proj_eq_mem (fun s => s.instAt fi bi ii) _ _ (fun s jj _ => ?_) s
  exact processInstAt_instAt_other s fj bj jj fi bi ii (by tauto)

theorem processFunctionAt_instAt_other (s : Builder) (fj fi bi ii : Nat) (h : fj ≠ fi) :
    (s.processFunctionAt fj).instAt fi bi ii = s.instAt fi bi ii := by
  unfold Builder.processFunctionAt
  refine foldl_proj_eq_mem (fun s => s.instAt fi bi ii) _ _ (fun s bj _ => ?_) s
  exact processBlockAt_instAt_other s fj bj fi bi ii (Or.inl h)

theorem processInstAt_caps (s : Builder) (fi bi ii : Nat) :
    (s.processInstAt fi bi ii).capabilities =
      (s.applyReqs (instReqs s.allInstructions s.fuel s.spvVersion
        (s.rewriteOf (s.instAt fi bi ii)))).capabilities := by
  unfold Builder.processInstAt
  rw [postProcessInst_eq_applyReqs]
  dsimp only
  rw [setInstAt_caps]

theorem processInstAt_exts (s : Builder) (fi bi ii : Nat) :
    (s.processInstAt fi bi ii).extensions =
      (s.applyReqs (instReqs s.allInstructions s.fuel s.spvVersion
        (s.rewriteOf (s.instAt fi bi ii)))).extensions := by
  unfold Builder.processInstAt
  rw [postProcessInst_eq_applyReqs]
  dsimp only
  rw [setInstAt_exts]


/-- Facts the first run establishes at every stored-instruction position:
there is a state s0 (just before the instruction was processed) from which
the stored result and the issued requests of the final state derive. -/
theorem pkg_all (pb : Builder) (fi bi ii : Nat)
    (hfi : fi < pb.functions.length)
    (hbi : bi < (pb.functions.getD fi default).blocks.length)
    (hii : ii < ((pb.functions.getD fi default).blocks.getD bi default).instructions.length) :
    ∃ s0 t : Builder, BEvolved pb s0 ∧
      s0.instAt fi bi ii = pb.instAt fi bi ii ∧
      BEvolved s0 pb.processAllFunctions ∧
      BEvolved t pb.processAllFunctions ∧
      pb.processAllFunctions.instAt fi bi ii = s0.rewriteOf (pb.instAt fi bi ii) ∧
      (∀ c ∈ (instReqs s0.allInstructions s0.fuel s0.spvVersion
          (s0.rewriteOf (pb.instAt fi bi ii))).1, c ∈ t.capabilities) ∧
      (∀ e ∈ (instReqs s0.allInstructions s0.fuel s0.spvVersion
          (s0.rewriteOf (pb.instAt fi bi ii))).2, e ∈ t.extensions) := by
  have hsplitF : pb.processAllFunctions =
      (List.range' (fi + 1) (pb.functions.length - fi - 1)).foldl Builder.processFunctionAt
        (((List.range fi).foldl Builder.processFunctionAt pb).processFunctionAt fi) := by
    unfold Builder.processAllFunctions
    rw [foldl_range_split _ _ fi hfi]
  have hA : BEvolved pb ((List.range fi).foldl Builder.processFunctionAt pb) :=
    bevolved_foldl _ _ (fun s x => BEvolved.processFunctionAt s x) pb
  have hAinst : ((List.range fi).foldl Builder.processFunctionAt pb).instAt fi bi ii =
      pb.instAt fi bi ii :=
    foldl_proj_eq_mem (fun s => s.instAt fi bi ii) _ _
      (fun s fj hj => processFunctionAt_instAt_other s fj fi bi ii
        (by have := List.mem_range.mp hj; omega)) pb
  -- the state before function fi
  generalize hsA : (List.range fi).foldl Builder.processFunctionAt pb = sA at *
  -- split the blocks of function fi at bi
  have hsplitB : sA.processFunctionAt fi =
      (List.range' (bi + 1) ((pb.functions.getD fi default).blocks.length - bi - 1)).foldl
        (fun s bj => s.processBlockAt fi bj)
        (((List.range bi).foldl (fun s bj => s.processBlockAt fi bj) sA).processBlockAt fi bi)
      := by
    unfold Builder.processFunctionAt
    rw [hA.blocks_len fi, foldl_range_split _ _ bi hbi]
  have hA2 : BEvolved sA ((List.range bi).foldl (fun s bj => s.processBlockAt fi bj) sA) :=
    bevolved_foldl _ _ (fun s bj => BEvolved.processBlockAt s fi bj) sA
  have hA2inst :
      ((List.range bi).foldl (fun s bj => s.processBlockAt fi bj) sA).instAt fi bi ii =
        sA.instAt fi bi ii :=
    foldl_proj_eq_mem (fun s => s.instAt fi bi ii) _ _
      (fun s bj hj => processBlockAt_instAt_other s fi bj fi bi ii
        (Or.inr (by have := List.mem_range.mp hj; omega))) sA
  generalize hsB : (List.range bi).foldl (fun s bj => s.processBlockAt fi bj) sA = sB at *
  have hpbB : BEvolved pb sB := hA.through hA2
  -- split the instructions of block (fi, bi) at ii
  have hsplitI : sB.processInsts fi bi =
      (List.range' (ii + 1)
          (((pb.functions.getD fi default).blocks.getD bi default).instructions.length - ii - 1)).foldl
        (fun s jj => s.processInstAt fi bi jj)
        (((List.range ii).foldl (fun s jj => s.processInstAt fi bi jj) sB).processInstAt fi bi ii)
      := by
    unfold Builder.processInsts
    rw [show (sB.blockAtPos fi bi).instructions.length =
        ((pb.functions.getD fi default).blocks.getD bi default).instructions.length from
      hpbB.insts_len fi bi]
    rw [foldl_range_split _ _ ii hii]
  have hI : BEvolved sB ((List.range ii).foldl (fun s jj => s.processInstAt fi bi jj) sB) :=
    bevolved_foldl _ _ (fun s jj => BEvolved.processInstAt s fi bi jj) sB
  have hIinst :
      ((List.range ii).foldl (fun s jj => s.processInstAt fi bi jj) sB).instAt fi bi ii =
        sB.instAt fi bi ii :=
    foldl_proj_eq_mem (fun s => s.instAt fi bi ii) _ _
      (fun s jj hj => processInstAt_instAt_other s fi bi jj fi bi ii
        (Or.inr (Or.inr (by have := List.mem_range.mp hj; omega)))) sB
  generalize hsI : (List.range ii).foldl (fun s jj => s.processInstAt fi bi jj) sB = sI at *
  have hpbI : BEvolved pb sI := hpbB.through hI
  have hfiI : fi < sI.functions.length := by rw [hpbI.functions_len]; exact hfi
  have hbiI : bi < (sI.functions.getD fi default).blocks.length := by
    rw [hpbI.blocks_len fi]; exact hbi
  have hiiI : ii < ((sI.functions.getD fi default).blocks.getD bi default).instructions.length := by
    rw [show ((sI.functions.getD fi default).blocks.getD bi default).instructions.length =
        ((pb.functions.getD fi default).blocks.getD bi default).instructions.length from
      hpbI.insts_len fi bi]
    exact hii
  have hIpb : sI.instAt fi bi ii = pb.instAt fi bi ii := by
    rw [hIinst, hA2inst, hAinst]
  -- the step at position (fi, bi, ii)
  have hstep : BEvolved sI (sI.processInstAt fi bi ii) := BEvolved.processInstAt sI fi bi ii
  have hstep_inst : (sI.processInstAt fi bi ii).instAt fi bi ii =
      sI.rewriteOf (pb.instAt fi bi ii) := by
    rw [processInstAt_instAt_self sI fi bi ii hfiI hbiI hiiI, hIpb]
  have hreq_c : ∀ c ∈ (instReqs sI.allInstructions sI.fuel sI.spvVersion
      (sI.rewriteOf (pb.instAt fi bi ii))).1,
      c ∈ (sI.processInstAt fi bi ii).capabilities := by
    intro c hc
    rw [processInstAt_caps, hIpb]
    exact mem_applyReqs_cap _ _ _ hc
  have hreq_e : ∀ e ∈ (instReqs sI.allInstructions sI.fuel sI.spvVersion
      (sI.rewriteOf (pb.instAt fi bi ii))).2,
      e ∈ (sI.processInstAt fi bi ii).extensions := by
    intro e he
    rw [processInstAt_exts, hIpb]
    exact mem_applyReqs_ext _ _ _ he
  generalize hst : sI.processInstAt fi bi ii = t at *
  -- instruction suffix of the block
  have hsuffI : BEvolved t ((List.range' (ii + 1)
      (((pb.functions.getD fi default).blocks.getD bi default).instructions.length - ii - 1)).foldl
        (fun s jj => s.processInstAt fi bi jj) t) :=
    bevolved_foldl _ _ (fun s jj => BEvolved.processInstAt s fi bi jj) t
  have hsuffIinst : ((List.range' (ii + 1)
      (((pb.functions.getD fi default).blocks.getD bi default).instructions.length - ii - 1)).foldl
        (fun s jj => s.processInstAt fi bi jj) t).instAt fi bi ii = t.instAt fi bi ii :=
    foldl_proj_eq_mem (fun s => s.instAt fi bi ii) _ _
      (fun s jj hj => processInstAt_instAt_other s fi bi jj fi bi ii
        (Or.inr (Or.inr (by have := (List.mem_range'_1.mp hj).1; omega)))) t
  generalize hsu : (List.range' (ii + 1)
      (((pb.functions.getD fi default).blocks.getD bi default).instructions.length - ii - 1)).foldl
        (fun s jj => s.processInstAt fi bi jj) t = u at *
  -- fill of the block
  have hfill : BEvolved u (u.fillVars fi bi) := BEvolved.fillVars u fi bi
  have hfillinst : (u.fillVars fi bi).instAt fi bi ii = u.instAt fi bi ii :=
    instAt_congr_functions (fillVars_functions u fi bi) fi bi ii
  have hPB : sB.processBlockAt fi bi = u.fillVars fi bi := by
    unfold Builder.processBlockAt
    rw [hsplitI]
  -- block suffix of the function
  have hsuffB : BEvolved (u.fillVars fi bi) ((List.range' (bi + 1)
      ((pb.functions.getD fi default).blocks.length - bi - 1)).foldl
        (fun s bj => s.processBlockAt fi bj) (u.fillVars fi bi)) :=
    bevolved_foldl _ _ (fun s bj => BEvolved.processBlockAt s fi bj) _
  have hsuffBinst : ((List.range' (bi + 1)
      ((pb.functions.getD fi default).blocks.length - bi - 1)).foldl
        (fun s bj => s.processBlockAt fi bj) (u.fillVars fi bi)).instAt fi bi ii =
      (u.fillVars fi bi).instAt fi bi ii :=
    foldl_proj_eq_mem (fun s => s.instAt fi bi ii) _ _
      (fun s bj hj => processBlockAt_instAt_other s fi bj fi bi ii
        (Or.inr (by have := (List.mem_range'_1.mp hj).1; omega))) _
  have hPF : sA.processFunctionAt fi = (List.range' (bi + 1)
      ((pb.functions.getD fi default).blocks.length - bi - 1)).foldl
        (fun s bj => s.processBlockAt fi bj) (u.fillVars fi bi) := by
    rw [hsplitB, hPB]
  generalize hv : (List.range' (bi + 1)
      ((pb.functions.getD fi default).blocks.length - bi - 1)).foldl
        (fun s bj => s.processBlockAt fi bj) (u.fillVars fi bi) = v at *
  -- function suffix of the module
  have hsuffF : BEvolved v ((List.range' (fi + 1) (pb.functions.length - fi - 1)).foldl
      Builder.processFunctionAt v) :=
    bevolved_foldl _ _ (fun s x => BEvolved.processFunctionAt s x) v
  have hsuffFinst : ((List.range' (fi + 1) (pb.functions.length - fi - 1)).foldl
      Builder.processFunctionAt v).instAt fi bi ii = v.instAt fi bi ii :=
    foldl_proj_eq_mem (fun s => s.instAt fi bi ii) _ _
      (fun s fj hj => processFunctionAt_instAt_other s fj fi bi ii
        (by have := (List.mem_range'_1.mp hj).1; omega)) v
  have hMain : pb.processAllFunctions = (List.range' (fi + 1)
      (pb.functions.length - fi - 1)).foldl Builder.processFunctionAt v := by
    rw [hsplitF, hPF]
  refine ⟨sI, t, hpbI, hIpb, ?_, ?_, ?_, hreq_c, hreq_e⟩
  · rw [hMain]
    exact ((hstep.through hsuffI).through hfill).through (hsuffB.through hsuffF)
  · rw [hMain]
    exact ((hsuffI.through hfill).through hsuffB).through hsuffF
  · rw [hMain, hsuffFinst, hsuffBinst, hfillinst, hsuffIinst, hstep_inst]


theorem set_getD_self_all {α : Type} (l : List α) (n : Nat) (d : α) :
    l.set n (l.getD n d) = l := by
  by_cases h : n < l.length
  · exact set_getD_self l n d h
  · exact set_of_length_le l n _ (by omega)

theorem setInstAt_self (b : Builder) (fi bi ii : Nat) :
    b.setInstAt fi bi ii (b.instAt fi bi ii) = b := by
  unfold Builder.setInstAt Builder.instAt Builder.blockAtPos
  dsimp only
  rw [set_getD_self_all, set_getD_self_all, set_getD_self_all]

theorem processInstAt_id (b : Builder) (fi bi ii : Nat)
    (hfix : b.rewriteOf (b.instAt fi bi ii) = b.instAt fi bi ii)
    (hc : ∀ c ∈ (instReqs b.allInstructions b.fuel b.spvVersion (b.instAt fi bi ii)).1,
      c ∈ b.capabilities)
    (he : ∀ e ∈ (instReqs b.allInstructions b.fuel b.spvVersion (b.instAt fi bi ii)).2,
      e ∈ b.extensions) :
    b.processInstAt fi bi ii = b := by
  unfold Builder.processInstAt
  rw [postProcessInst_eq_applyReqs]
  dsimp only
  rw [hfix, applyReqs_absorb _ _ hc he]
  exact setInstAt_self b fi bi ii

theorem foldl_fix {α : Type} (f : Builder → α → Builder) (l : List α) (b : Builder)
    (h : ∀ x ∈ l, f b x = b) : l.foldl f b = b := by
  induction l with
  | nil => rfl
  | cons x l ih =>
    simp only [List.foldl_cons]
    rw [h x (List.mem_cons_self x l)]
    exact ih (fun y hy => h y (List.mem_cons_of_mem x hy))

theorem fillLocalVar_id (b : Builder) (v : Instruction)
    (h : containsPhysicalStorageBufferOrArray b.allInstructions b.fuel
        (getDerefTypeId b.allInstructions v.getResultId) = true →
      b.decorations.any (aliasMarkerFor v.getResultId) = true) :
    b.fillLocalVar v = b := by
  unfold Builder.fillLocalVar
  dsimp only
  split
  · rename_i hpsb
    rw [if_pos (h hpsb)]
  · rfl

theorem sweepStep_id (s : Builder) (t : Instruction)
    (h8 : t.getImmediateOperand 0 = StorageClassPhysicalStorageBufferEXT →
      containsType s.allInstructions s.fuel (t.getIdOperand 1) Op.OpTypeInt 8 = true →
      E_SPV_KHR_8bit_storage ∈ s.extensions ∧
      CapabilityStorageBuffer8BitAccess ∈ s.capabilities)
    (h16 : t.getImmediateOperand 0 = StorageClassPhysicalStorageBufferEXT →
      (containsType s.allInstructions s.fuel (t.getIdOperand 1) Op.OpTypeInt 16 = true ∨
       containsType s.allInstructions s.fuel (t.getIdOperand 1) Op.OpTypeFloat 16 = true) →
      E_SPV_KHR_16bit_storage ∈ s.extensions ∧
      CapabilityStorageBuffer16BitAccess ∈ s.capabilities) :
    s.sweepStep t = s := by
  unfold Builder.sweepStep
  dsimp only
  by_cases hsc : t.getImmediateOperand 0 = StorageClassPhysicalStorageBufferEXT
  · rw [if_pos hsc]
    by_cases hc8 : containsType s.allInstructions s.fuel (t.getIdOperand 1) Op.OpTypeInt 8 = true
    · rw [if_pos hc8, addExtension_absorb _ _ (h8 hsc hc8).1,
        addCapability_absorb _ _ (h8 hsc hc8).2]
      by_cases hc16 : containsType s.allInstructions s.fuel (t.getIdOperand 1)
          Op.OpTypeInt 16 = true ∨
          containsType s.allInstructions s.fuel (t.getIdOperand 1) Op.OpTypeFloat 16 = true
      · rw [if_pos hc16, addExtension_absorb _ _ (h16 hsc hc16).1,
          addCapability_absorb _ _ (h16 hsc hc16).2]
      · rw [if_neg hc16]
    · rw [if_neg hc8]
      by_cases hc16 : containsType s.allInstructions s.fuel (t.getIdOperand 1)
          Op.OpTypeInt 16 = true ∨
          containsType s.allInstructions s.fuel (t.getIdOperand 1) Op.OpTypeFloat 16 = true
      · rw [if_pos hc16, addExtension_absorb _ _ (h16 hsc hc16).1,
          addCapability_absorb _ _ (h16 hsc hc16).2]
      · rw [if_neg hc16]
  · rw [if_neg hsc]

theorem pruneDecorations_id (b : Builder)
    (h : ∀ d ∈ b.decorations, d.getIdOperand 0 ∉ b.orphanedIds) :
    b.pruneDecorations = b := by
  unfold Builder.pruneDecorations
  dsimp only
  rw [List.filter_eq_self.mpr (fun d hd => by simpa using h d hd)]

/-- Appended aliased records do not change the rewrite at all. -/
theorem rewriteInst_decs_extra (d : Insts) (decs extra : List Instruction)
    (hal : AliasedOnly extra) (inst : Instruction) :
    rewriteInst d (decs ++ extra) inst = rewriteInst d decs inst := by
  by_cases hch : (findInst d (inst.getIdOperand 0)).opcode = Op.OpAccessChain
  · by_cases hpsb : (findInst d (findInst d ((findInst d
        (inst.getIdOperand 0)).getIdOperand 0)).typeId).getImmediateOperand 0
        = StorageClassPhysicalStorageBufferEXT
    · rw [rewriteInst_eq_psb d (decs ++ extra) inst hch hpsb,
        rewriteInst_eq_psb d decs inst hch hpsb,
        chainAlignment_evolved (DefsEvolved.all_same d) decs extra hal]
    · rw [rewriteInst_eq_not_psb d (decs ++ extra) inst hch hpsb,
        rewriteInst_eq_not_psb d decs inst hch hpsb]
  · rw [rewriteInst_eq_not_chain d (decs ++ extra) inst hch,
      rewriteInst_eq_not_chain d decs inst hch]

theorem any_append_left {l l2 : List Instruction} (p : Instruction → Bool)
    (h : l.any p = true) : (l ++ l2).any p = true := by
  rw [List.any_append, h]
  rfl

theorem fillLocalVar_any_mono (b : Builder) (v : Instruction) (p : Instruction → Bool)
    (h : b.decorations.any p = true) :
    (b.fillLocalVar v).decorations.any p = true := by
  rcases fillLocalVar_decorations b v with hd | hd
  · rw [hd]; exact h
  · rw [hd]; exact any_append_left p h

/-- After the fill of a block, every byte-addressable local variable of that
block has an aliasing marker. -/
theorem fillVars_marker_aux (defs : Insts) (fl : Nat) :
    ∀ (vars : List Instruction) (s : Builder), s.allInstructions = defs → s.fuel = fl →
      ∀ v ∈ vars,
        containsPhysicalStorageBufferOrArray defs fl (getDerefTypeId defs v.getResultId) = true →
        (vars.foldl Builder.fillLocalVar s).decorations.any
          (aliasMarkerFor v.getResultId) = true := by
  intro vars
  induction vars with
  | nil => intro s _ _ v hv; cases hv
  | cons w l ih =>
    intro s hdefs hfl v hv hpsb
    simp only [List.foldl_cons]
    rcases List.mem_cons.mp hv with rfl | hv2
    · have hafter : (s.fillLocalVar v).decorations.any (aliasMarkerFor v.getResultId) = true := by
        unfold Builder.fillLocalVar
        dsimp only
        rw [hdefs, hfl, if_pos hpsb]
        by_cases hfound : s.decorations.any (aliasMarkerFor v.getResultId) = true
        · rw [if_pos hfound]; exact hfound
        · rw [if_neg hfound]
          rw [List.any_append]
          simp [aliasMarkerFor_aliasedDecoration_self]
      have : ∀ (l2 : List Instruction) (s2 : Builder),
          s2.decorations.any (aliasMarkerFor v.getResultId) = true →
          (l2.foldl Builder.fillLocalVar s2).decorations.any
            (aliasMarkerFor v.getResultId) = true := by
        intro l2
        induction l2 with
        | nil => intro s2 h2; exact h2
        | cons w2 l2 ih2 =>
          intro s2 h2
          simp only [List.foldl_cons]
          exact ih2 _ (fillLocalVar_any_mono s2 w2 _ h2)
      exact this l (s.fillLocalVar v) hafter
    · exact ih (s.fillLocalVar w)
        (by rw [fillLocalVar_allInstructions]; exact hdefs)
        (by unfold Builder.fuel; rw [fillLocalVar_allInstructions]; exact hfl)
        v hv2 hpsb


theorem sweep_functions (b : Builder) : b.sweep.functions = b.functions := by
  unfold Builder.sweep
  exact foldl_proj_eq Builder.functions _ _ sweepStep_functions b

theorem sweep_allInstructions (b : Builder) : b.sweep.allInstructions = b.allInstructions := by
  unfold Builder.sweep
  exact foldl_proj_eq Builder.allInstructions _ _ sweepStep_allInstructions b

theorem sweep_globals (b : Builder) : b.sweep.globals = b.globals := by
  unfold Builder.sweep
  exact foldl_proj_eq Builder.globals _ _ sweepStep_globals b

/-- The state just before the fill of a given block, inside the first run. -/
theorem pkg_fill (pb : Builder) (fi bi : Nat)
    (hfi : fi < pb.functions.length)
    (hbi : bi < (pb.functions.getD fi default).blocks.length) :
    ∃ sF : Builder, BEvolved pb sF ∧
      BEvolved (sF.fillVars fi bi) pb.processAllFunctions := by
  have hsplitF : pb.processAllFunctions =
      (List.range' (fi + 1) (pb.functions.length - fi - 1)).foldl Builder.processFunctionAt
        (((List.range fi).foldl Builder.processFunctionAt pb).processFunctionAt fi) := by
    unfold Builder.processAllFunctions
    rw [foldl_range_split _ _ fi hfi]
  have hA : BEvolved pb ((List.range fi).foldl Builder.processFunctionAt pb) :=
    bevolved_foldl _ _ (fun s x => BEvolved.processFunctionAt s x) pb
  generalize hsA : (List.range fi).foldl Builder.processFunctionAt pb = sA at *
  have hsplitB : sA.processFunctionAt fi =
      (List.range' (bi + 1) ((pb.functions.getD fi default).blocks.length - bi - 1)).foldl
        (fun s bj => s.processBlockAt fi bj)
        (((List.range bi).foldl (fun s bj => s.processBlockAt fi bj) sA).processBlockAt fi bi)
      := by
    unfold Builder.processFunctionAt
    rw [hA.blocks_len fi, foldl_range_split _ _ bi hbi]
  have hA2 : BEvolved sA ((List.range bi).foldl (fun s bj => s.processBlockAt fi bj) sA) :=
    bevolved_foldl _ _ (fun s bj => BEvolved.processBlockAt s fi bj) sA
  generalize hsB : (List.range bi).foldl (fun s bj => s.processBlockAt fi bj) sA = sB at *
  refine ⟨sB.processInsts fi bi, (hA.through hA2).through (BEvolved.processInsts sB fi bi), ?_⟩
  have hPB : sB.processBlockAt fi bi = (sB.processInsts fi bi).fillVars fi bi := rfl
  rw [hsplitF, hsplitB, ← hPB]
  exact (bevolved_foldl _ _ (fun s bj => BEvolved.processBlockAt s fi bj) _).through
    (bevolved_foldl _ _ (fun s x => BEvolved.processFunctionAt s x) _)


theorem BEvolved.grows {b b' : Builder} (h : BEvolved b b') : CapsGrow b b' := h.2.2.2.1

theorem BEvolved.spv {b b' : Builder} (h : BEvolved b b') : b'.spvVersion = b.spvVersion :=
  h.2.2.2.2

theorem BEvolved.decs_append {b b' : Builder} (h : BEvolved b b') :
    ∃ extra, b'.decorations = b.decorations ++ extra ∧ AliasedOnly extra := h.2.2.1

theorem bevolved_prune_to_final (b : Builder) :
    BEvolved b.pruneDecorations b.postProcessAll :=
  (BEvolved.processAllFunctions _).through (BEvolved.sweep _)

theorem instAt_mem_allInstructions (b : Builder) (fi bi ii : Nat)
    (hfi : fi < b.functions.length)
    (hbi : bi < (b.functions.getD fi default).blocks.length)
    (hii : ii < ((b.functions.getD fi default).blocks.getD bi default).instructions.length) :
    b.instAt fi bi ii ∈ b.allInstructions := by
  unfold Builder.instAt Builder.blockAtPos Builder.allInstructions
  refine List.mem_append.mpr (Or.inr ?_)
  refine List.mem_flatMap.mpr ⟨_, getD_mem _ _ hfi, ?_⟩
  refine List.mem_flatMap.mpr ⟨_, getD_mem _ _ hbi, ?_⟩
  exact List.mem_append.mpr (Or.inr (getD_mem _ _ hii))

theorem rewriteOf_ls (b : Builder) (inst : Instruction)
    (h : inst.opcode = Op.OpLoad ∨ inst.opcode = Op.OpStore) :
    b.rewriteOf inst = rewriteInst b.allInstructions b.decorations inst := by
  unfold Builder.rewriteOf
  rw [if_pos h]

theorem rewriteOf_not_ls (b : Builder) (inst : Instruction)
    (h : ¬(inst.opcode = Op.OpLoad ∨ inst.opcode = Op.OpStore)) :
    b.rewriteOf inst = inst := by
  unfold Builder.rewriteOf
  rw [if_neg h]

/-- After the pass, no surviving or appended decoration targets an orphaned
id, so the second prune is the identity. -/
theorem final_prune_fix (b : Builder) (hWF1 : ∀ r ∈ b.localVarIds, r ∉ b.orphanedIds) :
    ∀ d ∈ b.postProcessAll.decorations,
      d.getIdOperand 0 ∉ b.postProcessAll.orphanedIds := by
  intro d hd
  have horph : b.postProcessAll.orphanedIds = b.orphanedIds :=
    (bevolved_prune_to_final b).orphanedIds
  rw [horph]
  rcases processAllFunctions_dec b.pruneDecorations with ⟨rest, h1, h2⟩
  rw [show b.postProcessAll.decorations = b.pruneDecorations.decorations ++ rest from by
    unfold Builder.postProcessAll
    rw [sweep_decorations]
    exact h1] at hd
  rcases List.mem_append.mp hd with hsur | hrest
  · rw [pruneDecorations_decorations] at hsur
    simpa using (List.mem_filter.mp hsur).2
  · rcases h2 d hrest with ⟨r, hr, rfl⟩
    rw [pruneDecorations_localVarIds] at hr
    rw [show (aliasedDecoration r).getIdOperand 0 = r from by
      simp [aliasedDecoration, Instruction.getIdOperand]]
    exact hWF1 r hr

/-- After the pass, every stored instruction is a fixed point of the rewrite
and all the requests its processing would issue are already present. -/
theorem final_inst_facts (b : Builder)
    (hWF2 : ∀ i ∈ b.allInstructions, ∀ w ∈ i.operands, w < 2^32)
    (hWF3 : ∀ d ∈ b.decorations, ∀ w ∈ d.operands, w < 2^32)
    (fi bi ii : Nat)
    (hfi : fi < b.postProcessAll.functions.length)
    (hbi : bi < (b.postProcessAll.functions.getD fi default).blocks.length)
    (hii : ii < ((b.postProcessAll.functions.getD fi default).blocks.getD
      bi default).instructions.length) :
    b.postProcessAll.rewriteOf (b.postProcessAll.instAt fi bi ii) =
      b.postProcessAll.instAt fi bi ii ∧
    (∀ c ∈ (instReqs b.postProcessAll.allInstructions b.postProcessAll.fuel
        b.postProcessAll.spvVersion (b.postProcessAll.instAt fi bi ii)).1,
      c ∈ b.postProcessAll.capabilities) ∧
    (∀ e ∈ (instReqs b.postProcessAll.allInstructions b.postProcessAll.fuel
        b.postProcessAll.spvVersion (b.postProcessAll.instAt fi bi ii)).2,
      e ∈ b.postProcessAll.extensions) := by
  have hEv : BEvolved b.pruneDecorations b.postProcessAll := bevolved_prune_to_final b
  -- transport validity to the pruned state
  have hfi' : fi < b.pruneDecorations.functions.length := by
    rw [← hEv.functions_len]; exact hfi
  have hbi' : bi < (b.pruneDecorations.functions.getD fi default).blocks.length := by
    rw [← hEv.blocks_len fi]; exact hbi
  have hii' : ii < ((b.pruneDecorations.functions.getD fi default).blocks.getD
      bi default).instructions.length := by
    have h := hEv.insts_len fi bi
    unfold Builder.blockAtPos at h
    omega
  rcases pkg_all b.pruneDecorations fi bi ii hfi' hbi' hii' with
    ⟨s0, t, hpb_s0, hs0inst, hs0P2, htP2, hstored, hreqc, hreqe⟩
  have hsw : BEvolved b.pruneDecorations.processAllFunctions b.postProcessAll :=
    BEvolved.sweep _
  have hs0b1 : BEvolved s0 b.postProcessAll := hs0P2.through hsw
  have htb1 : BEvolved t b.postProcessAll := htP2.through hsw
  have hb1inst : b.postProcessAll.instAt fi bi ii =
      s0.rewriteOf (b.pruneDecorations.instAt fi bi ii) := by
    rw [← hstored]
    exact instAt_congr_functions (sweep_functions _) fi bi ii
  refine ⟨?_, ?_, ?_⟩
  · -- fixed point
    rw [hb1inst]
    have hopc : (s0.rewriteOf (b.pruneDecorations.instAt fi bi ii)).opcode =
        (b.pruneDecorations.instAt fi bi ii).opcode :=
      (rewriteOf_evolved s0 _).opcode
    rcases hpb_s0.decs_append with ⟨extra0, hde0, hale0⟩
    rcases hs0b1.decs_append with ⟨extra1, hde1, hale1⟩
    by_cases hls : (b.pruneDecorations.instAt fi bi ii).opcode = Op.OpLoad ∨
        (b.pruneDecorations.instAt fi bi ii).opcode = Op.OpStore
    · have hstored_eq : s0.rewriteOf (b.pruneDecorations.instAt fi bi ii) =
          rewriteInst s0.allInstructions b.pruneDecorations.decorations
            (b.pruneDecorations.instAt fi bi ii) := by
        rw [rewriteOf_ls s0 _ hls, hde0, rewriteInst_decs_extra _ _ _ hale0]
      have hdecs_b1 : b.postProcessAll.decorations =
          b.pruneDecorations.decorations ++ (extra0 ++ extra1) := by
        rw [hde1, hde0, List.append_assoc]
      rw [rewriteOf_ls b.postProcessAll _ (by rw [hopc]; exact hls),
        hstored_eq, hdecs_b1]
      refine rewriteInst_fixpoint _ _ _ hs0b1.defs (hale0.append hale1) ?_ ?_
      · intro rec hrec
        rw [pruneDecorations_decorations] at hrec
        exact hWF3 rec (List.mem_filter.mp hrec).1
      · have hbinst : b.pruneDecorations.instAt fi bi ii = b.instAt fi bi ii := rfl
        rw [hbinst]
        exact hWF2 _ (instAt_mem_allInstructions b fi bi ii hfi' hbi' hii')
    · rw [rewriteOf_not_ls b.postProcessAll _ (by rw [hopc]; exact hls)]
  · intro c hc
    rw [hb1inst, instReqs_evolved hs0b1.defs, hs0b1.fuel, hs0b1.spv] at hc
    exact htb1.grows.mem_cap (hreqc c hc)
  · intro e he
    rw [hb1inst, instReqs_evolved hs0b1.defs, hs0b1.fuel, hs0b1.spv] at he
    exact htb1.grows.mem_ext (hreqe e he)


theorem groupedTypesPointer_congr {s s' : Builder} (h : s'.globals = s.globals) :
    s'.groupedTypesPointer = s.groupedTypesPointer := by
  unfold Builder.groupedTypesPointer
  rw [h]

/-- After the pass, every byte-addressable local variable has an aliasing
marker in the decoration list. -/
theorem final_fill_marker (b : Builder) (fi bi : Nat) (v : Instruction)
    (hv : v ∈ (b.postProcessAll.blockAtPos fi bi).localVariables)
    (hpsb : containsPhysicalStorageBufferOrArray b.postProcessAll.allInstructions
      b.postProcessAll.fuel
      (getDerefTypeId b.postProcessAll.allInstructions v.getResultId) = true) :
    b.postProcessAll.decorations.any (aliasMarkerFor v.getResultId) = true := by
  have hEv : BEvolved b.pruneDecorations b.postProcessAll := bevolved_prune_to_final b
  by_cases hfi : fi < b.pruneDecorations.functions.length
  · by_cases hbi : bi < (b.pruneDecorations.functions.getD fi default).blocks.length
    · rcases pkg_fill b.pruneDecorations fi bi hfi hbi with ⟨sF, hpbF, hfillP2⟩
      have hfillb1 : BEvolved (sF.fillVars fi bi) b.postProcessAll :=
        hfillP2.through (BEvolved.sweep _)
      have hsFb1 : BEvolved sF b.postProcessAll :=
        (BEvolved.fillVars sF fi bi).through hfillb1
      have hv' : v ∈ (sF.blockAtPos fi bi).localVariables := by
        have hv2 := hv
        rw [hsFb1.localVars_at fi bi] at hv2
        exact hv2
      have hpsb' : containsPhysicalStorageBufferOrArray sF.allInstructions sF.fuel
          (getDerefTypeId sF.allInstructions v.getResultId) = true := by
        rw [containsPhysicalStorageBufferOrArray_evolved hsFb1.defs, hsFb1.fuel,
          getDerefTypeId_evolved hsFb1.defs] at hpsb
        exact hpsb
      have hmark : (sF.fillVars fi bi).decorations.any (aliasMarkerFor v.getResultId) = true := by
        unfold Builder.fillVars
        exact fillVars_marker_aux sF.allInstructions sF.fuel _ sF rfl rfl v hv' hpsb'
      rcases hfillb1.decs_append with ⟨extra, hde, _⟩
      rw [hde]
      exact any_append_left _ hmark
    · exfalso
      have : (b.postProcessAll.blockAtPos fi bi).localVariables = [] := by
        unfold Builder.blockAtPos
        rw [getD_eq_default _ bi (by rw [hEv.blocks_len fi]; omega)]
        rfl
      rw [this] at hv
      cases hv
  · exfalso
    have : (b.postProcessAll.blockAtPos fi bi).localVariables = [] := by
      unfold Builder.blockAtPos
      rw [getD_eq_default _ fi (by rw [hEv.functions_len]; omega)]
      rfl
    rw [this] at hv
    cases hv

/-- After the pass, every byte-addressable pointer type already has its
storage extensions and capabilities requested. -/
theorem final_sweep_mem (b : Builder) (t : Instruction)
    (ht : t ∈ b.postProcessAll.groupedTypesPointer)
    (hsc : t.getImmediateOperand 0 = StorageClassPhysicalStorageBufferEXT) :
    (containsType b.postProcessAll.allInstructions b.postProcessAll.fuel
        (t.getIdOperand 1) Op.OpTypeInt 8 = true →
      E_SPV_KHR_8bit_storage ∈ b.postProcessAll.extensions ∧
      CapabilityStorageBuffer8BitAccess ∈ b.postProcessAll.capabilities) ∧
    ((containsType b.postProcessAll.allInstructions b.postProcessAll.fuel
        (t.getIdOperand 1) Op.OpTypeInt 16 = true ∨
      containsType b.postProcessAll.allInstructions b.postProcessAll.fuel
        (t.getIdOperand 1) Op.OpTypeFloat 16 = true) →
      E_SPV_KHR_16bit_storage ∈ b.postProcessAll.extensions ∧
      CapabilityStorageBuffer16BitAccess ∈ b.postProcessAll.capabilities) := by
  have hP2 : b.postProcessAll = (b.pruneDecorations.processAllFunctions).sweep := rfl
  have hgrp : b.postProcessAll.groupedTypesPointer =
      (b.pruneDecorations.processAllFunctions).groupedTypesPointer := by
    rw [hP2]
    exact groupedTypesPointer_congr (sweep_globals _)
  have hdefs : b.postProcessAll.allInstructions =
      (b.pruneDecorations.processAllFunctions).allInstructions := by
    rw [hP2]
    exact sweep_allInstructions _
  have hfl : b.postProcessAll.fuel = (b.pruneDecorations.processAllFunctions).fuel := by
    unfold Builder.fuel
    rw [hdefs]
  rw [hgrp] at ht
  rw [hdefs, hfl]
  constructor
  · intro hc8
    have := sweep_aux_mem8 t hsc (b.pruneDecorations.processAllFunctions).groupedTypesPointer
      (b.pruneDecorations.processAllFunctions) ht hc8
    exact this
  · intro hc16
    have := sweep_aux_mem16 t hsc (b.pruneDecorations.processAllFunctions).groupedTypesPointer
      (b.pruneDecorations.processAllFunctions) ht hc16
    exact this

/-- A state on which every phase is a no-op is a fixed point of the pass. -/
theorem postProcessAll_id (b1 : Builder)
    (hprune : ∀ d ∈ b1.decorations, d.getIdOperand 0 ∉ b1.orphanedIds)
    (hinst : ∀ fi bi ii, fi < b1.functions.length →
      bi < (b1.functions.getD fi default).blocks.length →
      ii < ((b1.functions.getD fi default).blocks.getD bi default).instructions.length →
      b1.rewriteOf (b1.instAt fi bi ii) = b1.instAt fi bi ii ∧
      (∀ c ∈ (instReqs b1.allInstructions b1.fuel b1.spvVersion (b1.instAt fi bi ii)).1,
        c ∈ b1.capabilities) ∧
      (∀ e ∈ (instReqs b1.allInstructions b1.fuel b1.spvVersion (b1.instAt fi bi ii)).2,
        e ∈ b1.extensions))
    (hfill : ∀ fi bi, ∀ v ∈ (b1.blockAtPos fi bi).localVariables,
      containsPhysicalStorageBufferOrArray b1.allInstructions b1.fuel
        (getDerefTypeId b1.allInstructions v.getResultId) = true →
      b1.decorations.any (aliasMarkerFor v.getResultId) = true)
    (hsweep : ∀ t ∈ b1.groupedTypesPointer,
      t.getImmediateOperand 0 = StorageClassPhysicalStorageBufferEXT →
      (containsType b1.allInstructions b1.fuel (t.getIdOperand 1) Op.OpTypeInt 8 = true →
        E_SPV_KHR_8bit_storage ∈ b1.extensions ∧
        CapabilityStorageBuffer8BitAccess ∈ b1.capabilities) ∧
      ((containsType b1.allInstructions b1.fuel (t.getIdOperand 1) Op.OpTypeInt 16 = true ∨
        containsType b1.allInstructions b1.fuel (t.getIdOperand 1) Op.OpTypeFloat 16 = true) →
        E_SPV_KHR_16bit_storage ∈ b1.extensions ∧
        CapabilityStorageBuffer16BitAccess ∈ b1.capabilities)) :
    b1.postProcessAll = b1 := by
  unfold Builder.postProcessAll
  rw [pruneDecorations_id b1 hprune]
  have hP : b1.processAllFunctions = b1 := by
    unfold Builder.processAllFunctions
    refine foldl_fix _ _ _ (fun fi hfi => ?_)
    have hfi' := List.mem_range.mp hfi
    unfold Builder.processFunctionAt
    refine foldl_fix _ _ _ (fun bi hbi => ?_)
    have hbi' := List.mem_range.mp hbi
    unfold Builder.processBlockAt
    have hInsts : b1.processInsts fi bi = b1 := by
      unfold Builder.processInsts
      refine foldl_fix _ _ _ (fun ii hii => ?_)
      have hii' := List.mem_range.mp hii
      rcases hinst fi bi ii hfi' hbi' hii' with ⟨h1, h2, h3⟩
      exact processInstAt_id b1 fi bi ii h1 h2 h3
    rw [hInsts]
    unfold Builder.fillVars
    refine foldl_fix _ _ _ (fun v hv => ?_)
    exact fillLocalVar_id b1 v (fun hpsb => hfill fi bi v hv hpsb)
  rw [hP]
  unfold Builder.sweep
  refine foldl_fix _ _ _ (fun t ht => ?_)
  exact sweepStep_id b1 t (fun hsc hc8 => (hsweep t ht hsc).1 hc8)
    (fun hsc hc16 => (hsweep t ht hsc).2 hc16)


/-- C2: on a well-formed module (no local-variable id collides with an
orphaned id, and all instruction and decoration operand words are 32-bit
values), running the pass twice yields exactly the same builder state as
running it once - in particular the same capability set, the same extension
set and the same decoration list, and the alignment operands rewritten by the
first run are a fixed point of the second run. -/
theorem c2_idempotent (b : Builder)
    (hWF1 : ∀ r ∈ b.localVarIds, r ∉ b.orphanedIds)
    (hWF2 : ∀ i ∈ b.allInstructions, ∀ w ∈ i.operands, w < 2^32)
    (hWF3 : ∀ d ∈ b.decorations, ∀ w ∈ d.operands, w < 2^32) :
    b.postProcessAll.postProcessAll = b.postProcessAll :=
  postProcessAll_id b.postProcessAll
    (final_prune_fix b hWF1)
    (fun fi bi ii hfi hbi hii => final_inst_facts b hWF2 hWF3 fi bi ii hfi hbi hii)
    (fun fi bi v hv hpsb => final_fill_marker b fi bi v hv hpsb)
    (fun t ht hsc => final_sweep_mem b t ht hsc)

/-- Witness for C2: the byte-addressable load module satisfies the
well-formedness conditions and the pass is idempotent on it. -/
theorem c2_idempotent_witness :
    wBuilder.postProcessAll.postProcessAll = wBuilder.postProcessAll :=
  c2_idempotent wBuilder (by decide) (by decide) (by decide)

end Spv
